import Mathlib

/-!
# Parallel pattern matching: one black rectangle in a two-coloured grid

A shallow embedding of `src/main.c`.  The grid is a `char` buffer read through
`rectangle[i * columns + j]`; it is modelled as a function from the flat index
to the character stored there, so that the partition handed to a process is
the same buffer shifted by the offset of the partition.  Row and column
numbers are natural numbers, the entries of a result array are integers.  The
scan of `search` only computes `i - 1`, `j - 1`, `rows - 1` and `columns - 1`
from indices of the grid, which cannot overflow an `int`; the two places of
`main` that can (the offset added to a result, which holds the placeholder
`INT_MAX` when no end was fixed, and the `+ 1` on its last row) are reduced
to the range of a 32-bit `int` by `wrapInt`.  The `goto moreThenOne` of
`search` and the `break` of the merge loop of `main` are the `Except.error`
exit of `forLoop`, which carries the state reached at the jump.
-/

namespace PatternMatching

/-! ## Constants and data -/

/-- Number of ints of one rule and of one search result. -/
def RULE_MEMBERS : Nat := 5

/-- Colour of a marked field. -/
def BLACK : Char := '#'

/-- Colour of an unmarked field. -/
def WHITE : Char := '-'

/-- Smallest value of an `int`. -/
def INT_MIN : Int := -2147483648

/-- Largest value of an `int`. -/
def INT_MAX : Int := 2147483647

/-- Value of an `int` expression whose exact value is `x`: `x` reduced to the
32-bit two's complement range. -/
def wrapInt (x : Int) : Int := (x + 2147483648) % 4294967296 - 2147483648

/-- The five ints `result[0] .. result[4]`: status, first row, first column,
last row, last column. -/
structure Result where
  status : Int
  rowStart : Int
  colStart : Int
  rowEnd : Int
  colEnd : Int
deriving DecidableEq

/-- The array view `[result[0], .., result[4]]` of a result. -/
def Result.toList (r : Result) : List Int :=
  [r.status, r.rowStart, r.colStart, r.rowEnd, r.colEnd]

/-- Local variables of `search` that live across the scan. -/
structure SearchState where
  result : Result
  foundStart : Bool
  foundRowEnd : Bool
  foundColumnEnd : Bool
deriving DecidableEq

/-- A counted loop `for (k = 0; k < n; k++) body(k)` whose body may leave the
loop for good (`goto`, `break`): `Except.error` carries the state at the jump,
`Except.ok` the state after the last iteration. -/
def forLoop {σ : Type} (n : Nat) (body : Nat → σ → Except σ σ) (s : σ) : Except σ σ :=
  match n with
  | 0 => Except.ok s
  | k + 1 =>
    match forLoop k body s with
    | Except.ok t => body k t
    | Except.error e => Except.error e

/-! ## `search` -/

/-- State of `search` before the first field is read. -/
def searchInit : SearchState :=
  { result := { status := -1, rowStart := INT_MIN, colStart := INT_MIN,
                rowEnd := INT_MAX, colEnd := INT_MAX },
    foundStart := false, foundRowEnd := false, foundColumnEnd := false }

/-- Body of the inner loop of `search` for the field `(i, j)`; `Except.error`
is `goto moreThenOne`. -/
def searchCell (rectangle : Nat → Char) (columns i j : Nat) (s : SearchState) :
    Except SearchState SearchState :=
  if rectangle (i * columns + j) = WHITE then
    -- white field
    if s.foundStart = true ∧ (j : Int) ≥ s.result.colStart then
      if s.foundColumnEnd = true then
        if (j : Int) ≤ s.result.colEnd then
          if s.foundRowEnd = true then
            if (i : Int) ≤ s.result.rowEnd then Except.error s else Except.ok s
          else
            if (j : Int) = s.result.colStart then
              -- white field under first black field in previous row
              Except.ok { s with result := { s.result with rowEnd := (i : Int) - 1 },
                                 foundRowEnd := true }
            else Except.error s
        else Except.ok s
      else
        if (i : Int) = s.result.rowStart then
          -- same row as first black field, column end found
          Except.ok { s with result := { s.result with colEnd := (j : Int) - 1 },
                             foundColumnEnd := true }
        else
          -- last element of previous row was a black field
          Except.ok { s with result := { s.result with rowEnd := (i : Int) - 1,
                                                        colEnd := (columns : Int) - 1 },
                             foundColumnEnd := true, foundRowEnd := true }
    else Except.ok s
  else
    -- black field
    if s.foundStart = true then
      if (j : Int) ≥ s.result.colStart then
        if j = 0 ∧ s.foundColumnEnd = false then
          -- previous row ended with black field
          Except.ok { s with result := { s.result with colEnd := (columns : Int) - 1 },
                             foundColumnEnd := true }
        else if s.foundColumnEnd = true then
          if (j : Int) ≤ s.result.colEnd then
            if s.foundRowEnd = true then
              if (i : Int) ≤ s.result.rowEnd then Except.ok s else Except.error s
            else Except.ok s
          else Except.error s
        else Except.ok s
      else Except.error s
    else
      -- first black field, rectangle start found
      Except.ok { s with result := { s.result with status := 1, rowStart := (i : Int),
                                                    colStart := (j : Int) },
                         foundStart := true }

/-- Inner loop of `search`: the fields of row `i`, left to right. -/
def searchRow (rectangle : Nat → Char) (columns i : Nat) (s : SearchState) :
    Except SearchState SearchState :=
  forLoop columns (fun j t => searchCell rectangle columns i j t) s

/-- Both loops of `search` over the first `rows` rows. -/
def searchLoop (rectangle : Nat → Char) (rows columns : Nat) :
    Except SearchState SearchState :=
  forLoop rows (fun i t => searchRow rectangle columns i t) searchInit

/-- The three `if` statements between the loops of `search` and its
`return result`. -/
def searchFinish (rectangle : Nat → Char) (rows columns : Nat) (s : SearchState) : Result :=
  let s1 : SearchState :=
    if s.foundRowEnd = false then
      if rectangle (rows * columns - 1) = BLACK then
        -- valid and last field is black
        { s with result := { s.result with rowEnd := (rows : Int) - 1,
                                            colEnd := (columns : Int) - 1 },
                 foundColumnEnd := true, foundRowEnd := true }
      else s
    else s
  let s2 : SearchState :=
    if s1.foundRowEnd = false then
      if s1.foundStart = true ∧ s1.foundColumnEnd = true then
        -- last row end has valid black fields
        { s1 with result := { s1.result with rowEnd := (rows : Int) - 1 },
                  foundRowEnd := true }
      else s1
    else s1
  if s2.foundStart = false then
    -- no black field
    { s2.result with status := 0 }
  else s2.result

/-- The function `search`: the result array for the partition `rectangle` of
`rows` by `columns` fields. -/
def search (rectangle : Nat → Char) (rows columns : Nat) : Result :=
  match searchLoop rectangle rows columns with
  | Except.ok s => searchFinish rectangle rows columns s
  | Except.error s => { s.result with status := 2 }

/-! ## `main`: partitioning, gathering, merging -/

/-- Value of `rowsPart` on process `rank` at the call of `search`: the block
height `(rows + size - 1) / size`, replaced on the last process by
`rows % rowsPart` when that is not zero. -/
def rowsPart (rows size rank : Nat) : Nat :=
  let rp := (rows + size - 1) / size
  if rank = size - 1 ∧ rows % rp ≠ 0 then rows % rp else rp

/-- The buffer `rectanglePart` that `MPI_Scatter` hands to process `rank`:
`sendcount` fields from offset `rank * sendcount`, where `sendcount` is the
block height times `columns`. -/
def rectanglePart (rectangle : Nat → Char) (rows columns size rank : Nat) : Nat → Char :=
  fun k => rectangle (rank * ((rows + size - 1) / size * columns) + k)

/-- The `resultPart` computed by process `rank`. -/
def resultPart (rectangle : Nat → Char) (rows columns size rank : Nat) : Result :=
  search (rectanglePart rectangle rows columns size rank) (rowsPart rows size rank) columns

/-- First loop of process 0 after `MPI_Gather`: add the offset `i * rowsPart`
to the two row entries of every gathered result, in `int` arithmetic. -/
def addOffset (rowsPart : Int) (results : Nat → Result) : Nat → Result :=
  fun i =>
    { results i with
      rowStart := wrapInt ((results i).rowStart + (i : Int) * rowsPart),
      rowEnd := wrapInt ((results i).rowEnd + (i : Int) * rowsPart) }

/-- Variables of the merge loop of `main`. -/
structure MergeState where
  result : Result
  breaked : Bool
  nextIsWrong : Bool
deriving DecidableEq

/-- State of the merge loop before the first gathered result. -/
def mergeInit : MergeState :=
  { result := { status := 0, rowStart := INT_MIN, colStart := INT_MIN,
                rowEnd := INT_MAX, colEnd := INT_MAX },
    breaked := false, nextIsWrong := false }

/-- The statement `if ((results[i*5+3] + 1) % rowsPart != 0) nextIsWrong = true`. -/
def markNext (rowsPart : Int) (r : Result) (st : MergeState) : MergeState :=
  if Int.tmod (wrapInt (r.rowEnd + 1)) rowsPart ≠ 0 then
    -- black rectangle isn't at the end of the part
    { st with nextIsWrong := true }
  else st

/-- Body of the merge loop of `main` for the gathered result `r`;
`Except.error` is `break`. -/
def mergeStep (rowsPart : Int) (r : Result) (st : MergeState) :
    Except MergeState MergeState :=
  if r.status = 2 then
    -- more then one black rectangle
    Except.error { st with breaked := true }
  else if r.status = 1 then
    if st.result.status = 0 then
      -- first black rectangle found
      Except.ok (markNext rowsPart r { st with result := r })
    else
      -- all other rectangles
      if st.nextIsWrong = true ∨
          (st.result.status = 1 ∧ wrapInt (st.result.rowEnd + 1) ≠ r.rowStart) then
        -- gap between two black rectangles
        Except.error { st with breaked := true }
      else if st.result.colStart ≠ r.colStart ∨ st.result.colEnd ≠ r.colEnd then
        -- vertical shifted rectangles
        Except.error { st with breaked := true }
      else
        Except.ok (markNext rowsPart r
          { st with result := { st.result with rowEnd := r.rowEnd, colEnd := r.colEnd } })
  else Except.ok st

/-- The merge loop of `main` over `size` gathered results (offsets already
added), followed by `if (breaked) result[0] = 2`. -/
def merge (rowsPart : Int) (size : Nat) (results : Nat → Result) : Result :=
  let st : MergeState :=
    match forLoop size (fun i t => mergeStep rowsPart (results i) t) mergeInit with
    | Except.ok t => t
    | Except.error t => t
  if st.breaked = true then { st.result with status := 2 } else st.result

/-- The final `result` of `main` on process 0 for a grid of `rows` by `columns`
fields distributed over `size` processes. -/
def main (rectangle : Nat → Char) (rows columns size : Nat) : Result :=
  merge (rowsPart rows size 0) size
    (addOffset (rowsPart rows size 0) (fun i => resultPart rectangle rows columns size i))

/-- The grid buffer holding the given fields; an index past the end reads as
`WHITE`. -/
def gridOf (cells : List Char) : Nat → Char :=
  fun k => cells.getD k WHITE

/-! ## Specification vocabulary and scan states -/

/-- Sum of the partition heights of processes `0 .. size - 1`. -/
def heightSum (rows size : Nat) : Nat :=
  ((List.range size).map (fun rank => rowsPart rows size rank)).sum

/-- The partitions of `size` processes tile the `rows` rows exactly: the
heights used by the processes sum to `rows`. -/
def tilesExactly (rows size : Nat) : Prop := heightSum rows size = rows

instance tilesExactlyDecidable (rows size : Nat) : Decidable (tilesExactly rows size) := by
  unfold tilesExactly; infer_instance

/-- The block height `(rows + size - 1) / size`. -/
def blockHeight (rows size : Nat) : Nat := (rows + size - 1) / size

/-- Every field read before position `(i, j)` is white. -/
def WhiteBefore (rectangle : Nat → Char) (columns i j : Nat) : Prop :=
  ∀ a b, b < columns → (a < i ∨ (a = i ∧ b < j)) → rectangle (a * columns + b) = WHITE

/-- All fields of the partition are white. -/
def AllWhite (rectangle : Nat → Char) (rows columns : Nat) : Prop :=
  ∀ i j, i < rows → j < columns → rectangle (i * columns + j) = WHITE

/-- While no black field was met the state is the initial one and all fields
read are white; afterwards the status is 1 and the partition has a field that
is not white. -/
def StartInv (rectangle : Nat → Char) (rows columns i j : Nat) (s : SearchState) : Prop :=
  (s.foundStart = false → s = searchInit ∧ WhiteBefore rectangle columns i j) ∧
  (s.foundStart = true → s.result.status = 1 ∧ ¬ AllWhite rectangle rows columns)

/-- State of `search` after the first black field `(rs, cs)`, before any end
was fixed. -/
def openState (rs cs : Int) : SearchState :=
  { result := { status := 1, rowStart := rs, colStart := cs, rowEnd := INT_MAX,
                colEnd := INT_MAX },
    foundStart := true, foundRowEnd := false, foundColumnEnd := false }

/-- State of `search` after the column end `ce` was fixed. -/
def colState (rs cs ce : Int) : SearchState :=
  { result := { status := 1, rowStart := rs, colStart := cs, rowEnd := INT_MAX,
                colEnd := ce },
    foundStart := true, foundRowEnd := false, foundColumnEnd := true }

/-- State of `search` after both ends were fixed. -/
def doneState (rs cs re ce : Int) : SearchState :=
  { result := { status := 1, rowStart := rs, colStart := cs, rowEnd := re, colEnd := ce },
    foundStart := true, foundRowEnd := true, foundColumnEnd := true }

/-- Among the first `n` rows the fields that are not white are exactly those
of the box with inclusive corners `(r1, c1)` and `(r2, c2)`. -/
def MarkedBox (rectangle : Nat → Char) (columns n r1 c1 r2 c2 : Nat) : Prop :=
  ∀ i j, i < n → j < columns →
    (rectangle (i * columns + j) ≠ WHITE ↔ (r1 ≤ i ∧ i ≤ r2 ∧ c1 ≤ j ∧ j ≤ c2))

/-- State of the scan of a grid whose marked fields are the box
`(r1, c1, r2, c2)`, just before the field `(i, j)` is read: initial up to the
first field of the box, then open at the bottom until the field below the
first column of the box is read, then closed. -/
def BoxInv (columns r1 c1 r2 c2 i j : Nat) (s : SearchState) : Prop :=
  if i < r1 ∨ (i = r1 ∧ j ≤ c1) then s = searchInit
  else if i ≤ r2 ∨ (i = r2 + 1 ∧ j ≤ c1) then
    s = colState r1 c1 c2 ∨
      (s = openState r1 c1 ∧ ((i = r1 ∧ j ≤ c2 + 1) ∨ c2 + 1 = columns))
  else s = doneState r1 c1 r2 c2

/-- The marked fields of the grid rows `lo .. hi - 1` are exactly the fields
of the box `(r1, c1, r2, c2)` on these rows. -/
def MarkedIn (rectangle : Nat → Char) (columns lo hi r1 c1 r2 c2 : Nat) : Prop :=
  ∀ g j, lo ≤ g → g < hi → j < columns →
    (rectangle (g * columns + j) ≠ WHITE ↔ (r1 ≤ g ∧ g ≤ r2 ∧ c1 ≤ j ∧ j ≤ c2))

/-- The results of status 1 among the first `size` ones are exactly those of
the consecutive indices `a .. b`, every one but the last ends on the last row
`h - 1` of its block, every one but the first starts on its row 0, and all
have the same columns as the first. -/
def OneRun (h : Int) (size : Nat) (v : Nat → Result) (a b : Nat) : Prop :=
  a ≤ b ∧ b < size ∧
  (∀ i, i < size → ((v i).status = 1 ↔ (a ≤ i ∧ i ≤ b))) ∧
  (∀ i, a ≤ i → i < b → (v i).rowEnd = h - 1) ∧
  (∀ i, a < i → i ≤ b → (v i).rowStart = 0) ∧
  (∀ i, a ≤ i → i ≤ b → (v i).colStart = (v a).colStart ∧ (v i).colEnd = (v a).colEnd)

/-- The merged box of a run `a .. b`: first row and columns of the first
result, last row of the last one, rows in grid coordinates. -/
def runBox (h : Int) (v : Nat → Result) (a b : Nat) : Result :=
  { status := 1, rowStart := (v a).rowStart + (a : Int) * h, colStart := (v a).colStart,
    rowEnd := (v b).rowEnd + (b : Int) * h, colEnd := (v a).colEnd }

/-- Height of the block of process `i` among `size` processes: `h` for all
but the last one, `hl` for the last. -/
def partHeight (h hl size i : Nat) : Nat := if i + 1 = size then hl else h

/-- Bounds kept by the scan of `search` before the field `(i, j)` is read:
the first black field lies before that position, a fixed column end is a
column of the grid right of the start, a fixed row end is a row between the
start row and the current row. -/
def ScanBounds (columns i j : Nat) (s : SearchState) : Prop :=
  (s.foundStart = true →
    s.result.status = 1 ∧ 0 ≤ s.result.rowStart ∧ 0 ≤ s.result.colStart ∧
    s.result.colStart < columns ∧
    (s.result.rowStart < i ∨ (s.result.rowStart = i ∧ s.result.colStart < j))) ∧
  (s.foundColumnEnd = true →
    s.foundStart = true ∧ s.result.colStart ≤ s.result.colEnd ∧
    s.result.colEnd ≤ (columns : Int) - 1) ∧
  (s.foundRowEnd = true →
    s.foundColumnEnd = true ∧ s.result.rowStart ≤ s.result.rowEnd ∧ s.result.rowEnd < i)

/-- While the column end is not fixed, every field read since the first black
field whose column is not left of the start column is not white. -/
def OpenRun (rectangle : Nat → Char) (columns i j : Nat) (s : SearchState) : Prop :=
  s.foundStart = true → s.foundColumnEnd = false →
    ∀ a b : Nat, b < columns → (a < i ∨ (a = i ∧ b < j)) →
      (s.result.rowStart < a ∨ (s.result.rowStart = a ∧ s.result.colStart ≤ b)) →
      s.result.colStart ≤ b → rectangle (a * columns + b) ≠ WHITE

/-- A 2 x 3 grid holding the marked fields (0,1), (0,2) and (1,1): a box with
a notch. -/
def gridNotch : Nat → Char :=
  gridOf ['-', '#', '#',
          '-', '#', '-']

/-- A 1 x 1 grid whose only field was never painted: it holds a character
that is neither `WHITE` nor `BLACK`. -/
def gridUnpainted : Nat → Char :=
  gridOf ['x']

/-- The 5 x 5 grid with the rows 1..2 of the columns 1..3 marked. -/
def gridOneBox : Nat → Char :=
  gridOf ['-', '-', '-', '-', '-',
          '-', '#', '#', '#', '-',
          '-', '#', '#', '#', '-',
          '-', '-', '-', '-', '-',
          '-', '-', '-', '-', '-']

/-- The 5 x 5 grid with the boxes rows 0..1 x columns 0..1 and rows 3..4 x
columns 3..4 marked. -/
def gridTwoBoxes : Nat → Char :=
  gridOf ['#', '#', '-', '-', '-',
          '#', '#', '-', '-', '-',
          '-', '-', '-', '-', '-',
          '-', '-', '-', '#', '#',
          '-', '-', '-', '#', '#']

/-- The 6 x 5 grid with the rows 2..5 of the columns 1..3 marked. -/
def gridTallBox : Nat → Char :=
  gridOf ['-', '-', '-', '-', '-',
          '-', '-', '-', '-', '-',
          '-', '#', '#', '#', '-',
          '-', '#', '#', '#', '-',
          '-', '#', '#', '#', '-',
          '-', '#', '#', '#', '-']

/-- The 4 x 4 grid without any marked field. -/
def gridWhite : Nat → Char :=
  gridOf ['-', '-', '-', '-',
          '-', '-', '-', '-',
          '-', '-', '-', '-',
          '-', '-', '-', '-']

/-- Results of three blocks of height 2 for a box on the grid rows 2..5 and
the columns 1..3: nothing in block 0, the whole block in blocks 1 and 2. -/
def resultsThreeBlocks : Nat → Result :=
  fun i => [ ({ status := 0, rowStart := INT_MIN, colStart := INT_MIN,
                rowEnd := INT_MAX, colEnd := INT_MAX } : Result),
             { status := 1, rowStart := 0, colStart := 1, rowEnd := 1, colEnd := 3 },
             { status := 1, rowStart := 0, colStart := 1, rowEnd := 1, colEnd := 3 } ].getD i
           { status := 0, rowStart := INT_MIN, colStart := INT_MIN,
             rowEnd := INT_MAX, colEnd := INT_MAX }

/-- Three gathered results of which the second has status 2. -/
def resultsWithMany : Nat → Result :=
  fun i => [ ({ status := 1, rowStart := 0, colStart := 1, rowEnd := 1, colEnd := 3 } : Result),
             { status := 2, rowStart := 2, colStart := 0, rowEnd := INT_MAX, colEnd := 0 },
             { status := 0, rowStart := INT_MIN, colStart := INT_MIN,
               rowEnd := INT_MAX, colEnd := INT_MAX } ].getD i
           { status := 0, rowStart := INT_MIN, colStart := INT_MIN,
             rowEnd := INT_MAX, colEnd := INT_MAX }

/-- While no black field was met all fields read before `(i, j)` are white;
afterwards the start `(rowStart, colStart)` is a field read before `(i, j)`,
it is not white and every field before it is white. -/
def FirstMarked (rectangle : Nat → Char) (columns i j : Nat) (s : SearchState) : Prop :=
  (s.foundStart = false → WhiteBefore rectangle columns i j) ∧
  (s.foundStart = true →
    ∃ r c : Nat, s.result.rowStart = r ∧ s.result.colStart = c ∧ c < columns ∧
      (r < i ∨ (r = i ∧ c < j)) ∧ rectangle (r * columns + c) ≠ WHITE ∧
      WhiteBefore rectangle columns r c)

/-- Every field read before `(i, j)` that lies on or below the start row, on
or right of the start column, and within the ends fixed so far, is not
white. -/
def BoxFilled (rectangle : Nat → Char) (columns i j : Nat) (s : SearchState) : Prop :=
  s.foundStart = true →
    ∀ a b : Nat, b < columns → (a < i ∨ (a = i ∧ b < j)) →
      s.result.rowStart ≤ a → (s.foundRowEnd = true → (a : Int) ≤ s.result.rowEnd) →
      s.result.colStart ≤ b → (s.foundColumnEnd = true → (b : Int) ≤ s.result.colEnd) →
      rectangle (a * columns + b) ≠ WHITE

/-- While the column end is fixed and the row end is not, no field read
before `(i, j)` on or below the start row and on or right of the start column
that is not white lies right of the column end. -/
def ColumnCap (rectangle : Nat → Char) (columns i j : Nat) (s : SearchState) : Prop :=
  s.foundColumnEnd = true → s.foundRowEnd = false →
    ∀ a b : Nat, b < columns → (a < i ∨ (a = i ∧ b < j)) →
      s.result.rowStart ≤ a → s.result.colStart ≤ b →
      rectangle (a * columns + b) ≠ WHITE → (b : Int) ≤ s.result.colEnd

/-- A 3 x 4 grid with the marked box rows 1..2 x columns 1..2. -/
def gridSmallBox : Nat → Char :=
  gridOf ['-', '-', '-', '-',
          '-', '#', '#', '-',
          '-', '#', '#', '-']

/-- Once the column end is fixed, no field of the start row read before
`(i, j)` that is not white and not left of the start column lies right of the
column end. -/
def StartRowCap (rectangle : Nat → Char) (columns i j : Nat) (s : SearchState) : Prop :=
  s.foundColumnEnd = true →
    ∀ a b : Nat, b < columns → (a < i ∨ (a = i ∧ b < j)) →
      (a : Int) = s.result.rowStart → s.result.colStart ≤ b →
      rectangle (a * columns + b) ≠ WHITE → (b : Int) ≤ s.result.colEnd

/-- A 2 x 2 grid without a white field whose last field was never painted
`BLACK`: it holds a character that is neither `WHITE` nor `BLACK`. -/
def gridLastUnpainted : Nat → Char :=
  gridOf ['#', '#',
          '#', 'x']

/-- The scan of `search` is left by `goto moreThenOne` at the field `(i, j)`
in the state `e`: the rows before `i` and the fields of row `i` before `j`
are read without a jump, and the step for `(i, j)` jumps. -/
def ExitsAt (rectangle : Nat → Char) (rows columns i j : Nat) (e : SearchState) : Prop :=
  i < rows ∧ j < columns ∧
  ∃ t u, forLoop i (fun i2 s => searchRow rectangle columns i2 s) searchInit = Except.ok t ∧
    forLoop j (fun j2 s => searchCell rectangle columns i j2 s) t = Except.ok u ∧
    searchCell rectangle columns i j u = Except.error e

/-- A 2 x 3 grid with the marked fields (0,0) and (0,2): two boxes, the second
met at the third of six fields. -/
def gridGap : Nat → Char :=
  gridOf ['#', '-', '#',
          '-', '-', '-']

/-- The grid `gridGap` with other fields behind the third one; the last field
is neither `WHITE` nor `BLACK`. -/
def gridGapTail : Nat → Char :=
  gridOf ['#', '-', '#',
          '#', '-', 'x']

/-- The grid `gridGap` with the third field white. -/
def gridGapClosed : Nat → Char :=
  gridOf ['#', '-', '-',
          '-', '-', '-']

/-- A 2 x 2 grid whose only marked field is (0,1): the start row ends marked
and the field below the start is white. -/
def gridCorner : Nat → Char :=
  gridOf ['-', '#',
          '-', '-']

/-! ## `createRectangle` -/

/-- The configuration read from the input file: the size of the grid, the
number of rules and the flat array `rules`, five ints per rule (kind, first
row, first column, last row, last column). -/
structure Config where
  columns : Nat
  rows : Nat
  rulesCount : Nat
  rules : Nat → Int

/-- A counted loop `for (k = 0; k < n; k++) body(k)` that is never left
early. -/
def forCount {σ : Type} (n : Nat) (body : Nat → σ → σ) (s : σ) : σ :=
  match n with
  | 0 => s
  | k + 1 => body k (forCount k body s)

/-- The loop `for (int i = lo; i <= hi; i++) body(i)`. -/
def forRange {σ : Type} (lo hi : Int) (body : Int → σ → σ) (s : σ) : σ :=
  forCount (hi + 1 - lo).toNat (fun k t => body (lo + (k : Int)) t) s

/-- The assignment `rectangle[idx] = c`.  No field of the buffer has an index
below 0, so a store there changes no field. -/
def store (rectangle : Nat → Char) (idx : Int) (c : Char) : Nat → Char :=
  fun k => if (k : Int) = idx then c else rectangle k

/-- The value of `rectangle[idx]`. -/
def load (rectangle : Nat → Char) (idx : Int) : Char :=
  rectangle idx.toNat

/-- The two nested loops of one `case` of `createRectangle` over the rows
`r1 .. r2` and the columns `c1 .. c2`; `cell` is the statement executed for
the index `i * columns + j`. -/
def paintLoops (columns : Nat) (r1 c1 r2 c2 : Int)
    (cell : Int → (Nat → Char) → (Nat → Char)) (rectangle : Nat → Char) : Nat → Char :=
  forRange r1 r2
    (fun i rect => forRange c1 c2 (fun j rect2 => cell (i * (columns : Int) + j) rect2) rect)
    rectangle

/-- The `switch` statement of `createRectangle` for rule `n`. -/
def applyRule (config : Config) (n : Nat) (rectangle : Nat → Char) : Nat → Char :=
  let r1 := config.rules (n * RULE_MEMBERS + 1)
  let c1 := config.rules (n * RULE_MEMBERS + 2)
  let r2 := config.rules (n * RULE_MEMBERS + 3)
  let c2 := config.rules (n * RULE_MEMBERS + 4)
  if config.rules (n * RULE_MEMBERS) = 0 then
    -- white
    paintLoops config.columns r1 c1 r2 c2 (fun idx rect => store rect idx WHITE) rectangle
  else if config.rules (n * RULE_MEMBERS) = 1 then
    -- black
    paintLoops config.columns r1 c1 r2 c2 (fun idx rect => store rect idx BLACK) rectangle
  else if config.rules (n * RULE_MEMBERS) = 2 then
    -- toggle
    paintLoops config.columns r1 c1 r2 c2
      (fun idx rect =>
        if load rect idx = WHITE then store rect idx BLACK else store rect idx WHITE)
      rectangle
  else rectangle

/-- The function `createRectangle`; `fresh` is the content of the buffer
returned by `malloc`. -/
def createRectangle (config : Config) (fresh : Nat → Char) : Nat → Char :=
  forCount config.rulesCount (fun n rect => applyRule config n rect) fresh

/-- Specification of a paint mode: what a rule of kind `mode` makes of a field
holding `c`. -/
def paintMode (mode : Int) (c : Char) : Char :=
  if mode = 1 then BLACK
  else if mode = 0 then WHITE
  else if mode = 2 then (if c = WHITE then BLACK else WHITE)
  else c

/-- Specification: the inclusive box of rule `n` contains the field `(i, j)`. -/
def ruleCovers (config : Config) (n i j : Nat) : Prop :=
  config.rules (n * RULE_MEMBERS + 1) ≤ (i : Int) ∧
  (i : Int) ≤ config.rules (n * RULE_MEMBERS + 3) ∧
  config.rules (n * RULE_MEMBERS + 2) ≤ (j : Int) ∧
  (j : Int) ≤ config.rules (n * RULE_MEMBERS + 4)

instance ruleCoversDecidable (config : Config) (n i j : Nat) :
    Decidable (ruleCovers config n i j) := by
  unfold ruleCovers; infer_instance

/-- Specification of the rasterizer for one field: the fold, in list order
from the content `c`, of the modes of exactly those rules whose box contains
`(i, j)`. -/
def paintedField (config : Config) (i j : Nat) (c : Char) : Char :=
  ((List.range config.rulesCount).filter (fun n => decide (ruleCovers config n i j))).foldl
    (fun x n => paintMode (config.rules (n * RULE_MEMBERS)) x) c

/-- The boxes of all rules lie inside the grid. -/
def RulesInside (config : Config) : Prop :=
  ∀ n, n < config.rulesCount →
    0 ≤ config.rules (n * RULE_MEMBERS + 1) ∧
    config.rules (n * RULE_MEMBERS + 3) < (config.rows : Int) ∧
    0 ≤ config.rules (n * RULE_MEMBERS + 2) ∧
    config.rules (n * RULE_MEMBERS + 4) < (config.columns : Int)

instance rulesInsideDecidable (config : Config) : Decidable (RulesInside config) := by
  unfold RulesInside; infer_instance

/-- A 2 x 3 configuration with four rules: set the columns 0..1, toggle the
columns 1..2, a rule of the unknown kind 7 on the field (0,0), and clear the
field (1,1). -/
def configSample : Config :=
  { columns := 3, rows := 2, rulesCount := 4,
    rules := fun k => [1, 0, 0, 1, 1,
                       2, 0, 1, 1, 2,
                       7, 0, 0, 0, 0,
                       0, 1, 1, 1, 1].getD k 0 }

/-! ## Theorems -/

/-! ### Counted loops -/

theorem forLoop_succ {σ : Type} (n : Nat) (body : Nat → σ → Except σ σ) (s : σ) :
    forLoop (n + 1) body s =
      (match forLoop n body s with
       | Except.ok t => body n t
       | Except.error e => Except.error e) := rfl

theorem forLoop_succ_ok {σ : Type} {n : Nat} {body : Nat → σ → Except σ σ} {s t : σ}
    (h : forLoop n body s = Except.ok t) : forLoop (n + 1) body s = body n t := by
  rw [forLoop_succ, h]

theorem forLoop_succ_error {σ : Type} {n : Nat} {body : Nat → σ → Except σ σ} {s e : σ}
    (h : forLoop n body s = Except.error e) : forLoop (n + 1) body s = Except.error e := by
  rw [forLoop_succ, h]

theorem forLoop_error_mono {σ : Type} {body : Nat → σ → Except σ σ} {s e : σ} {k : Nat}
    (h : forLoop k body s = Except.error e) :
    ∀ n, k ≤ n → forLoop n body s = Except.error e := by
  intro n hn
  induction n with
  | zero =>
    have : k = 0 := by omega
    subst this; exact h
  | succ m ih =>
    rcases Nat.lt_or_ge k (m + 1) with hlt | hge
    · exact forLoop_succ_error (ih (by omega))
    · have : k = m + 1 := by omega
      subst this; exact h

/-- Invariant rule for a loop that is never left early. -/
theorem forLoop_invariant {σ : Type} (P : Nat → σ → Prop) (body : Nat → σ → Except σ σ)
    (n : Nat) (s : σ) (h0 : P 0 s)
    (hstep : ∀ k, k < n → ∀ t, P k t → ∃ u, body k t = Except.ok u ∧ P (k + 1) u) :
    ∃ t, forLoop n body s = Except.ok t ∧ P n t := by
  induction n with
  | zero => exact ⟨s, rfl, h0⟩
  | succ m ih =>
    obtain ⟨t, ht, hP⟩ := ih (fun k hk => hstep k (by omega))
    obtain ⟨u, hu, hPu⟩ := hstep m (by omega) t hP
    exact ⟨u, by rw [forLoop_succ_ok ht, hu], hPu⟩

theorem forLoop_congr {σ : Type} (body1 body2 : Nat → σ → Except σ σ) (n : Nat) (s : σ)
    (h : ∀ k, k < n → ∀ t, body1 k t = body2 k t) :
    forLoop n body1 s = forLoop n body2 s := by
  induction n with
  | zero => rfl
  | succ m ih =>
    rw [forLoop_succ, forLoop_succ, ih (fun k hk => h k (by omega))]
    cases forLoop m body2 s with
    | ok t => exact h m (by omega) t
    | error e => rfl

/-! ### The merge loop of `main`: exits and status -/

theorem mergeStep_error_breaked {rp : Int} {r : Result} {st e : MergeState}
    (h : mergeStep rp r st = Except.error e) : e.breaked = true := by
  unfold mergeStep at h
  split_ifs at h <;> cases h <;> rfl

theorem markNext_breaked (rp : Int) (r : Result) (st : MergeState) :
    (markNext rp r st).breaked = st.breaked := by
  unfold markNext; split_ifs <;> rfl

theorem mergeStep_ok_breaked {rp : Int} {r : Result} {st t : MergeState}
    (h : mergeStep rp r st = Except.ok t) : t.breaked = st.breaked ∧ r.status ≠ 2 := by
  unfold mergeStep at h
  split_ifs at h with h2 <;> cases h <;> exact ⟨by simp [markNext_breaked], h2⟩

theorem mergeStep_ok_result {rp : Int} {r : Result} {st t : MergeState}
    (h : mergeStep rp r st = Except.ok t)
    (hst : st.result.status = 0 ∨ st.result.status = 1) :
    (r.status ≠ 1 ∧ t = st) ∨
    (r.status = 1 ∧ t.result.status = 1 ∧ t.result.rowEnd = r.rowEnd) := by
  unfold mergeStep at h
  unfold markNext at h
  have hs1 : st.result.status ≠ 0 → st.result.status = 1 := fun hne =>
    hst.resolve_left hne
  split_ifs at h with h2 h1 h0 <;> first
    | (cases h; right; exact ⟨h1, h1, rfl⟩)
    | (cases h; left; exact ⟨h1, rfl⟩)
    | (cases h; right; exact ⟨h1, hs1 h0, rfl⟩)

/-- Outcome of the merge loop after `n` gathered results: either it was left
by `break` with `breaked` set, or `breaked` is clear, no status read was 2, and
the accumulated result is still empty (no status read was 1) or holds status 1
and the last row of some result of status 1 read so far. -/
theorem mergeLoop_cases (rp : Int) (results : Nat → Result) (n : Nat) :
    (∃ e, forLoop n (fun i t => mergeStep rp (results i) t) mergeInit = Except.error e ∧
        e.breaked = true) ∨
    (∃ t, forLoop n (fun i t => mergeStep rp (results i) t) mergeInit = Except.ok t ∧
        t.breaked = false ∧ (∀ i, i < n → (results i).status ≠ 2) ∧
        ((t.result.status = 0 ∧ ∀ i, i < n → (results i).status ≠ 1) ∨
         (t.result.status = 1 ∧ ∃ p, p < n ∧ (results p).status = 1 ∧
            t.result.rowEnd = (results p).rowEnd))) := by
  induction n with
  | zero =>
    right
    exact ⟨mergeInit, rfl, rfl, fun i hi => absurd hi (Nat.not_lt_zero i),
      Or.inl ⟨rfl, fun i hi => absurd hi (Nat.not_lt_zero i)⟩⟩
  | succ m ih =>
    rcases ih with ⟨e, he, hb⟩ | ⟨t, ht, hb, hall, hacc⟩
    · left; exact ⟨e, forLoop_succ_error he, hb⟩
    · rw [forLoop_succ_ok ht]
      cases hstep : mergeStep rp (results m) t with
      | error e => left; exact ⟨e, rfl, mergeStep_error_breaked hstep⟩
      | ok u =>
        right
        obtain ⟨h1, h2⟩ := mergeStep_ok_breaked hstep
        refine ⟨u, rfl, by rw [h1, hb], ?_, ?_⟩
        · intro i hi
          rcases Nat.lt_or_ge i m with hlt | hge
          · exact hall i hlt
          · have : i = m := by omega
            subst this; exact h2
        · have hst : t.result.status = 0 ∨ t.result.status = 1 := by
            rcases hacc with ⟨h0, _⟩ | ⟨h1s, _⟩
            · exact Or.inl h0
            · exact Or.inr h1s
          rcases mergeStep_ok_result hstep hst with ⟨hne, rfl⟩ | ⟨h1s, hus, hur⟩
          · rcases hacc with ⟨h0, hno⟩ | ⟨h1s, p, hp, hps, hpr⟩
            · left
              refine ⟨h0, ?_⟩
              intro i hi
              rcases Nat.lt_or_ge i m with hlt | hge
              · exact hno i hlt
              · have : i = m := by omega
                subst this; exact hne
            · right
              exact ⟨h1s, p, by omega, hps, hpr⟩
          · right
            exact ⟨hus, m, by omega, h1s, hur⟩

theorem merge_many_of_exists (rp : Int) (size : Nat) (results : Nat → Result)
    (h : ∃ i, i < size ∧ (results i).status = 2) : (merge rp size results).status = 2 := by
  obtain ⟨i, hi, hs⟩ := h
  unfold merge
  rcases mergeLoop_cases rp results size with ⟨e, he, hb⟩ | ⟨t, ht, hb, hall, _⟩
  · simp [he, hb]
  · exact absurd hs (hall i hi)

/-- The merge loop is only left by `break` when some gathered status is 1
or 2. -/
theorem merge_error_exists (rp : Int) (size : Nat) (results : Nat → Result)
    (h : ∃ e, forLoop size (fun i t => mergeStep rp (results i) t) mergeInit = Except.error e) :
    ¬ ∀ i, i < size → (results i).status ≠ 1 ∧ (results i).status ≠ 2 := by
  intro hall
  have hok : ∃ t, forLoop size (fun i t => mergeStep rp (results i) t) mergeInit =
      Except.ok t := by
    obtain ⟨t, ht, _⟩ := forLoop_invariant (fun _ t => t = mergeInit)
      (fun i t => mergeStep rp (results i) t) size mergeInit rfl
      (fun k hk t ht => by
        subst ht
        refine ⟨mergeInit, ?_, rfl⟩
        simp only [mergeStep, (hall k hk).1, (hall k hk).2, if_false])
    exact ⟨t, ht⟩
  obtain ⟨e, he⟩ := h
  obtain ⟨t, ht⟩ := hok
  rw [he] at ht; cases ht

/-- The merged status is 0 exactly when no gathered status is 1 or 2. -/
theorem merge_status_zero_iff (rp : Int) (size : Nat) (results : Nat → Result) :
    (merge rp size results).status = 0 ↔
      ∀ i, i < size → (results i).status ≠ 1 ∧ (results i).status ≠ 2 := by
  unfold merge
  rcases mergeLoop_cases rp results size with ⟨e, he, hb⟩ | ⟨t, ht, hb, hall, hacc⟩
  · simp only [he, hb, if_true]
    constructor
    · intro h; cases h
    · intro h
      exact absurd h (merge_error_exists rp size results ⟨e, he⟩)
  · simp only [ht, hb]
    rcases hacc with ⟨h0, hno⟩ | ⟨h1s, p, hp, hps, _⟩
    · constructor
      · intro _ i hi; exact ⟨hno i hi, hall i hi⟩
      · intro _; simpa using h0
    · constructor
      · intro h; simp [h1s] at h
      · intro h; exact absurd hps (h p hp).1

/-- A result of status 1 whose first row does not follow the last row of any
earlier result of status 1, with at least one such earlier result, makes the
merged status 2. -/
theorem merge_many_of_gap (rp : Int) (size : Nat) (results : Nat → Result) (c : Nat)
    (hc : c < size) (hcs : (results c).status = 1)
    (hex : ∃ p, p < c ∧ (results p).status = 1)
    (hgap : ∀ p, p < c → (results p).status = 1 →
      wrapInt ((results p).rowEnd + 1) ≠ (results c).rowStart) :
    (merge rp size results).status = 2 := by
  have herr : ∃ e, forLoop (c + 1) (fun i t => mergeStep rp (results i) t) mergeInit =
      Except.error e ∧ e.breaked = true := by
    rcases mergeLoop_cases rp results c with ⟨e, he, hb⟩ | ⟨t, ht, hb, hall, hacc⟩
    · exact ⟨e, forLoop_succ_error he, hb⟩
    · rcases hacc with ⟨_, hno⟩ | ⟨h1s, p, hp, hps, hpr⟩
      · obtain ⟨p, hp, hps⟩ := hex
        exact absurd hps (hno p hp)
      · have hg := hgap p hp hps
        refine ⟨{ t with breaked := true }, ?_, rfl⟩
        rw [forLoop_succ_ok ht]
        unfold mergeStep
        have h2 : (results c).status ≠ 2 := by rw [hcs]; decide
        have h0 : t.result.status ≠ 0 := by rw [h1s]; decide
        rw [← hpr] at hg
        simp [h2, hcs, h0, h1s, hg]
  obtain ⟨e, he, hb⟩ := herr
  unfold merge
  rw [forLoop_error_mono he size (by omega)]
  simp [hb]

/-! ### Partition heights -/

theorem rowsPart_of_lt {rows size rank : Nat} (h : rank + 1 < size) :
    rowsPart rows size rank = blockHeight rows size := by
  unfold rowsPart blockHeight
  have : rank ≠ size - 1 := by omega
  simp [this]

theorem blockHeight_pos {rows size : Nat} (hr : 1 ≤ rows) (hs : 1 ≤ size) :
    1 ≤ blockHeight rows size := by
  unfold blockHeight
  exact (Nat.one_le_div_iff (by omega)).2 (by omega)

theorem rows_le_size_mul {rows size : Nat} (hs : 1 ≤ size) :
    rows ≤ size * blockHeight rows size := by
  unfold blockHeight
  have h1 := Nat.div_add_mod (rows + size - 1) size
  have h2 := Nat.mod_lt (rows + size - 1) (show size > 0 by omega)
  omega

theorem blockHeight_pred_lt {rows size : Nat} (hr : 1 ≤ rows) (hs : 1 ≤ size) :
    size * (blockHeight rows size - 1) < rows := by
  unfold blockHeight
  have h1 := Nat.div_add_mod (rows + size - 1) size
  have h2 := Nat.mod_lt (rows + size - 1) (show size > 0 by omega)
  have h3 : 1 ≤ (rows + size - 1) / size := (Nat.one_le_div_iff (by omega)).2 (by omega)
  obtain ⟨q, hq⟩ : ∃ q, (rows + size - 1) / size = q + 1 := ⟨(rows + size - 1) / size - 1, by omega⟩
  rw [hq] at h1 ⊢
  simp only [Nat.add_sub_cancel]
  rw [Nat.mul_succ] at h1
  omega

theorem heightSum_upto (rows size n : Nat) (hn : n + 1 ≤ size) :
    ((List.range n).map (fun rank => rowsPart rows size rank)).sum =
      n * blockHeight rows size := by
  induction n with
  | zero => simp
  | succ m ih =>
    rw [List.range_succ, List.map_append, List.sum_append, ih (by omega)]
    simp [rowsPart_of_lt (show m + 1 < size by omega)]
    ring

theorem heightSum_eq {rows size : Nat} (hs : 1 ≤ size) :
    heightSum rows size =
      (size - 1) * blockHeight rows size + rowsPart rows size (size - 1) := by
  unfold heightSum
  obtain ⟨n, rfl⟩ : ∃ n, size = n + 1 := ⟨size - 1, by omega⟩
  rw [List.range_succ, List.map_append, List.sum_append, heightSum_upto rows (n + 1) n (by omega)]
  simp

theorem rowsPart_last {rows size : Nat} :
    rowsPart rows size (size - 1) =
      if rows % blockHeight rows size ≠ 0 then rows % blockHeight rows size
      else blockHeight rows size := by
  unfold rowsPart blockHeight
  simp

/-- The heights sum to `rows` exactly when the blocks before the last one
leave at least one row for the last process. -/
theorem tilesExactly_iff {rows size : Nat} (hr : 1 ≤ rows) (hs : 1 ≤ size) :
    tilesExactly rows size ↔ (size - 1) * blockHeight rows size < rows := by
  unfold tilesExactly
  rw [heightSum_eq hs, rowsPart_last]
  have hpos := blockHeight_pos hr hs
  have hle := @rows_le_size_mul rows size hs
  have hdm := Nat.div_add_mod rows (blockHeight rows size)
  have hml := Nat.mod_lt rows (show blockHeight rows size > 0 by omega)
  obtain ⟨n, rfl⟩ : ∃ n, size = n + 1 := ⟨size - 1, by omega⟩
  simp only [Nat.add_sub_cancel] at *
  generalize blockHeight rows (n + 1) = h at *
  generalize hq : rows / h = q at *
  generalize hm : rows % h = m at *
  rw [Nat.mul_comm h q] at hdm
  rw [Nat.succ_mul] at hle
  split_ifs with hz
  · constructor
    · intro he; omega
    · intro hlt
      have h3 : q = n := by
        rcases Nat.lt_trichotomy q n with h5 | h5 | h5
        · have := Nat.mul_le_mul_right h (show q + 1 ≤ n by omega)
          rw [Nat.succ_mul] at this
          omega
        · exact h5
        · have := Nat.mul_le_mul_right h (show n + 1 ≤ q by omega)
          rw [Nat.succ_mul] at this
          omega
      subst h3
      omega
  · have hm0 : m = 0 := by omega
    subst hm0
    constructor
    · intro he
      omega
    · intro hlt
      rcases Nat.lt_or_ge q (n + 1) with h5 | h5
      · have := Nat.mul_le_mul_right h (show q ≤ n by omega)
        omega
      · have := Nat.mul_le_mul_right h h5
        rw [Nat.succ_mul] at this
        omega

/-! ### Invariant rules for the scan of `search` -/

/-- Invariant rule for a loop that may be left early: `P` holds after every
completed iteration, `E` of the state carried by an early exit. -/
theorem forLoop_rule {σ : Type} (P : Nat → σ → Prop) (E : σ → Prop)
    (body : Nat → σ → Except σ σ) (n : Nat) (s : σ) (h0 : P 0 s)
    (hstep : ∀ k, k < n → ∀ t, P k t →
      (∃ u, body k t = Except.ok u ∧ P (k + 1) u) ∨ (∃ e, body k t = Except.error e ∧ E e)) :
    (∃ t, forLoop n body s = Except.ok t ∧ P n t) ∨
      (∃ e, forLoop n body s = Except.error e ∧ E e) := by
  induction n with
  | zero => exact Or.inl ⟨s, rfl, h0⟩
  | succ m ih =>
    rcases ih (fun k hk => hstep k (by omega)) with ⟨t, ht, hP⟩ | ⟨e, he, hE⟩
    · rcases hstep m (by omega) t hP with ⟨u, hu, hPu⟩ | ⟨e, he, hE⟩
      · exact Or.inl ⟨u, by rw [forLoop_succ_ok ht, hu], hPu⟩
      · exact Or.inr ⟨e, by rw [forLoop_succ_ok ht, he], hE⟩
    · exact Or.inr ⟨e, forLoop_succ_error he, hE⟩

/-- Invariant rule for the two nested loops of `search`, indexed by the
position `(i, j)` of the next field to read. -/
theorem searchLoop_rule (rectangle : Nat → Char) (rows columns : Nat)
    (P : Nat → Nat → SearchState → Prop) (E : SearchState → Prop)
    (h0 : P 0 0 searchInit)
    (hcell : ∀ i j s, i < rows → j < columns → P i j s →
      (∃ u, searchCell rectangle columns i j s = Except.ok u ∧ P i (j + 1) u) ∨
      (∃ e, searchCell rectangle columns i j s = Except.error e ∧ E e))
    (hrow : ∀ i s, i < rows → P i columns s → P (i + 1) 0 s) :
    (∃ t, searchLoop rectangle rows columns = Except.ok t ∧ P rows 0 t) ∨
      (∃ e, searchLoop rectangle rows columns = Except.error e ∧ E e) := by
  unfold searchLoop
  apply forLoop_rule (fun i s => P i 0 s) E
  · exact h0
  · intro i hi t hP
    unfold searchRow
    rcases forLoop_rule (fun j s => P i j s) E
        (fun j u => searchCell rectangle columns i j u) columns t hP
        (fun j hj u hu => hcell i j u hi hj hu) with ⟨u, hu, hPu⟩ | ⟨e, he, hE⟩
    · exact Or.inl ⟨u, hu, hrow i u hi hPu⟩
    · exact Or.inr ⟨e, he, hE⟩

/-- The nested-loop rule for a scan that is never left by `goto`. -/
theorem searchLoop_invariant (rectangle : Nat → Char) (rows columns : Nat)
    (P : Nat → Nat → SearchState → Prop)
    (h0 : P 0 0 searchInit)
    (hcell : ∀ i j s, i < rows → j < columns → P i j s →
      ∃ u, searchCell rectangle columns i j s = Except.ok u ∧ P i (j + 1) u)
    (hrow : ∀ i s, i < rows → P i columns s → P (i + 1) 0 s) :
    ∃ t, searchLoop rectangle rows columns = Except.ok t ∧ P rows 0 t := by
  rcases searchLoop_rule rectangle rows columns P (fun _ => False) h0
      (fun i j s hi hj hP => Or.inl (hcell i j s hi hj hP)) hrow with h | ⟨e, _, hE⟩
  · exact h
  · exact absurd hE id

/-! ### Status 0 of `search`: no marked field -/

theorem searchCell_startInv (rectangle : Nat → Char) (rows columns i j : Nat)
    (s : SearchState) (hi : i < rows) (hj : j < columns)
    (h : StartInv rectangle rows columns i j s) :
    (∃ u, searchCell rectangle columns i j s = Except.ok u ∧
        StartInv rectangle rows columns i (j + 1) u) ∨
    (∃ e, searchCell rectangle columns i j s = Except.error e ∧
        ¬ AllWhite rectangle rows columns) := by
  unfold StartInv at h ⊢
  obtain ⟨h1, h2⟩ := h
  cases hfs : s.foundStart with
  | false =>
    left
    obtain ⟨hinit, hw⟩ := h1 hfs
    by_cases hc : rectangle (i * columns + j) = WHITE
    · refine ⟨s, by simp [searchCell, hc, hfs], ?_, by simp [hfs]⟩
      intro _
      unfold WhiteBefore at hw ⊢
      refine ⟨hinit, ?_⟩
      intro a b hb hab
      rcases hab with hlt | ⟨rfl, hlt⟩
      · exact hw a b hb (Or.inl hlt)
      · rcases Nat.lt_or_ge b j with h3 | h3
        · exact hw a b hb (Or.inr ⟨rfl, h3⟩)
        · have : b = j := by omega
          subst this; exact hc
    · refine ⟨_, by simp only [searchCell, hc, hfs, if_false]; rfl, ?_⟩
      constructor
      · intro hcontra; simp at hcontra
      · intro _; exact ⟨rfl, fun hall => hc (hall i j hi hj)⟩
  | true =>
    obtain ⟨hst, hnw⟩ := h2 hfs
    cases hres : searchCell rectangle columns i j s with
    | error e => exact Or.inr ⟨e, rfl, hnw⟩
    | ok u =>
      left
      refine ⟨u, rfl, ?_⟩
      unfold searchCell at hres
      have : u.foundStart = true ∧ u.result.status = 1 := by
        split_ifs at hres <;> cases hres <;> exact ⟨hfs, hst⟩
      exact ⟨fun hf => absurd (this.1.symm.trans hf) (by decide), fun _ => ⟨this.2, hnw⟩⟩

theorem searchFinish_status (rectangle : Nat → Char) (rows columns : Nat) (s : SearchState) :
    (searchFinish rectangle rows columns s).status =
      if s.foundStart = false then 0 else s.result.status := by
  unfold searchFinish
  simp only
  split_ifs <;> simp_all

/-- The status returned by `search` is 0, 1 or 2, and it is 0 exactly when
every field of the partition is white. -/
theorem search_status (rectangle : Nat → Char) (rows columns : Nat) :
    ((search rectangle rows columns).status = 0 ∧ AllWhite rectangle rows columns) ∨
    (((search rectangle rows columns).status = 1 ∨ (search rectangle rows columns).status = 2) ∧
      ¬ AllWhite rectangle rows columns) := by
  rcases searchLoop_rule rectangle rows columns (StartInv rectangle rows columns)
      (fun _ => ¬ AllWhite rectangle rows columns)
      ⟨fun _ => ⟨rfl, fun a b _ hab => by omega⟩, fun h => by simp [searchInit] at h⟩
      (fun i j s hi hj hP => searchCell_startInv rectangle rows columns i j s hi hj hP)
      (fun i s _ hP => by
        unfold StartInv at hP ⊢
        refine ⟨fun hf => ⟨(hP.1 hf).1, ?_⟩, hP.2⟩
        intro a b hb hab
        refine (hP.1 hf).2 a b hb ?_
        omega) with ⟨t, ht, hP⟩ | ⟨e, he, hE⟩
  · unfold search
    rw [ht]
    simp only [searchFinish_status]
    cases hfs : t.foundStart with
    | false =>
      left
      refine ⟨by simp, ?_⟩
      intro i j hi hj
      exact (hP.1 hfs).2 i j hj (Or.inl hi)
    | true =>
      right
      exact ⟨Or.inl (by simpa using (hP.2 hfs).1), (hP.2 hfs).2⟩
  · right
    unfold search
    rw [he]
    exact ⟨Or.inr rfl, hE⟩

theorem search_status_zero_iff (rectangle : Nat → Char) (rows columns : Nat) :
    (search rectangle rows columns).status = 0 ↔ AllWhite rectangle rows columns := by
  rcases search_status rectangle rows columns with ⟨h0, hw⟩ | ⟨h12, hnw⟩
  · exact ⟨fun _ => hw, fun _ => h0⟩
  · constructor
    · intro h0; rcases h12 with h | h <;> rw [h0] at h <;> cases h
    · intro hw; exact absurd hw hnw

/-! ### Partitions as views of the grid -/

theorem rowsPart_zero {rows size : Nat} (_hr : 1 ≤ rows) (hs : 1 ≤ size) :
    rowsPart rows size 0 = blockHeight rows size := by
  rcases Nat.lt_or_ge 1 size with h | h
  · exact rowsPart_of_lt (by omega)
  · have : size = 1 := by omega
    subst this
    unfold rowsPart blockHeight
    simp

/-- Under exact tiling the last process holds the rows left by the full
blocks before it. -/
theorem rowsPart_last_of_tiles {rows size : Nat} (hs : 1 ≤ size)
    (ht : tilesExactly rows size) :
    rowsPart rows size (size - 1) = rows - (size - 1) * blockHeight rows size := by
  unfold tilesExactly at ht
  rw [heightSum_eq hs] at ht
  omega

/-- Under exact tiling every local row of every process is a row of the grid. -/
theorem tiles_row_lt {rows size rank a : Nat} (hr : 1 ≤ rows) (hs : 1 ≤ size)
    (ht : tilesExactly rows size) (hrank : rank < size) (ha : a < rowsPart rows size rank) :
    rank * blockHeight rows size + a < rows := by
  have hlt := (tilesExactly_iff hr hs).1 ht
  rcases Nat.lt_or_ge (rank + 1) size with h | h
  · rw [rowsPart_of_lt h] at ha
    have := Nat.mul_le_mul_right (blockHeight rows size) (show rank + 1 ≤ size - 1 by omega)
    rw [Nat.succ_mul] at this
    omega
  · have : rank = size - 1 := by omega
    subst this
    rw [rowsPart_last_of_tiles hs ht] at ha
    omega

/-- Under exact tiling every row of the grid is a local row of exactly the
process `i / blockHeight`. -/
theorem tiles_row_mem {rows size i : Nat} (hr : 1 ≤ rows) (hs : 1 ≤ size)
    (ht : tilesExactly rows size) (hi : i < rows) :
    i / blockHeight rows size < size ∧
      i % blockHeight rows size < rowsPart rows size (i / blockHeight rows size) ∧
      i / blockHeight rows size * blockHeight rows size + i % blockHeight rows size = i := by
  have hpos := blockHeight_pos hr hs
  have hle := @rows_le_size_mul rows size hs
  have hdm := Nat.div_add_mod i (blockHeight rows size)
  have hml := Nat.mod_lt i (show blockHeight rows size > 0 by omega)
  rw [Nat.mul_comm] at hdm
  have hq : i / blockHeight rows size < size := by
    rcases Nat.lt_or_ge (i / blockHeight rows size) size with h | h
    · exact h
    · have := Nat.mul_le_mul_right (blockHeight rows size) h
      omega
  refine ⟨hq, ?_, hdm⟩
  rcases Nat.lt_or_ge (i / blockHeight rows size + 1) size with h | h
  · rw [rowsPart_of_lt h]; exact hml
  · have : i / blockHeight rows size = size - 1 := by omega
    rw [this, rowsPart_last_of_tiles hs ht]
    rw [this] at hdm
    omega

/-- The field `(a, j)` of the buffer of process `rank` is the field
`(rank * blockHeight + a, j)` of the grid. -/
theorem rectanglePart_cell (rectangle : Nat → Char) (rows columns size rank a j : Nat) :
    rectanglePart rectangle rows columns size rank (a * columns + j) =
      rectangle ((rank * blockHeight rows size + a) * columns + j) := by
  unfold rectanglePart blockHeight
  congr 1
  ring

theorem addOffset_status (rp : Int) (results : Nat → Result) (i : Nat) :
    (addOffset rp results i).status = (results i).status := rfl

/-- Under exact tiling all fields of the grid are white exactly when all
fields of every partition are white. -/
theorem allWhite_iff_parts (rectangle : Nat → Char) {rows columns size : Nat}
    (hr : 1 ≤ rows) (hs : 1 ≤ size) (ht : tilesExactly rows size) :
    AllWhite rectangle rows columns ↔
      ∀ rank, rank < size →
        AllWhite (rectanglePart rectangle rows columns size rank)
          (rowsPart rows size rank) columns := by
  constructor
  · intro h rank hrank a j ha hj
    rw [rectanglePart_cell]
    exact h _ j (tiles_row_lt hr hs ht hrank ha) hj
  · intro h i j hi hj
    obtain ⟨h1, h2, h3⟩ := tiles_row_mem hr hs ht hi
    have := h _ h1 _ j h2 hj
    rw [rectanglePart_cell, h3] at this
    exact this

theorem main_status_zero_iff (rectangle : Nat → Char) {rows columns size : Nat}
    (hr : 1 ≤ rows) (hs : 1 ≤ size) (ht : tilesExactly rows size) :
    (main rectangle rows columns size).status = 0 ↔ AllWhite rectangle rows columns := by
  unfold main
  rw [merge_status_zero_iff, allWhite_iff_parts rectangle hr hs ht]
  constructor
  · intro h rank hrank
    have h0 := h rank hrank
    simp only [addOffset_status] at h0
    rcases search_status (rectanglePart rectangle rows columns size rank)
        (rowsPart rows size rank) columns with ⟨_, hw⟩ | ⟨h12, _⟩
    · exact hw
    · unfold resultPart at h0
      rcases h12 with h1 | h2
      · exact absurd h1 h0.1
      · exact absurd h2 h0.2
  · intro h rank hrank
    simp only [addOffset_status]
    have := (search_status_zero_iff (rectanglePart rectangle rows columns size rank)
        (rowsPart rows size rank) columns).2 (h rank hrank)
    unfold resultPart
    rw [this]
    exact ⟨by decide, by decide⟩

theorem rowsPart_le (rows size rank : Nat) (hr : 1 ≤ rows) (hs : 1 ≤ size) :
    rowsPart rows size rank ≤ blockHeight rows size := by
  have hpos := blockHeight_pos hr hs
  unfold rowsPart
  simp only
  split_ifs
  · exact Nat.le_of_lt (Nat.mod_lt _ (by unfold blockHeight at hpos; omega))
  · exact Nat.le_refl _

theorem rowsPart_pos (rows size rank : Nat) (hr : 1 ≤ rows) (hs : 1 ≤ size) :
    1 ≤ rowsPart rows size rank := by
  have hpos := blockHeight_pos hr hs
  unfold rowsPart
  simp only
  split_ifs with h
  · omega
  · exact hpos

/-! ### The scan of a grid whose marked fields are one box -/

theorem searchCell_init_white (rectangle : Nat → Char) (columns i j : Nat)
    (hw : rectangle (i * columns + j) = WHITE) :
    searchCell rectangle columns i j searchInit = Except.ok searchInit := by
  simp [searchCell, hw, searchInit]

theorem searchCell_init_black (rectangle : Nat → Char) (columns i j : Nat)
    (hb : rectangle (i * columns + j) ≠ WHITE) :
    searchCell rectangle columns i j searchInit = Except.ok (openState i j) := by
  simp [searchCell, hb, searchInit, openState]

theorem searchCell_open_black (rectangle : Nat → Char) (columns i j : Nat)
    (rs cs : Int) (hb : rectangle (i * columns + j) ≠ WHITE)
    (hj : cs ≤ j) :
    searchCell rectangle columns i j (openState rs cs) =
      Except.ok (if j = 0 then colState rs cs ((columns : Int) - 1) else openState rs cs) := by
  by_cases h0 : j = 0
  · subst h0
    simp only [Nat.add_zero, Nat.cast_zero] at hb hj
    simp [searchCell, hb, openState, colState, hj]
  · simp [searchCell, hb, openState, hj, h0]

theorem searchCell_open_white_left (rectangle : Nat → Char) (columns i j : Nat)
    (rs cs : Int) (hw : rectangle (i * columns + j) = WHITE)
    (hj : (j : Int) < cs) :
    searchCell rectangle columns i j (openState rs cs) = Except.ok (openState rs cs) := by
  have : ¬ (cs ≤ (j : Int)) := by omega
  simp [searchCell, hw, openState, this]

theorem searchCell_open_white_first (rectangle : Nat → Char) (columns i j : Nat)
    (cs : Int) (hw : rectangle (i * columns + j) = WHITE)
    (hj : cs ≤ j) :
    searchCell rectangle columns i j (openState i cs) =
      Except.ok (colState i cs ((j : Int) - 1)) := by
  simp [searchCell, hw, openState, colState, hj]

theorem searchCell_open_white_below (rectangle : Nat → Char) (columns i j : Nat)
    (rs cs : Int) (hw : rectangle (i * columns + j) = WHITE)
    (hj : cs ≤ j) (hi : (i : Int) ≠ rs) :
    searchCell rectangle columns i j (openState rs cs) =
      Except.ok (doneState rs cs ((i : Int) - 1) ((columns : Int) - 1)) := by
  simp [searchCell, hw, openState, doneState, hj, hi]

theorem searchCell_col_black (rectangle : Nat → Char) (columns i j : Nat)
    (rs cs ce : Int) (hb : rectangle (i * columns + j) ≠ WHITE)
    (h1 : cs ≤ j) (h2 : (j : Int) ≤ ce) :
    searchCell rectangle columns i j (colState rs cs ce) = Except.ok (colState rs cs ce) := by
  simp [searchCell, hb, colState, h1, h2]

theorem searchCell_col_white_out (rectangle : Nat → Char) (columns i j : Nat)
    (rs cs ce : Int) (hw : rectangle (i * columns + j) = WHITE)
    (h : (j : Int) < cs ∨ ce < j) :
    searchCell rectangle columns i j (colState rs cs ce) = Except.ok (colState rs cs ce) := by
  by_cases h1 : cs ≤ (j : Int)
  · have : ¬ ((j : Int) ≤ ce) := by omega
    simp [searchCell, hw, colState, h1, this]
  · simp [searchCell, hw, colState, h1]

theorem searchCell_col_white_start (rectangle : Nat → Char) (columns i j : Nat)
    (rs cs ce : Int) (hw : rectangle (i * columns + j) = WHITE)
    (h1 : (j : Int) = cs) (h2 : cs ≤ ce) :
    searchCell rectangle columns i j (colState rs cs ce) =
      Except.ok (doneState rs cs ((i : Int) - 1) ce) := by
  subst h1
  simp [searchCell, hw, colState, doneState, h2]

theorem searchCell_done_white (rectangle : Nat → Char) (columns i j : Nat)
    (rs cs re ce : Int) (hw : rectangle (i * columns + j) = WHITE)
    (hi : re < i) :
    searchCell rectangle columns i j (doneState rs cs re ce) =
      Except.ok (doneState rs cs re ce) := by
  have : ¬ ((i : Int) ≤ re) := by omega
  by_cases h1 : cs ≤ (j : Int) <;> by_cases h2 : (j : Int) ≤ ce <;>
    simp [searchCell, hw, doneState, h1, h2, this]

theorem searchCell_done_black (rectangle : Nat → Char) (columns i j : Nat)
    (rs cs re ce : Int) (hb : rectangle (i * columns + j) ≠ WHITE)
    (hi : re < i) :
    searchCell rectangle columns i j (doneState rs cs re ce) =
      Except.error (doneState rs cs re ce) := by
  have : ¬ ((i : Int) ≤ re) := by omega
  by_cases h1 : cs ≤ (j : Int) <;> by_cases h2 : (j : Int) ≤ ce <;>
    simp [searchCell, hb, doneState, h1, h2, this]

theorem boxInv_before {columns r1 c1 r2 c2 i j : Nat} {s : SearchState}
    (h : i < r1 ∨ (i = r1 ∧ j ≤ c1)) :
    BoxInv columns r1 c1 r2 c2 i j s ↔ s = searchInit := by
  simp [BoxInv, h]

theorem boxInv_mid {columns r1 c1 r2 c2 i j : Nat} {s : SearchState}
    (h1 : ¬ (i < r1 ∨ (i = r1 ∧ j ≤ c1))) (h2 : i ≤ r2 ∨ (i = r2 + 1 ∧ j ≤ c1)) :
    BoxInv columns r1 c1 r2 c2 i j s ↔
      (s = colState r1 c1 c2 ∨
        (s = openState r1 c1 ∧ ((i = r1 ∧ j ≤ c2 + 1) ∨ c2 + 1 = columns))) := by
  simp only [BoxInv, h1, h2, if_false, if_true]

theorem boxInv_done {columns r1 c1 r2 c2 i j : Nat} {s : SearchState}
    (h1 : ¬ (i < r1 ∨ (i = r1 ∧ j ≤ c1))) (h2 : ¬ (i ≤ r2 ∨ (i = r2 + 1 ∧ j ≤ c1))) :
    BoxInv columns r1 c1 r2 c2 i j s ↔ s = doneState r1 c1 r2 c2 := by
  simp only [BoxInv, h1, h2, if_false]

theorem searchCell_boxInv (rectangle : Nat → Char) (columns r1 c1 r2 c2 i j : Nat)
    (s : SearchState) (hj : j < columns) (_hr : r1 ≤ r2) (hc : c1 ≤ c2) (hc2 : c2 < columns)
    (hcell : rectangle (i * columns + j) ≠ WHITE ↔ (r1 ≤ i ∧ i ≤ r2 ∧ c1 ≤ j ∧ j ≤ c2))
    (h : BoxInv columns r1 c1 r2 c2 i j s) :
    ∃ u, searchCell rectangle columns i j s = Except.ok u ∧
      BoxInv columns r1 c1 r2 c2 i (j + 1) u := by
  by_cases hA : i < r1 ∨ (i = r1 ∧ j ≤ c1)
  · -- no field of the box was read yet
    rw [boxInv_before hA] at h
    subst h
    by_cases hin : r1 ≤ i ∧ i ≤ r2 ∧ c1 ≤ j ∧ j ≤ c2
    · have hi : i = r1 := by omega
      have hjc : j = c1 := by omega
      subst hi; subst hjc
      refine ⟨_, searchCell_init_black rectangle columns i j (hcell.2 hin), ?_⟩
      rw [boxInv_mid (by omega) (by omega)]
      exact Or.inr ⟨rfl, Or.inl ⟨rfl, by omega⟩⟩
    · have hw : rectangle (i * columns + j) = WHITE := by
        by_contra hne; exact hin (hcell.1 hne)
      refine ⟨_, searchCell_init_white rectangle columns i j hw, ?_⟩
      rw [boxInv_before (by omega)]
  · by_cases hB : i ≤ r2 ∨ (i = r2 + 1 ∧ j ≤ c1)
    · -- the box is open at the bottom
      rw [boxInv_mid hA hB] at h
      by_cases hin : r1 ≤ i ∧ i ≤ r2 ∧ c1 ≤ j ∧ j ≤ c2
      · have hb := hcell.2 hin
        rcases h with rfl | ⟨rfl, hpos⟩
        · refine ⟨_, searchCell_col_black rectangle columns i j _ _ _ hb
            (by omega) (by omega), ?_⟩
          rw [boxInv_mid (by omega) (by omega)]
          exact Or.inl rfl
        · refine ⟨_, searchCell_open_black rectangle columns i j _ _ hb (by omega), ?_⟩
          rw [boxInv_mid (by omega) (by omega)]
          by_cases h0 : j = 0
          · left
            have : c2 + 1 = columns := by omega
            rw [if_pos h0]
            simp only [colState]
            congr 2
            omega
          · right
            rw [if_neg h0]
            exact ⟨rfl, by omega⟩
      · have hw : rectangle (i * columns + j) = WHITE := by
          by_contra hne; exact hin (hcell.1 hne)
        rcases Nat.lt_trichotomy j c1 with hlt | heq | hgt
        · -- left of the box
          have hstay : BoxInv columns r1 c1 r2 c2 i (j + 1) s := by
            rw [boxInv_mid (by omega) (by omega)]
            rcases h with rfl | ⟨rfl, hpos⟩
            · exact Or.inl rfl
            · exact Or.inr ⟨rfl, by omega⟩
          rcases h with rfl | ⟨rfl, hpos⟩
          · exact ⟨_, searchCell_col_white_out rectangle columns i j _ _ _ hw
              (Or.inl (by omega)), hstay⟩
          · exact ⟨_, searchCell_open_white_left rectangle columns i j _ _ hw
              (by omega), hstay⟩
        · -- below the first column of the box
          subst heq
          have hi : i = r2 + 1 := by omega
          subst hi
          rcases h with rfl | ⟨rfl, hpos⟩
          · refine ⟨_, searchCell_col_white_start rectangle columns _ j _ _ _ hw
              rfl (by omega), ?_⟩
            rw [boxInv_done (by omega) (by omega)]
            simp only [doneState]
            congr 2
            push_cast
            omega
          · refine ⟨_, searchCell_open_white_below rectangle columns _ j _ _ hw
              (by omega) (by push_cast; omega), ?_⟩
            rw [boxInv_done (by omega) (by omega)]
            simp only [doneState]
            congr 2
            · push_cast; omega
            · omega
        · -- right of the first column of the box, on a row of the box
          have hi : i ≤ r2 := by omega
          have hj2 : c2 < j := by omega
          rcases h with rfl | ⟨rfl, hpos⟩
          · refine ⟨_, searchCell_col_white_out rectangle columns i j _ _ _ hw
              (Or.inr (by omega)), ?_⟩
            rw [boxInv_mid (by omega) (by omega)]
            exact Or.inl rfl
          · have hi1 : i = r1 := by omega
            have hj3 : j = c2 + 1 := by omega
            subst hi1; subst hj3
            refine ⟨_, searchCell_open_white_first rectangle columns i _ _ hw
              (by omega), ?_⟩
            rw [boxInv_mid (by omega) (by omega)]
            left
            simp only [colState]
            congr 2
            push_cast
            omega
    · -- the box is closed
      rw [boxInv_done hA hB] at h
      subst h
      have hw : rectangle (i * columns + j) = WHITE := by
        by_contra hne
        have := hcell.1 hne
        omega
      refine ⟨_, searchCell_done_white rectangle columns i j _ _ _ _ hw (by omega), ?_⟩
      rw [boxInv_done (by omega) (by omega)]

theorem boxInv_next_row {columns r1 c1 r2 c2 i : Nat} {s : SearchState}
    (_hr : r1 ≤ r2) (hc : c1 ≤ c2) (hc2 : c2 < columns)
    (h : BoxInv columns r1 c1 r2 c2 i columns s) :
    BoxInv columns r1 c1 r2 c2 (i + 1) 0 s := by
  by_cases hA : i < r1 ∨ (i = r1 ∧ columns ≤ c1)
  · rw [boxInv_before hA] at h
    rw [boxInv_before (by omega)]
    exact h
  · by_cases hB : i ≤ r2 ∨ (i = r2 + 1 ∧ columns ≤ c1)
    · rw [boxInv_mid hA hB] at h
      rw [boxInv_mid (by omega) (by omega)]
      rcases h with rfl | ⟨rfl, hpos⟩
      · exact Or.inl rfl
      · exact Or.inr ⟨rfl, by omega⟩
    · rw [boxInv_done hA hB] at h
      rw [boxInv_done (by omega) (by omega)]
      exact h

/-- The scan of `n` rows whose marked fields are a box is never left by
`goto`, and ends in the state described by `BoxInv`. -/
theorem searchLoop_box (rectangle : Nat → Char) (columns n r1 c1 r2 c2 : Nat)
    (hr : r1 ≤ r2) (hc : c1 ≤ c2) (hc2 : c2 < columns)
    (hbox : MarkedBox rectangle columns n r1 c1 r2 c2) :
    ∃ t, searchLoop rectangle n columns = Except.ok t ∧
      BoxInv columns r1 c1 r2 c2 n 0 t :=
  searchLoop_invariant rectangle n columns (BoxInv columns r1 c1 r2 c2)
    ((boxInv_before (by omega)).2 rfl)
    (fun i j s hi hj hP =>
      searchCell_boxInv rectangle columns r1 c1 r2 c2 i j s hj hr hc hc2 (hbox i j hi hj) hP)
    (fun _ _ _ hP => boxInv_next_row hr hc hc2 hP)

theorem last_index (rows columns : Nat) (hr : 1 ≤ rows) (hc : 1 ≤ columns) :
    rows * columns - 1 = (rows - 1) * columns + (columns - 1) := by
  obtain ⟨n, rfl⟩ : ∃ n, rows = n + 1 := ⟨rows - 1, by omega⟩
  simp only [Nat.add_sub_cancel, Nat.succ_mul]
  omega

theorem searchFinish_done (rectangle : Nat → Char) (rows columns : Nat)
    (rs cs re ce : Int) :
    searchFinish rectangle rows columns (doneState rs cs re ce) =
      { status := 1, rowStart := rs, colStart := cs, rowEnd := re, colEnd := ce } := by
  simp [searchFinish, doneState]

theorem searchFinish_col (rectangle : Nat → Char) (rows columns : Nat) (rs cs ce : Int) :
    searchFinish rectangle rows columns (colState rs cs ce) =
      { status := 1, rowStart := rs, colStart := cs, rowEnd := (rows : Int) - 1,
        colEnd := if rectangle (rows * columns - 1) = BLACK then (columns : Int) - 1 else ce } := by
  by_cases hb : rectangle (rows * columns - 1) = BLACK <;>
    simp [searchFinish, colState, hb]

theorem searchFinish_open (rectangle : Nat → Char) (rows columns : Nat) (rs cs : Int) :
    searchFinish rectangle rows columns (openState rs cs) =
      if rectangle (rows * columns - 1) = BLACK then
        { status := 1, rowStart := rs, colStart := cs, rowEnd := (rows : Int) - 1,
          colEnd := (columns : Int) - 1 }
      else
        { status := 1, rowStart := rs, colStart := cs, rowEnd := INT_MAX,
          colEnd := INT_MAX } := by
  by_cases hb : rectangle (rows * columns - 1) = BLACK <;>
    simp [searchFinish, openState, hb]

theorem black_ne_white : BLACK ≠ WHITE := by decide

/-- Result of `search` on a partition whose marked fields are exactly the box
`(r1, c1, r2, c2)`: status 1 with the first field of the box, and either the
last field of the box or, when the last field of the partition is neither
`WHITE` nor `BLACK`, possibly the two placeholders `INT_MAX`. -/
theorem search_box_cases (rectangle : Nat → Char) (rows columns r1 c1 r2 c2 : Nat)
    (hr : r1 ≤ r2) (hr2 : r2 < rows) (hc : c1 ≤ c2) (hc2 : c2 < columns)
    (hbox : MarkedBox rectangle columns rows r1 c1 r2 c2) :
    search rectangle rows columns =
        { status := 1, rowStart := r1, colStart := c1, rowEnd := r2, colEnd := c2 } ∨
    (search rectangle rows columns =
        { status := 1, rowStart := r1, colStart := c1, rowEnd := INT_MAX, colEnd := INT_MAX } ∧
      rectangle (rows * columns - 1) ≠ WHITE ∧ rectangle (rows * columns - 1) ≠ BLACK) := by
  obtain ⟨t, ht, hinv⟩ := searchLoop_box rectangle columns rows r1 c1 r2 c2 hr hc hc2 hbox
  have hlast := hbox (rows - 1) (columns - 1) (by omega) (by omega)
  rw [← last_index rows columns (by omega) (by omega)] at hlast
  unfold search
  rw [ht]
  simp only
  by_cases hB : rows ≤ r2 ∨ (rows = r2 + 1 ∧ 0 ≤ c1)
  · have hrows : rows = r2 + 1 := by omega
    rw [boxInv_mid (by omega) hB] at hinv
    have hre : (rows : Int) - 1 = (r2 : Int) := by omega
    rcases hinv with rfl | ⟨rfl, hpos⟩
    · left
      rw [searchFinish_col, hre]
      by_cases hb : rectangle (rows * columns - 1) = BLACK
      · have : rectangle (rows * columns - 1) ≠ WHITE := by rw [hb]; exact black_ne_white
        have := hlast.1 this
        rw [if_pos hb]
        congr 1
        omega
      · rw [if_neg hb]
    · rw [searchFinish_open]
      have hcol : c2 + 1 = columns := by omega
      by_cases hb : rectangle (rows * columns - 1) = BLACK
      · left
        rw [if_pos hb, hre]
        congr 1
        omega
      · right
        rw [if_neg hb]
        exact ⟨rfl, hlast.2 (by omega), hb⟩
  · rw [boxInv_done (by omega) hB] at hinv
    subst hinv
    left
    exact searchFinish_done rectangle rows columns _ _ _ _

/-- On a partition whose marked fields are exactly the box `(r1, c1, r2, c2)`
and whose last field is `WHITE` or `BLACK`, `search` returns status 1 with
that box. -/
theorem search_box (rectangle : Nat → Char) (rows columns r1 c1 r2 c2 : Nat)
    (hr : r1 ≤ r2) (hr2 : r2 < rows) (hc : c1 ≤ c2) (hc2 : c2 < columns)
    (hbox : MarkedBox rectangle columns rows r1 c1 r2 c2)
    (hlast : rectangle (rows * columns - 1) = WHITE ∨ rectangle (rows * columns - 1) = BLACK) :
    search rectangle rows columns =
      { status := 1, rowStart := r1, colStart := c1, rowEnd := r2, colEnd := c2 } := by
  rcases search_box_cases rectangle rows columns r1 c1 r2 c2 hr hr2 hc hc2 hbox with
    h | ⟨_, hw, hb⟩
  · exact h
  · rcases hlast with h | h
    · exact absurd h hw
    · exact absurd h hb

/-- A marked field on a row that lies at least two rows below a box, with
nothing else marked above it, makes `search` return status 2. -/
theorem search_box_then_black (rectangle : Nat → Char) (rows columns n r1 c1 r2 c2 j0 : Nat)
    (hr : r1 ≤ r2) (hc : c1 ≤ c2) (hc2 : c2 < columns)
    (hn : r2 + 2 ≤ n) (hrows : n < rows) (hj0 : j0 < columns)
    (hbox : MarkedBox rectangle columns n r1 c1 r2 c2)
    (hblack : rectangle (n * columns + j0) ≠ WHITE) :
    (search rectangle rows columns).status = 2 := by
  obtain ⟨t, ht, hinv⟩ := searchLoop_box rectangle columns n r1 c1 r2 c2 hr hc hc2 hbox
  rw [boxInv_done (by omega) (by omega)] at hinv
  subst hinv
  have hrow : ∃ e, searchRow rectangle columns n (doneState r1 c1 r2 c2) = Except.error e := by
    unfold searchRow
    rcases forLoop_rule
        (fun j s => s = doneState r1 c1 r2 c2 ∧
          ∀ b, b < j → rectangle (n * columns + b) = WHITE)
        (fun _ => True)
        (fun j t => searchCell rectangle columns n j t) columns (doneState r1 c1 r2 c2)
        ⟨rfl, fun b hb => absurd hb (Nat.not_lt_zero b)⟩
        (fun j hj s hs => by
          obtain ⟨rfl, hwhite⟩ := hs
          by_cases hw : rectangle (n * columns + j) = WHITE
          · left
            refine ⟨_, searchCell_done_white rectangle columns n j _ _ _ _ hw (by omega),
              rfl, ?_⟩
            intro b hb
            rcases Nat.lt_or_ge b j with h | h
            · exact hwhite b h
            · have : b = j := by omega
              subst this; exact hw
          · right
            exact ⟨_, searchCell_done_black rectangle columns n j _ _ _ _ hw (by omega),
              trivial⟩) with ⟨u, _, _, hall⟩ | ⟨e, he, _⟩
    · exact absurd (hall j0 hj0) hblack
    · exact ⟨e, he⟩
  obtain ⟨e, he⟩ := hrow
  have h1 : searchLoop rectangle (n + 1) columns = Except.error e := by
    unfold searchLoop at ht ⊢
    rw [forLoop_succ_ok ht]
    exact he
  have h2 : searchLoop rectangle rows columns = Except.error e := by
    unfold searchLoop at h1 ⊢
    exact forLoop_error_mono h1 rows (by omega)
  unfold search
  rw [h2]

/-! ### Boxes seen from a partition -/

/-- A box of the grid seen from the first `n` rows of the partition of process
`rank`, in the local row coordinates `a1 .. a2` of that partition. -/
theorem markedBox_part (rectangle : Nat → Char) (rows columns size rank n : Nat)
    (r1 c1 r2 c2 a1 a2 : Nat)
    (h : MarkedIn rectangle columns (rank * blockHeight rows size)
      (rank * blockHeight rows size + n) r1 c1 r2 c2)
    (h1 : ∀ i, i < n → (a1 ≤ i ↔ r1 ≤ rank * blockHeight rows size + i))
    (h2 : ∀ i, i < n → (i ≤ a2 ↔ rank * blockHeight rows size + i ≤ r2)) :
    MarkedBox (rectanglePart rectangle rows columns size rank) columns n a1 c1 a2 c2 := by
  intro i j hi hj
  rw [rectanglePart_cell, h _ j (by omega) (by omega) hj, h1 i hi, h2 i hi]

/-- A partition that holds rows of a box and nothing else marked: its result
has status 1, starts at the first field of the box in the partition and ends
at the last one, unless the placeholders `INT_MAX` are left. -/
theorem resultPart_box (rectangle : Nat → Char) (rows columns size rank : Nat)
    (r1 c1 r2 c2 : Nat) (hr : r1 ≤ r2) (hc : c1 ≤ c2) (hc2 : c2 < columns)
    (hpos : 1 ≤ rowsPart rows size rank)
    (h : MarkedIn rectangle columns (rank * blockHeight rows size)
      (rank * blockHeight rows size + rowsPart rows size rank) r1 c1 r2 c2)
    (hlo : rank * blockHeight rows size ≤ r2)
    (hhi : r1 < rank * blockHeight rows size + rowsPart rows size rank) :
    resultPart rectangle rows columns size rank =
        { status := 1, rowStart := ((r1 - rank * blockHeight rows size : Nat) : Int),
          colStart := c1,
          rowEnd := ((min (r2 - rank * blockHeight rows size)
            (rowsPart rows size rank - 1) : Nat) : Int),
          colEnd := c2 } ∨
    (resultPart rectangle rows columns size rank =
        { status := 1, rowStart := ((r1 - rank * blockHeight rows size : Nat) : Int),
          colStart := c1, rowEnd := INT_MAX, colEnd := INT_MAX } ∧
      rectanglePart rectangle rows columns size rank
        (rowsPart rows size rank * columns - 1) ≠ WHITE ∧
      rectanglePart rectangle rows columns size rank
        (rowsPart rows size rank * columns - 1) ≠ BLACK) := by
  unfold resultPart
  apply search_box_cases
  · omega
  · omega
  · exact hc
  · exact hc2
  · apply markedBox_part _ _ _ _ _ _ _ _ _ _ _ _ h
    · intro i hi; omega
    · intro i hi; omega

/-- A partition without any row of the only box on its rows returns status 0. -/
theorem resultPart_white (rectangle : Nat → Char) (rows columns size rank : Nat)
    (r1 c1 r2 c2 : Nat)
    (h : MarkedIn rectangle columns (rank * blockHeight rows size)
      (rank * blockHeight rows size + rowsPart rows size rank) r1 c1 r2 c2)
    (hout : r2 < rank * blockHeight rows size ∨
      rank * blockHeight rows size + rowsPart rows size rank ≤ r1) :
    (resultPart rectangle rows columns size rank).status = 0 := by
  unfold resultPart
  rw [search_status_zero_iff]
  intro i j hi hj
  rw [rectanglePart_cell]
  by_contra hne
  have := (h _ j (by omega) (by omega) hj).1 hne
  omega

/-! ### Offsets in `int` arithmetic -/

theorem addOffset_rowStart (rp : Int) (results : Nat → Result) (i : Nat) :
    (addOffset rp results i).rowStart = wrapInt ((results i).rowStart + (i : Int) * rp) := rfl

theorem addOffset_rowEnd (rp : Int) (results : Nat → Result) (i : Nat) :
    (addOffset rp results i).rowEnd = wrapInt ((results i).rowEnd + (i : Int) * rp) := rfl

theorem addOffset_colStart (rp : Int) (results : Nat → Result) (i : Nat) :
    (addOffset rp results i).colStart = (results i).colStart := rfl

theorem addOffset_colEnd (rp : Int) (results : Nat → Result) (i : Nat) :
    (addOffset rp results i).colEnd = (results i).colEnd := rfl

/-- An `int` expression whose exact value is in the range of an `int` has
that value. -/
theorem wrapInt_of_range {x : Int} (h1 : -2147483648 ≤ x) (h2 : x ≤ 2147483647) :
    wrapInt x = x := by
  unfold wrapInt
  rw [Int.emod_eq_of_lt (by omega) (by omega)]
  omega

/-- An `int` expression whose exact value exceeds `INT_MAX` by less than
`2^32` wraps around by `2^32`. -/
theorem wrapInt_above {x : Int} (h1 : 2147483647 < x) (h2 : x ≤ 6442450943) :
    wrapInt x = x - 4294967296 := by
  unfold wrapInt
  have e : x + 2147483648 = (x + 2147483648 - 4294967296) + 1 * 4294967296 := by ring
  rw [e, Int.add_mul_emod_self, Int.emod_eq_of_lt (by omega) (by omega)]
  omega

/-- The last row of a result that still holds the placeholder `INT_MAX`,
after the offset `x` and the `+ 1` of the merge loop, is negative. -/
theorem wrapInt_placeholder {x : Int} (h1 : 0 ≤ x) (h2 : x ≤ 2147483647) :
    wrapInt (wrapInt (INT_MAX + x) + 1) = x - 2147483648 := by
  unfold INT_MAX
  rcases lt_or_le 0 x with hpos | hzero
  · have e1 : wrapInt (2147483647 + x) = 2147483647 + x - 4294967296 :=
      wrapInt_above (by omega) (by omega)
    have e2 : wrapInt (2147483647 + x - 4294967296 + 1) = 2147483647 + x - 4294967296 + 1 :=
      wrapInt_of_range (by omega) (by omega)
    rw [e1, e2]
    omega
  · have hx : x = 0 := by omega
    subst hx
    have e1 : wrapInt (2147483647 + 0) = 2147483647 :=
      wrapInt_of_range (by omega) (by omega)
    have e2 : wrapInt (2147483647 + 1) = 2147483647 + 1 - 4294967296 :=
      wrapInt_above (by omega) (by omega)
    rw [e1, e2]
    omega

/-- The row after the last row of a closed box that ends two rows or more
above `r3` is not `r3`, in `int` arithmetic. -/
theorem gap_closed (m q a3 qc r2 r3 rows : Nat) (hm : m + q ≤ r2) (h : r2 + 2 ≤ r3)
    (hr : qc + a3 = r3) (hrows : r3 < rows) (hint : (rows : Int) ≤ INT_MAX) :
    wrapInt (wrapInt ((m : Int) + (q : Int)) + 1) ≠ wrapInt ((a3 : Int) + (qc : Int)) := by
  unfold INT_MAX at hint
  have e1 : wrapInt ((m : Int) + (q : Int)) = (m : Int) + (q : Int) :=
    wrapInt_of_range (by omega) (by omega)
  have e2 : wrapInt ((m : Int) + (q : Int) + 1) = (m : Int) + (q : Int) + 1 :=
    wrapInt_of_range (by omega) (by omega)
  have e3 : wrapInt ((a3 : Int) + (qc : Int)) = (a3 : Int) + (qc : Int) :=
    wrapInt_of_range (by omega) (by omega)
  rw [e1, e2, e3]
  omega

/-- The row after the placeholder `INT_MAX` with the offset of an earlier
block is negative, hence not a row of the grid, in `int` arithmetic. -/
theorem gap_placeholder (q a3 qc rows : Nat) (hq : q < rows) (hr : qc + a3 < rows)
    (hint : (rows : Int) ≤ INT_MAX) :
    wrapInt (wrapInt (INT_MAX + (q : Int)) + 1) ≠ wrapInt ((a3 : Int) + (qc : Int)) := by
  unfold INT_MAX at hint
  have e3 : wrapInt ((a3 : Int) + (qc : Int)) = (a3 : Int) + (qc : Int) :=
    wrapInt_of_range (by omega) (by omega)
  rw [wrapInt_placeholder (by omega) (by omega), e3]
  omega

/-! ### The merge loop of `main`: runs of results of status 1 -/

theorem markNext_iff (h : Int) (n : Nat) (re : Int) (hh : 1 ≤ h) (h0 : 0 ≤ re)
    (h1 : re ≤ h - 1) :
    Int.tmod (re + (n : Int) * h + 1) h ≠ 0 ↔ re ≠ h - 1 := by
  have hn : 0 ≤ (n : Int) * h := Int.mul_nonneg (Int.ofNat_nonneg n) (by omega)
  rw [Int.tmod_eq_emod (by omega) (by omega)]
  have e : re + (n : Int) * h + 1 = (re + 1) + (n : Int) * h := by ring
  rw [e, Int.add_mul_emod_self]
  constructor
  · intro hne heq
    apply hne
    rw [heq]
    simp
  · intro hne
    rw [Int.emod_eq_of_lt (by omega) (by omega)]
    omega

theorem oneRun_unique {h : Int} {size : Nat} {v : Nat → Result} {a b a2 b2 : Nat}
    (h1 : OneRun h size v a b) (h2 : OneRun h size v a2 b2) : a = a2 ∧ b = b2 := by
  obtain ⟨hab, hb, hst, _⟩ := h1
  obtain ⟨hab2, hb2, hst2, _⟩ := h2
  have e1 := (hst2 a (by omega)).1 ((hst a (by omega)).2 ⟨by omega, by omega⟩)
  have e2 := (hst2 b (by omega)).1 ((hst b (by omega)).2 ⟨by omega, by omega⟩)
  have e3 := (hst a2 (by omega)).1 ((hst2 a2 (by omega)).2 ⟨by omega, by omega⟩)
  have e4 := (hst b2 (by omega)).1 ((hst2 b2 (by omega)).2 ⟨by omega, by omega⟩)
  omega

/-- A run over more results restricts to the run over the first `n` ones
when these hold a result of status 1 at `b` and end with one at `n`. -/
theorem oneRun_extend_facts {h : Int} {v : Nat → Result} {n m a b a2 b2 : Nat}
    (hrun : OneRun h n v a b) (hn : (v n).status = 1) (hm : n < m)
    (hrun2 : OneRun h m v a2 b2) :
    a2 = a ∧ n ≤ b2 ∧ n = b + 1 := by
  obtain ⟨hab, hb, hst, _⟩ := hrun
  obtain ⟨hab2, hb2, hst2, _⟩ := hrun2
  have e1 := (hst2 a (by omega)).1 ((hst a (by omega)).2 ⟨by omega, by omega⟩)
  have e2 := (hst2 n (by omega)).1 hn
  have e3 : a ≤ a2 := by
    by_contra hlt
    have := (hst a2 (by omega)).1 ((hst2 a2 (by omega)).2 ⟨by omega, by omega⟩)
    omega
  have e4 : n = b + 1 := by
    by_contra hne
    have := (hst (b + 1) (by omega)).1 ((hst2 (b + 1) (by omega)).2 ⟨by omega, by omega⟩)
    omega
  omega

theorem mul_succ_eq_add {h rs : Int} {b n : Nat} (hh : 1 ≤ h) (hbn : b < n)
    (h0 : 0 ≤ rs) (_h1 : rs ≤ h - 1)
    (e : (h - 1) + (b : Int) * h + 1 = rs + (n : Int) * h) : n = b + 1 ∧ rs = 0 := by
  obtain ⟨d, rfl⟩ : ∃ d, n = b + 1 + d := ⟨n - (b + 1), by omega⟩
  have hd : (d : Int) * h = -rs := by push_cast at e; linarith
  rcases Nat.eq_zero_or_pos d with rfl | hpos
  · simp at hd; exact ⟨by omega, by omega⟩
  · have : (1 : Int) ≤ d := by exact_mod_cast hpos
    have : h ≤ (d : Int) * h := by nlinarith
    omega

theorem mergeStep_skip (h : Int) (r : Result) (t : MergeState) (h1 : r.status ≠ 1)
    (h2 : r.status ≠ 2) : mergeStep h r t = Except.ok t := by
  simp [mergeStep, h1, h2]

theorem mergeStep_first (h : Int) (r : Result) (h1 : r.status = 1) :
    mergeStep h r mergeInit =
      Except.ok { result := r, breaked := false,
                  nextIsWrong := decide (Int.tmod (wrapInt (r.rowEnd + 1)) h ≠ 0) } := by
  by_cases hm : Int.tmod (wrapInt (r.rowEnd + 1)) h = 0 <;>
    simp [mergeStep, markNext, mergeInit, h1, hm]

theorem mergeStep_next (h : Int) (r acc : Result) (nw : Bool) (h1 : r.status = 1)
    (hacc : acc.status = 1) :
    mergeStep h r { result := acc, breaked := false, nextIsWrong := nw } =
      if nw = true ∨ wrapInt (acc.rowEnd + 1) ≠ r.rowStart ∨ acc.colStart ≠ r.colStart ∨
          acc.colEnd ≠ r.colEnd then
        Except.error { result := acc, breaked := true, nextIsWrong := nw }
      else
        Except.ok { result := { acc with rowEnd := r.rowEnd, colEnd := r.colEnd },
                    breaked := false,
                    nextIsWrong := decide (Int.tmod (wrapInt (r.rowEnd + 1)) h ≠ 0) } := by
  cases nw
  · by_cases hg : wrapInt (acc.rowEnd + 1) = r.rowStart
    · by_cases hc1 : acc.colStart = r.colStart
      · by_cases hc2 : acc.colEnd = r.colEnd
        · by_cases hm : Int.tmod (wrapInt (r.rowEnd + 1)) h = 0 <;>
            simp [mergeStep, markNext, h1, hacc, hg, hc1, hc2, hm]
        · simp [mergeStep, markNext, h1, hacc, hg, hc1, hc2]
      · simp [mergeStep, markNext, h1, hacc, hg, hc1]
    · simp [mergeStep, markNext, h1, hacc, hg]
  · simp [mergeStep, markNext, h1, hacc]

/-- The rows of a box inside its block, in grid coordinates, are in the range
of an `int` when the row after the box is. -/
theorem offset_range (h rs re : Int) (n : Nat) (hh : 1 ≤ h) (h0 : 0 ≤ rs) (h1 : rs ≤ re)
    (h2 : re + (n : Int) * h + 1 ≤ 2147483647) :
    wrapInt (rs + (n : Int) * h) = rs + (n : Int) * h ∧
    wrapInt (re + (n : Int) * h) = re + (n : Int) * h ∧
    wrapInt (re + (n : Int) * h + 1) = re + (n : Int) * h + 1 := by
  have hn : 0 ≤ (n : Int) * h := Int.mul_nonneg (Int.ofNat_nonneg n) (by omega)
  exact ⟨wrapInt_of_range (by omega) (by omega), wrapInt_of_range (by omega) (by omega),
    wrapInt_of_range (by omega) (by omega)⟩

theorem addOffset_eq_runBox (h : Int) (v : Nat → Result) (n : Nat) (h1 : (v n).status = 1)
    (e1 : wrapInt ((v n).rowStart + (n : Int) * h) = (v n).rowStart + (n : Int) * h)
    (e2 : wrapInt ((v n).rowEnd + (n : Int) * h) = (v n).rowEnd + (n : Int) * h) :
    addOffset h v n = runBox h v n n := by
  unfold addOffset runBox
  rw [← h1, e1, e2]

theorem decide_markNext (h : Int) (v : Nat → Result) (n : Nat) (hh : 1 ≤ h)
    (h0 : 0 ≤ (v n).rowEnd) (h1 : (v n).rowEnd ≤ h - 1)
    (e2 : wrapInt ((v n).rowEnd + (n : Int) * h) = (v n).rowEnd + (n : Int) * h)
    (e3 : wrapInt ((v n).rowEnd + (n : Int) * h + 1) = (v n).rowEnd + (n : Int) * h + 1) :
    (decide (Int.tmod (wrapInt ((addOffset h v n).rowEnd + 1)) h ≠ 0) = true ↔
      (v n).rowEnd ≠ h - 1) := by
  rw [decide_eq_true_iff, addOffset_rowEnd, e2, e3]
  exact markNext_iff h n _ hh h0 h1

/-- State of the merge loop after `n` results without status 2 whose boxes
lie in their blocks: still empty, or holding the box of the run read so far,
or left by `break` because no run is possible any more. -/
theorem mergeLoop_run (h : Int) (size : Nat) (v : Nat → Result) (hh : 1 ≤ h)
    (hstatus : ∀ i, i < size → (v i).status ≠ 2)
    (hbox : ∀ i, i < size → (v i).status = 1 →
      0 ≤ (v i).rowStart ∧ (v i).rowStart ≤ (v i).rowEnd ∧ (v i).rowEnd ≤ h - 1)
    (hrange : ∀ i, i < size → (v i).status = 1 →
      (v i).rowEnd + (i : Int) * h + 1 ≤ 2147483647) :
    ∀ n, n ≤ size →
      (∃ t, forLoop n (fun i t => mergeStep h (addOffset h v i) t) mergeInit = Except.ok t ∧
          t.breaked = false ∧
          ((t = mergeInit ∧ ∀ i, i < n → (v i).status ≠ 1) ∨
           (∃ a b, OneRun h n v a b ∧ t.result = runBox h v a b ∧
              (t.nextIsWrong = true ↔ (v b).rowEnd ≠ h - 1)))) ∨
      (∃ e, forLoop n (fun i t => mergeStep h (addOffset h v i) t) mergeInit =
            Except.error e ∧
          e.breaked = true ∧ (∃ i, i < n ∧ (v i).status = 1) ∧
          ∀ m, n ≤ m → ¬ ∃ a b, OneRun h m v a b) := by
  intro n
  induction n with
  | zero =>
    intro _
    exact Or.inl ⟨mergeInit, rfl, rfl, Or.inl ⟨rfl, fun i hi => absurd hi (Nat.not_lt_zero i)⟩⟩
  | succ n ih =>
    intro hn
    rcases ih (by omega) with ⟨t, ht, hb, hcase⟩ | ⟨e, he, hb, ⟨i0, hi0, hi1⟩, hno⟩
    swap
    · exact Or.inr ⟨e, forLoop_succ_error he, hb, ⟨i0, by omega, hi1⟩,
        fun m hm => hno m (by omega)⟩
    rw [forLoop_succ_ok ht]
    by_cases h1 : (v n).status = 1
    swap
    · -- a result of status 0 leaves the state as it is
      rw [mergeStep_skip h _ t (by rw [addOffset_status]; exact h1)
        (by rw [addOffset_status]; exact hstatus n (by omega))]
      refine Or.inl ⟨t, rfl, hb, ?_⟩
      rcases hcase with ⟨rfl, hnone⟩ | ⟨a, b, hrun, hres, hnw⟩
      · refine Or.inl ⟨rfl, ?_⟩
        intro i hi
        rcases Nat.lt_or_ge i n with hlt | hge
        · exact hnone i hlt
        · have : i = n := by omega
          subst this; exact h1
      · refine Or.inr ⟨a, b, ?_, hres, hnw⟩
        obtain ⟨r1, r2, r3, r4, r5, r6⟩ := hrun
        refine ⟨r1, by omega, ?_, r4, r5, r6⟩
        intro i hi
        rcases Nat.lt_or_ge i n with hlt | hge
        · exact r3 i hlt
        · have : i = n := by omega
          subst this
          exact ⟨fun hc => absurd hc h1, fun hc => by omega⟩
    · obtain ⟨hb0, hb1, hb2⟩ := hbox n (by omega) h1
      obtain ⟨en1, en2, en3⟩ := offset_range h _ _ n hh hb0 hb1 (hrange n (by omega) h1)
      rcases hcase with ⟨rfl, hnone⟩ | ⟨a, b, hrun, hres, hnw⟩
      · -- the first result of status 1
        rw [mergeStep_first h _ (by rw [addOffset_status]; exact h1)]
        refine Or.inl ⟨_, rfl, rfl, Or.inr ⟨n, n, ?_, addOffset_eq_runBox h v n h1 en1 en2,
          decide_markNext h v n hh (by omega) hb2 en2 en3⟩⟩
        refine ⟨Nat.le_refl n, by omega, ?_, fun i h1 h2 => by omega,
          fun i h1 h2 => by omega, ?_⟩
        · intro i hi
          rcases Nat.lt_or_ge i n with hlt | hge
          · exact ⟨fun hc => absurd hc (hnone i hlt), fun hc => by omega⟩
          · have : i = n := by omega
            subst this
            exact ⟨fun _ => ⟨Nat.le_refl i, Nat.le_refl i⟩, fun _ => h1⟩
        · intro i h1 h2
          have : i = n := by omega
          subst this
          exact ⟨rfl, rfl⟩
      · -- a further result of status 1
        obtain ⟨res, br, nw⟩ := t
        simp only at hb hres hnw
        subst hb; subst hres
        obtain ⟨r1, r2, r3, r4, r5, r6⟩ := hrun
        have hbs : (v b).status = 1 := (r3 b r2).2 ⟨r1, Nat.le_refl b⟩
        have hbb := hbox b (by omega) hbs
        obtain ⟨_, _, eb3⟩ := offset_range h _ _ b hh hbb.1 hbb.2.1 (hrange b (by omega) hbs)
        have hgap : wrapInt ((runBox h v a b).rowEnd + 1) = (v b).rowEnd + (b : Int) * h + 1 :=
          eb3
        have hstart : (addOffset h v n).rowStart = (v n).rowStart + (n : Int) * h := en1
        have hend : (addOffset h v n).rowEnd = (v n).rowEnd + (n : Int) * h := en2
        rw [mergeStep_next h _ _ nw (by rw [addOffset_status]; exact h1) rfl]
        by_cases hcond : nw = true ∨
            wrapInt ((runBox h v a b).rowEnd + 1) ≠ (addOffset h v n).rowStart ∨
            (runBox h v a b).colStart ≠ (addOffset h v n).colStart ∨
            (runBox h v a b).colEnd ≠ (addOffset h v n).colEnd
        · rw [if_pos hcond]
          refine Or.inr ⟨_, rfl, rfl, ⟨n, by omega, h1⟩, ?_⟩
          rintro m hm ⟨a2, b2, hrun2⟩
          obtain ⟨ea, hnb2, hnb⟩ :=
            oneRun_extend_facts ⟨r1, r2, r3, r4, r5, r6⟩ h1 (by omega) hrun2
          subst ea
          obtain ⟨q1, q2, q3, q4, q5, q6⟩ := hrun2
          have e1 := q4 b r1 (by omega)
          have e2 := q5 n (by omega) hnb2
          have e3 := q6 n (by omega) hnb2
          rcases hcond with hc | hc | hc | hc
          · exact hnw.1 hc e1
          · apply hc
            rw [hgap, hstart, e1, e2, hnb]
            push_cast
            ring
          · exact hc e3.1.symm
          · exact hc e3.2.symm
        · rw [if_neg hcond]
          have hc1 : ¬ nw = true := fun hc => hcond (Or.inl hc)
          have hc2 : wrapInt ((runBox h v a b).rowEnd + 1) = (addOffset h v n).rowStart := by
            by_contra hc; exact hcond (Or.inr (Or.inl hc))
          have hc3 : (runBox h v a b).colStart = (addOffset h v n).colStart := by
            by_contra hc; exact hcond (Or.inr (Or.inr (Or.inl hc)))
          have hc4 : (runBox h v a b).colEnd = (addOffset h v n).colEnd := by
            by_contra hc; exact hcond (Or.inr (Or.inr (Or.inr hc)))
          have hreb : (v b).rowEnd = h - 1 := by
            by_contra hc; exact hc1 (hnw.2 hc)
          rw [hgap, hstart, hreb] at hc2
          obtain ⟨hnb, hrs0⟩ := mul_succ_eq_add hh r2 hb0 (by omega) hc2
          refine Or.inl ⟨_, rfl, rfl, Or.inr ⟨a, n, ?_, ?_,
            decide_markNext h v n hh (by omega) hb2 en2 en3⟩⟩
          · refine ⟨by omega, by omega, ?_, ?_, ?_, ?_⟩
            · intro i hi
              rcases Nat.lt_or_ge i n with hlt | hge
              · rw [r3 i hlt]; omega
              · have : i = n := by omega
                subst this
                exact ⟨fun _ => ⟨by omega, Nat.le_refl i⟩, fun _ => h1⟩
            · intro i hi1 hi2
              rcases Nat.lt_or_ge i b with hlt | hge
              · exact r4 i hi1 hlt
              · have : i = b := by omega
                subst this; exact hreb
            · intro i hi1 hi2
              rcases Nat.lt_or_ge i n with hlt | hge
              · exact r5 i hi1 (by omega)
              · have : i = n := by omega
                subst this; exact hrs0
            · intro i hi1 hi2
              rcases Nat.lt_or_ge i n with hlt | hge
              · exact r6 i hi1 (by omega)
              · have : i = n := by omega
                subst this
                exact ⟨hc3.symm, hc4.symm⟩
          · rw [hend]
            simp only [runBox, addOffset_colEnd] at hc4 ⊢
            rw [hc4]

/-- The row after a box inside block `i` is at most the number of rows of
the grid, which is an `int`. -/
theorem block_end_range (h hl size i : Nat) (re : Int) (hi : i < size)
    (hint : (((size - 1) * h + hl : Nat) : Int) ≤ INT_MAX)
    (hre : re ≤ (partHeight h hl size i : Int) - 1) :
    re + (i : Int) * (h : Int) + 1 ≤ 2147483647 := by
  unfold INT_MAX at hint
  unfold partHeight at hre
  have e : ((i : Int) * (h : Int)) = ((i * h : Nat) : Int) := by push_cast; ring
  rw [e]
  split_ifs at hre with hlast
  · have : i = size - 1 := by omega
    subst this
    omega
  · have := Nat.mul_le_mul_right h (show i + 1 ≤ size - 1 by omega)
    rw [Nat.succ_mul] at this
    omega

/-- The merge loop of `main` on results without status 2 whose boxes lie in
their blocks: status 1 with the box of the run when the results of status 1
form a run, status 0 when there is none of status 1, status 2 otherwise. -/
theorem merge_run_cases (h hl size : Nat) (v : Nat → Result)
    (hh : 1 ≤ h) (hhl : 1 ≤ hl ∧ hl ≤ h)
    (hstatus : ∀ i, i < size → (v i).status ≠ 2)
    (hint : (((size - 1) * h + hl : Nat) : Int) ≤ INT_MAX)
    (hbox : ∀ i, i < size → (v i).status = 1 →
      0 ≤ (v i).rowStart ∧ (v i).rowStart ≤ (v i).rowEnd ∧
        (v i).rowEnd ≤ (partHeight h hl size i : Int) - 1) :
    ((merge h size (addOffset h v)).status = 1 ↔ ∃ a b, OneRun h size v a b) ∧
    (∀ a b, OneRun h size v a b → merge h size (addOffset h v) = runBox h v a b) ∧
    ((merge h size (addOffset h v)).status = 0 ↔ ∀ i, i < size → (v i).status ≠ 1) ∧
    ((merge h size (addOffset h v)).status = 2 ↔
      ((∃ i, i < size ∧ (v i).status = 1) ∧ ¬ ∃ a b, OneRun h size v a b)) := by
  have hbox2 : ∀ i, i < size → (v i).status = 1 →
      0 ≤ (v i).rowStart ∧ (v i).rowStart ≤ (v i).rowEnd ∧ (v i).rowEnd ≤ (h : Int) - 1 := by
    intro i hi h1
    obtain ⟨b0, b1, b2⟩ := hbox i hi h1
    refine ⟨b0, b1, ?_⟩
    unfold partHeight at b2
    split_ifs at b2 <;> omega
  have hrange : ∀ i, i < size → (v i).status = 1 →
      (v i).rowEnd + (i : Int) * (h : Int) + 1 ≤ 2147483647 := by
    intro i hi h1
    obtain ⟨_, _, b2⟩ := hbox i hi h1
    exact block_end_range h hl size i (v i).rowEnd hi hint b2
  unfold merge
  rcases mergeLoop_run h size v (by omega) hstatus hbox2 hrange size (Nat.le_refl size) with
    ⟨t, ht, hb, hcase⟩ | ⟨e, he, hb, hex, hno⟩
  · simp only [ht, hb]
    rcases hcase with ⟨rfl, hnone⟩ | ⟨a, b, hrun, hres, _⟩
    · have hnorun : ¬ ∃ a b, OneRun (h : Int) size v a b := by
        rintro ⟨a, b, r1, r2, r3, _⟩
        exact hnone a (by omega) ((r3 a (by omega)).2 ⟨Nat.le_refl a, r1⟩)
      refine ⟨⟨fun hc => by simp [mergeInit] at hc, fun hc => absurd hc hnorun⟩,
        fun a b hr => absurd ⟨a, b, hr⟩ hnorun,
        ⟨fun _ => hnone, fun _ => by simp [mergeInit]⟩,
        ⟨fun hc => by simp [mergeInit] at hc, fun hc => by
          obtain ⟨⟨i, hi, h1⟩, _⟩ := hc
          exact absurd h1 (hnone i hi)⟩⟩
    · have hone : (v a).status = 1 := by
        obtain ⟨r1, r2, r3, _⟩ := hrun
        exact (r3 a (by omega)).2 ⟨Nat.le_refl a, r1⟩
      have hlt : a < size := by
        obtain ⟨r1, r2, _⟩ := hrun
        omega
      simp only [Bool.false_eq_true, if_false, hres]
      refine ⟨⟨fun _ => ⟨a, b, hrun⟩, fun _ => rfl⟩, ?_, ?_, ?_⟩
      · intro a2 b2 hr2
        obtain ⟨e1, e2⟩ := oneRun_unique hrun hr2
        subst e1; subst e2; rfl
      · exact ⟨fun hc => by simp [runBox] at hc, fun hc => absurd hone (hc a hlt)⟩
      · exact ⟨fun hc => by simp [runBox] at hc, fun hc => absurd ⟨a, b, hrun⟩ hc.2⟩
  · simp only [he, hb, if_true]
    have hnorun := hno size (Nat.le_refl size)
    refine ⟨⟨fun hc => by simp at hc, fun hc => absurd hc hnorun⟩,
      fun a b hr => absurd ⟨a, b, hr⟩ hnorun, ?_, ⟨fun _ => ⟨hex, hnorun⟩, fun _ => trivial⟩⟩
    obtain ⟨i, hi, h1⟩ := hex
    exact ⟨fun hc => by simp at hc, fun hc => absurd h1 (hc i hi)⟩

/-! ### One box: every exact tiling yields that box -/

/-- The height used by process `i` is `partHeight` with the block height and
the height of the last process. -/
theorem rowsPart_eq_partHeight {rows size i : Nat} (hi : i < size) :
    rowsPart rows size i =
      partHeight (blockHeight rows size) (rowsPart rows size (size - 1)) size i := by
  unfold partHeight
  split_ifs with h
  · have : i = size - 1 := by omega
    rw [this]
  · exact rowsPart_of_lt (by omega)

/-- Index arithmetic of the blocks that hold rows of a box `r1 .. r2`: block
`p` of height `hp` starting at row `p * h` meets the box exactly when
`r1 / h ≤ p ≤ r2 / h`. -/
theorem block_meets_iff {h p r1 r2 hp : Nat} (hpos : 1 ≤ h) (hr : r1 ≤ r2) (hle : hp ≤ h)
    (hlast : p = r2 / h → r2 < p * h + hp) (hfull : p < r2 / h → hp = h) :
    (p * h ≤ r2 ∧ r1 < p * h + hp) ↔ (r1 / h ≤ p ∧ p ≤ r2 / h) := by
  have d1 := Nat.div_add_mod r1 h
  have d2 := Nat.div_add_mod r2 h
  have m1 := Nat.mod_lt r1 (show h > 0 by omega)
  have m2 := Nat.mod_lt r2 (show h > 0 by omega)
  rw [Nat.mul_comm] at d1 d2
  constructor
  · rintro ⟨h1, h2⟩
    constructor
    · by_contra hlt
      have := Nat.mul_le_mul_right h (show p + 1 ≤ r1 / h by omega)
      rw [Nat.succ_mul] at this
      omega
    · by_contra hlt
      have := Nat.mul_le_mul_right h (show r2 / h + 1 ≤ p by omega)
      rw [Nat.succ_mul] at this
      omega
  · rintro ⟨h1, h2⟩
    have e1 := Nat.mul_le_mul_right h h1
    have e2 := Nat.mul_le_mul_right h h2
    refine ⟨by omega, ?_⟩
    rcases Nat.lt_or_ge p (r2 / h) with hb | hb
    · have := hfull hb
      omega
    · have := hlast (by omega)
      omega

/-- Local rows of a box in a block that meets it. -/
theorem box_rows_in_block {q hp r1 r2 : Nat} (hpos : 1 ≤ hp) (hlo : q ≤ r2)
    (hhi : r1 < q + hp) (hr : r1 ≤ r2) :
    (0 : Int) ≤ ((r1 - q : Nat) : Int) ∧
    ((r1 - q : Nat) : Int) ≤ ((min (r2 - q) (hp - 1) : Nat) : Int) ∧
    ((min (r2 - q) (hp - 1) : Nat) : Int) ≤ (hp : Int) - 1 := by
  have h1 := Nat.min_le_left (r2 - q) (hp - 1)
  have h2 := Nat.min_le_right (r2 - q) (hp - 1)
  have h3 : r1 - q ≤ min (r2 - q) (hp - 1) := Nat.le_min.2 ⟨by omega, by omega⟩
  generalize min (r2 - q) (hp - 1) = m at h1 h2 h3 ⊢
  omega

/-- The merged box of the run of blocks `a .. b` that hold the box
`r1 .. r2` has the rows `r1` and `r2`. -/
theorem run_rows {h a b r1 r2 hpb : Nat} (ha : a * h ≤ r1) (hb : b * h ≤ r2)
    (hb2 : r2 < b * h + hpb) :
    ((r1 - a * h : Nat) : Int) + (a : Int) * (h : Int) = (r1 : Int) ∧
    ((min (r2 - b * h) (hpb - 1) : Nat) : Int) + (b : Int) * (h : Int) = (r2 : Int) := by
  have e : min (r2 - b * h) (hpb - 1) = r2 - b * h := Nat.min_eq_left (by omega)
  rw [e]
  have e1 : ((a : Int) * (h : Int)) = ((a * h : Nat) : Int) := by push_cast; ring
  have e2 : ((b : Int) * (h : Int)) = ((b * h : Nat) : Int) := by push_cast; ring
  rw [e1, e2]
  omega

/-- A grid whose marked fields are exactly one box and whose rows all end in
a field that is `WHITE` or `BLACK`: for every number of processes whose
partitions tile the rows exactly, `main` yields status 1 with that box. -/
theorem main_box (rectangle : Nat → Char) (rows columns size r1 c1 r2 c2 : Nat)
    (hr : 1 ≤ rows) (hs : 1 ≤ size) (ht : tilesExactly rows size)
    (hint : (rows : Int) ≤ INT_MAX)
    (hb : r1 ≤ r2 ∧ r2 < rows ∧ c1 ≤ c2 ∧ c2 < columns)
    (hmarked : ∀ i j, i < rows → j < columns →
      (rectangle (i * columns + j) ≠ WHITE ↔ (r1 ≤ i ∧ i ≤ r2 ∧ c1 ≤ j ∧ j ≤ c2)))
    (hlast : ∀ i, i < rows →
      rectangle (i * columns + (columns - 1)) = WHITE ∨
      rectangle (i * columns + (columns - 1)) = BLACK) :
    main rectangle rows columns size =
      { status := 1, rowStart := r1, colStart := c1, rowEnd := r2, colEnd := c2 } := by
  obtain ⟨hb1, hb2, hb3, hb4⟩ := hb
  have hpos := blockHeight_pos hr hs
  -- facts on the blocks
  have hblock : ∀ p, p < size →
      1 ≤ rowsPart rows size p ∧ rowsPart rows size p ≤ blockHeight rows size ∧
      p * blockHeight rows size + rowsPart rows size p ≤ rows := by
    intro p hp
    have h1 := rowsPart_pos rows size p hr hs
    have h2 := rowsPart_le rows size p hr hs
    have h3 := tiles_row_lt hr hs ht hp
      (show rowsPart rows size p - 1 < rowsPart rows size p by omega)
    exact ⟨h1, h2, by omega⟩
  obtain ⟨ha, ha2, ha3⟩ := tiles_row_mem hr hs ht (show r1 < rows by omega)
  obtain ⟨hbb, hbb2, hbb3⟩ := tiles_row_mem hr hs ht hb2
  have hmeets : ∀ p, p < size →
      ((p * blockHeight rows size ≤ r2 ∧
        r1 < p * blockHeight rows size + rowsPart rows size p) ↔
       (r1 / blockHeight rows size ≤ p ∧ p ≤ r2 / blockHeight rows size)) := by
    intro p hp
    apply block_meets_iff hpos hb1 (hblock p hp).2.1
    · intro e
      subst e
      omega
    · intro hlt
      exact rowsPart_of_lt (by omega)
  -- the result of every process
  have hv : ∀ p, p < size →
      ((p * blockHeight rows size ≤ r2 ∧
          r1 < p * blockHeight rows size + rowsPart rows size p) →
        resultPart rectangle rows columns size p =
          { status := 1, rowStart := ((r1 - p * blockHeight rows size : Nat) : Int),
            colStart := c1,
            rowEnd := ((min (r2 - p * blockHeight rows size)
              (rowsPart rows size p - 1) : Nat) : Int),
            colEnd := c2 }) ∧
      (¬ (p * blockHeight rows size ≤ r2 ∧
          r1 < p * blockHeight rows size + rowsPart rows size p) →
        (resultPart rectangle rows columns size p).status = 0) := by
    intro p hp
    obtain ⟨h1, h2, h3⟩ := hblock p hp
    have hin : MarkedIn rectangle columns (p * blockHeight rows size)
        (p * blockHeight rows size + rowsPart rows size p) r1 c1 r2 c2 := by
      intro g j hg1 hg2 hj
      exact hmarked g j (by omega) hj
    constructor
    · rintro ⟨hlo, hhi⟩
      rcases resultPart_box rectangle rows columns size p r1 c1 r2 c2 hb1 hb3 hb4 h1 hin
          hlo hhi with h | ⟨_, hw, hbk⟩
      · exact h
      · exfalso
        rw [last_index _ _ h1 (by omega), rectanglePart_cell] at hw hbk
        rcases hlast (p * blockHeight rows size + (rowsPart rows size p - 1)) (by omega) with
          e | e
        · exact hw e
        · exact hbk e
    · intro hno
      exact resultPart_white rectangle rows columns size p r1 c1 r2 c2 hin (by omega)
  -- the run of the processes that hold rows of the box
  have hst1 : ∀ p, p < size →
      ((resultPart rectangle rows columns size p).status = 1 ↔
       (r1 / blockHeight rows size ≤ p ∧ p ≤ r2 / blockHeight rows size)) := by
    intro p hp
    rw [← hmeets p hp]
    constructor
    · intro h1
      by_contra hno
      rw [(hv p hp).2 hno] at h1
      cases h1
    · intro hm
      rw [(hv p hp).1 hm]
  have hrun : OneRun ((blockHeight rows size : Nat) : Int) size
      (fun i => resultPart rectangle rows columns size i)
      (r1 / blockHeight rows size) (r2 / blockHeight rows size) := by
    have hab : r1 / blockHeight rows size ≤ r2 / blockHeight rows size :=
      Nat.div_le_div_right hb1
    refine ⟨hab, hbb, hst1, ?_, ?_, ?_⟩
    · intro i hi1 hi2
      have hm := (hmeets i (by omega)).2 ⟨hi1, by omega⟩
      simp only [(hv i (by omega)).1 hm]
      have e1 : rowsPart rows size i = blockHeight rows size := rowsPart_of_lt (by omega)
      have e2 := Nat.mul_le_mul_right (blockHeight rows size)
        (show i + 1 ≤ r2 / blockHeight rows size by omega)
      rw [Nat.succ_mul] at e2
      have e3 : min (r2 - i * blockHeight rows size) (rowsPart rows size i - 1) =
          blockHeight rows size - 1 := by
        rw [e1]
        exact Nat.min_eq_right (by omega)
      rw [e3]
      omega
    · intro i hi1 hi2
      have hm := (hmeets i (by omega)).2 ⟨by omega, hi2⟩
      simp only [(hv i (by omega)).1 hm]
      have e2 := Nat.mul_le_mul_right (blockHeight rows size)
        (show r1 / blockHeight rows size + 1 ≤ i by omega)
      rw [Nat.succ_mul] at e2
      have hml := Nat.mod_lt r1 (show blockHeight rows size > 0 by omega)
      have e3 : r1 - i * blockHeight rows size = 0 := by omega
      rw [e3]
      rfl
    · intro i hi1 hi2
      have hm := (hmeets i (by omega)).2 ⟨hi1, hi2⟩
      have hma := (hmeets (r1 / blockHeight rows size) ha).2 ⟨Nat.le_refl _, hab⟩
      simp only [(hv i (by omega)).1 hm, (hv _ ha).1 hma]
      exact ⟨trivial, trivial⟩
  -- the merge loop
  have hlast_eq := rowsPart_last_of_tiles hs ht
  have hsum : (size - 1) * blockHeight rows size + rowsPart rows size (size - 1) = rows := by
    have := (tilesExactly_iff hr hs).1 ht
    omega
  have hchar := merge_run_cases (blockHeight rows size)
    (rowsPart rows size (size - 1)) size
    (fun i => resultPart rectangle rows columns size i) hpos
    ⟨(hblock (size - 1) (by omega)).1, (hblock (size - 1) (by omega)).2.1⟩
    (by
      intro i hi
      by_cases hm : i * blockHeight rows size ≤ r2 ∧
          r1 < i * blockHeight rows size + rowsPart rows size i
      · simp only [(hv i hi).1 hm]; decide
      · simp only [(hv i hi).2 hm]; decide)
    (by rw [hsum]; exact hint)
    (by
      intro i hi h1
      have hm := (hmeets i hi).2 ((hst1 i hi).1 h1)
      simp only [(hv i hi).1 hm]
      rw [← rowsPart_eq_partHeight hi]
      exact box_rows_in_block (hblock i hi).1 hm.1 hm.2 hb1)
  unfold main
  rw [rowsPart_zero hr hs, hchar.2.1 _ _ hrun]
  have hma := (hmeets (r1 / blockHeight rows size) ha).2
    ⟨Nat.le_refl _, Nat.div_le_div_right hb1⟩
  have hmb := (hmeets (r2 / blockHeight rows size) hbb).2
    ⟨Nat.div_le_div_right hb1, Nat.le_refl _⟩
  have key : ∀ (x m hpx r : Nat), x + m = r → m < hpx → x ≤ r ∧ r < x + hpx := by
    intro x m hpx r e1 e2
    omega
  have hrows := @run_rows (blockHeight rows size) (r1 / blockHeight rows size)
    (r2 / blockHeight rows size) r1 r2 (rowsPart rows size (r2 / blockHeight rows size))
    (key _ _ _ _ ha3 ha2).1 (key _ _ _ _ hbb3 hbb2).1 (key _ _ _ _ hbb3 hbb2).2
  simp only [runBox, (hv _ ha).1 hma, (hv _ hbb).1 hmb]
  rw [hrows.1, hrows.2]

/-! ### Bounds of the box returned by `search` -/

theorem searchCell_scanBounds (rectangle : Nat → Char) (columns i j : Nat)
    (s u : SearchState) (hj : j < columns) (h : ScanBounds columns i j s)
    (hres : searchCell rectangle columns i j s = Except.ok u) :
    ScanBounds columns i (j + 1) u := by
  obtain ⟨⟨st, rs, cs, re, ce⟩, fS, fR, fC⟩ := s
  unfold ScanBounds at h ⊢
  simp only at h
  obtain ⟨h1, h2, h3⟩ := h
  unfold searchCell at hres
  simp only at hres
  split_ifs at hres <;> cases hres <;> simp only <;>
    refine ⟨?_, ?_, ?_⟩ <;> intro hf <;> simp_all <;> omega

/-- How one step of the scan changes the start and the column-end flag. -/
theorem searchCell_ok_facts (rectangle : Nat → Char) (columns i j : Nat)
    (s u : SearchState) (hres : searchCell rectangle columns i j s = Except.ok u) :
    (s.foundStart = true → u.foundColumnEnd = false →
      s.foundColumnEnd = false ∧ u.result.rowStart = s.result.rowStart ∧
      u.result.colStart = s.result.colStart ∧
      (rectangle (i * columns + j) = WHITE → (j : Int) < s.result.colStart)) ∧
    (s.foundStart = false → u.foundStart = true →
      rectangle (i * columns + j) ≠ WHITE ∧ u.result.rowStart = i ∧ u.result.colStart = j) := by
  obtain ⟨⟨st, rs, cs, re, ce⟩, fS, fR, fC⟩ := s
  unfold searchCell at hres
  simp only at hres
  split_ifs at hres <;> cases hres <;> simp only <;>
    refine ⟨?_, ?_⟩ <;> intro hf hg <;> simp_all

theorem searchCell_openRun (rectangle : Nat → Char) (columns i j : Nat)
    (s u : SearchState) (h : OpenRun rectangle columns i j s)
    (hres : searchCell rectangle columns i j s = Except.ok u) :
    OpenRun rectangle columns i (j + 1) u := by
  obtain ⟨f1, f2⟩ := searchCell_ok_facts rectangle columns i j s u hres
  intro hfs hfc a b hb hpos hafter hcs
  cases hs : s.foundStart with
  | false =>
    obtain ⟨hne, e1, e2⟩ := f2 hs hfs
    rw [e1, e2] at hafter
    rw [e2] at hcs
    have ha : a = i := by omega
    have hbj : b = j := by omega
    subst ha; subst hbj
    exact hne
  | true =>
    obtain ⟨g1, e1, e2, g2⟩ := f1 hs hfc
    rw [e1, e2] at hafter
    rw [e2] at hcs
    by_cases hold : a < i ∨ (a = i ∧ b < j)
    · exact h hs g1 a b hb hold hafter hcs
    · have ha : a = i := by omega
      have hbj : b = j := by omega
      subst ha; subst hbj
      intro hw
      have := g2 hw
      omega

/-- With at least one row and one column and a last field that is `WHITE` or
`BLACK`, `search` returns status 0, 1 or 2, and with status 1 a box inside
the partition whose start is not after its end. -/
theorem search_well_formed (rectangle : Nat → Char) (rows columns : Nat)
    (hr : 1 ≤ rows) (hc : 1 ≤ columns)
    (hlast : rectangle (rows * columns - 1) = WHITE ∨ rectangle (rows * columns - 1) = BLACK) :
    ((search rectangle rows columns).status = 0 ∨ (search rectangle rows columns).status = 1 ∨
      (search rectangle rows columns).status = 2) ∧
    ((search rectangle rows columns).status = 1 →
      0 ≤ (search rectangle rows columns).rowStart ∧
      (search rectangle rows columns).rowStart ≤ (search rectangle rows columns).rowEnd ∧
      (search rectangle rows columns).rowEnd ≤ (rows : Int) - 1 ∧
      0 ≤ (search rectangle rows columns).colStart ∧
      (search rectangle rows columns).colStart ≤ (search rectangle rows columns).colEnd ∧
      (search rectangle rows columns).colEnd ≤ (columns : Int) - 1) := by
  rcases searchLoop_rule rectangle rows columns
      (fun i j s => ScanBounds columns i j s ∧ OpenRun rectangle columns i j s)
      (fun _ => True)
      ⟨⟨fun h => by simp [searchInit] at h, fun h => by simp [searchInit] at h,
        fun h => by simp [searchInit] at h⟩, fun h => by simp [searchInit] at h⟩
      (fun i j s _ hj hP => by
        cases hres : searchCell rectangle columns i j s with
        | error e => exact Or.inr ⟨e, rfl, trivial⟩
        | ok u =>
          exact Or.inl ⟨u, rfl, searchCell_scanBounds rectangle columns i j s u hj hP.1 hres,
            searchCell_openRun rectangle columns i j s u hP.2 hres⟩)
      (fun i s _ hP => by
        obtain ⟨⟨h1, h2, h3⟩, h4⟩ := hP
        refine ⟨⟨fun hf => ?_, h2, fun hf => ?_⟩, ?_⟩
        · obtain ⟨a1, a2, a3, a4, a5⟩ := h1 hf
          exact ⟨a1, a2, a3, a4, by omega⟩
        · obtain ⟨a1, a2, a3⟩ := h3 hf
          exact ⟨a1, a2, by push_cast; omega⟩
        · intro hfs hfc a b hb hpos hafter hcs
          exact h4 hfs hfc a b hb (by omega) hafter hcs) with ⟨t, ht, hP⟩ | ⟨e, he, _⟩
  · obtain ⟨⟨h1, h2, h3⟩, h4⟩ := hP
    have hopen : t.foundStart = true → t.foundColumnEnd = false →
        rectangle (rows * columns - 1) ≠ WHITE := by
      intro hfs hfc
      obtain ⟨_, a2, a3, a4, a5⟩ := h1 hfs
      rw [last_index rows columns hr hc]
      exact h4 hfs hfc (rows - 1) (columns - 1) (by omega) (by omega) (by omega) (by omega)
    unfold search
    rw [ht]
    obtain ⟨⟨st, rs, cs, re, ce⟩, fS, fR, fC⟩ := t
    simp only at h1 h2 h3 hopen
    unfold searchFinish
    simp only
    have hbw := black_ne_white
    cases fS <;> cases fR <;> cases fC <;> simp only [Bool.false_eq_true, if_true, if_false,
      true_and, and_true, false_and, and_false, not_true_eq_false, not_false_eq_true,
      false_implies, true_implies, forall_const] at h1 h2 h3 hopen ⊢ <;>
      split_ifs <;> simp_all <;> omega
  · unfold search
    rw [he]
    exact ⟨Or.inr (Or.inr rfl), fun h => by simp at h⟩

/-! ### Scenarios and claims -/

/-- Scenario A: `search` on the 5 x 5 grid with the rows 1..2 of the columns
1..3 marked returns `[1, 1, 1, 2, 3]`. -/
theorem search_scenario_a : (search gridOneBox 5 5).toList = [1, 1, 1, 2, 3] := by
  decide

/-- Scenario B: the grid of scenario A split into the rows 0..2 and 3..4
merges to status 1 with the box (1, 1, 2, 3). -/
theorem main_scenario_b :
    tilesExactly 5 2 ∧
    main gridOneBox 5 5 2 =
      { status := 1, rowStart := 1, colStart := 1, rowEnd := 2, colEnd := 3 } := by
  decide

/-- Scenario D: a box on the rows 2..5 of a grid of 6 rows split into three
blocks of height 2 merges to status 1 with the box (2, 1, 5, 3). -/
theorem main_scenario_d :
    tilesExactly 6 3 ∧
    main gridTallBox 6 5 3 =
      { status := 1, rowStart := 2, colStart := 1, rowEnd := 5, colEnd := 3 } := by
  decide

/-- Claim C1 fails on the code: with a single process the grid `gridNotch`,
whose marked fields (0,1), (0,2), (1,1) are not a box, is reported with status
1 and the box (0, 1, 0, 2), although the field (1,1) outside that box is
marked. -/
theorem main_accepts_notched_box :
    tilesExactly 2 1 ∧
    main gridNotch 2 3 1 =
      { status := 1, rowStart := 0, colStart := 1, rowEnd := 0, colEnd := 2 } ∧
    gridNotch (1 * 3 + 1) ≠ WHITE := by
  decide

/-- Claim C2 fails on the code: the marked fields of the 1 x 1 grid
`gridUnpainted` are exactly the box (0, 0, 0, 0), yet `search` returns
`[1, 0, 0, INT_MAX, INT_MAX]` and not `[1, 0, 0, 0, 0]`. -/
theorem search_unpainted_last_field :
    (∀ i, i < 1 → ∀ j, j < 1 →
      (gridUnpainted (i * 1 + j) ≠ WHITE ↔ (0 ≤ i ∧ i ≤ 0 ∧ 0 ≤ j ∧ j ≤ 0))) ∧
    (search gridUnpainted 1 1).toList = [1, 0, 0, INT_MAX, INT_MAX] ∧
    (search gridUnpainted 1 1).toList ≠ [1, 0, 0, 0, 0] := by
  decide

/-- Claim C3 fails on the code: for the 1 x 1 grid `gridUnpainted`, whose
marked fields are exactly the box (0, 0, 0, 0), a single process tiles the
rows and the merged result has status 1 with the box (0, 0, INT_MAX, INT_MAX),
not (0, 0, 0, 0). -/
theorem main_unpainted_last_field :
    tilesExactly 1 1 ∧
    main gridUnpainted 1 1 1 =
      { status := 1, rowStart := 0, colStart := 0, rowEnd := INT_MAX, colEnd := INT_MAX } ∧
    main gridUnpainted 1 1 1 ≠
      { status := 1, rowStart := 0, colStart := 0, rowEnd := 0, colEnd := 0 } := by
  decide

/-- Claim C4 fails on the code: both 1 and 2 divide the 2 rows of `gridNotch`,
but the merged status is 1 with one process and 2 with two processes. -/
theorem main_status_depends_on_size :
    2 % 1 = 0 ∧ 2 % 2 = 0 ∧
    (main gridNotch 2 3 1).status = 1 ∧ (main gridNotch 2 3 2).status = 2 := by
  decide

/-- Claim C5: when the marked fields of a grid are two boxes, the second
starting at least two rows below the last row of the first (so that a white
row separates them), the merged status is 2 for every number of processes
whose partitions tile the rows exactly.  The number of rows is an `int`. -/
theorem two_boxes_many (rectangle : Nat → Char) (rows columns size : Nat)
    (r1 c1 r2 c2 r3 c3 r4 c4 : Nat)
    (hr : 1 ≤ rows) (hs : 1 ≤ size) (ht : tilesExactly rows size)
    (hint : (rows : Int) ≤ INT_MAX)
    (hb1 : r1 ≤ r2 ∧ c1 ≤ c2 ∧ c2 < columns)
    (hsep : r2 + 2 ≤ r3)
    (hb2 : r3 ≤ r4 ∧ r4 < rows ∧ c3 ≤ c4 ∧ c4 < columns)
    (hfields : ∀ i, i < rows → ∀ j, j < columns →
      (rectangle (i * columns + j) ≠ WHITE ↔
        ((r1 ≤ i ∧ i ≤ r2 ∧ c1 ≤ j ∧ j ≤ c2) ∨ (r3 ≤ i ∧ i ≤ r4 ∧ c3 ≤ j ∧ j ≤ c4)))) :
    (main rectangle rows columns size).status = 2 := by
  have hmarked : ∀ i j, i < rows → j < columns →
      (rectangle (i * columns + j) ≠ WHITE ↔
        ((r1 ≤ i ∧ i ≤ r2 ∧ c1 ≤ j ∧ j ≤ c2) ∨ (r3 ≤ i ∧ i ≤ r4 ∧ c3 ≤ j ∧ j ≤ c4))) :=
    fun i j hi hj => hfields i hi j hj
  obtain ⟨h11, h12, h13⟩ := hb1
  obtain ⟨h21, h22, h23, h24⟩ := hb2
  have hpos := blockHeight_pos hr hs
  obtain ⟨hc, ha3, hr3⟩ := tiles_row_mem hr hs ht (show r3 < rows by omega)
  generalize hcdef : r3 / blockHeight rows size = c at hc ha3 hr3
  generalize ha3def : r3 % blockHeight rows size = a3 at ha3 hr3
  have hrp0 : rowsPart rows size 0 = blockHeight rows size := rowsPart_zero hr hs
  unfold main
  rw [hrp0]
  by_cases hcase : c * blockHeight rows size ≤ r2
  · -- the partition of the first row of the second box also holds the last
    -- row of the first box
    apply merge_many_of_exists
    refine ⟨c, hc, ?_⟩
    rw [addOffset_status]
    unfold resultPart
    apply search_box_then_black _ _ _ a3 (r1 - c * blockHeight rows size) c1
      (r2 - c * blockHeight rows size) c2 c3 (by omega) h12 h13 (by omega) ha3 (by omega)
    · apply markedBox_part rectangle rows columns size c a3 r1 c1 r2 c2
      · intro g j hg1 hg2 hj
        rw [hmarked g j (by omega) hj]
        constructor
        · rintro (h | h)
          · exact h
          · omega
        · intro h; exact Or.inl h
      · intro i hi; omega
      · intro i hi; omega
    · rw [rectanglePart_cell, hr3]
      exact (hmarked r3 c3 (by omega) (by omega)).2 (Or.inr ⟨by omega, by omega, by omega, by omega⟩)
  · -- the first box ends in an earlier partition
    have hcase2 : r2 < c * blockHeight rows size := by omega
    have hlow : ∀ p, p < c → rowsPart rows size p = blockHeight rows size ∧
        p * blockHeight rows size + blockHeight rows size ≤ c * blockHeight rows size := by
      intro p hp
      refine ⟨rowsPart_of_lt (by omega), ?_⟩
      have := Nat.mul_le_mul_right (blockHeight rows size) (show p + 1 ≤ c by omega)
      rw [Nat.succ_mul] at this
      exact this
    -- earlier partitions only see the first box
    have hin1 : ∀ p, p < c → MarkedIn rectangle columns (p * blockHeight rows size)
        (p * blockHeight rows size + rowsPart rows size p) r1 c1 r2 c2 := by
      intro p hp g j hg1 hg2 hj
      obtain ⟨e1, e2⟩ := hlow p hp
      rw [e1] at hg2
      rw [hmarked g j (by omega) hj]
      constructor
      · rintro (h | h)
        · exact h
        · omega
      · intro h; exact Or.inl h
    -- the partition of row r3 only sees the second box
    have hrows_c := tiles_row_lt hr hs ht hc (show rowsPart rows size c - 1 < rowsPart rows size c by omega)
    have hin2 : MarkedIn rectangle columns (c * blockHeight rows size)
        (c * blockHeight rows size + rowsPart rows size c) r3 c3 r4 c4 := by
      intro g j hg1 hg2 hj
      rw [hmarked g j (by omega) hj]
      constructor
      · rintro (h | h)
        · omega
        · exact h
      · intro h; exact Or.inr h
    have hresc := resultPart_box rectangle rows columns size c r3 c3 r4 c4 h21 h23 h24
      (by omega) hin2 (by omega) (by omega)
    have hcst : (resultPart rectangle rows columns size c).status = 1 ∧
        (resultPart rectangle rows columns size c).rowStart = (a3 : Int) := by
      have e : r3 - c * blockHeight rows size = a3 := by omega
      rcases hresc with h | ⟨h, _, _⟩ <;> rw [h] <;> simp [e]
    apply merge_many_of_gap _ _ _ c hc
    · rw [addOffset_status]; exact hcst.1
    · -- the partition of row r1 has status 1
      obtain ⟨hp1, ha1, hr1⟩ := tiles_row_mem hr hs ht (show r1 < rows by omega)
      generalize hpdef : r1 / blockHeight rows size = p at hp1 ha1 hr1
      generalize ha1def : r1 % blockHeight rows size = a1 at ha1 hr1
      have hpc : p < c := by
        rcases Nat.lt_or_ge p c with h | h
        · exact h
        · have := Nat.mul_le_mul_right (blockHeight rows size) h
          omega
      refine ⟨p, hpc, ?_⟩
      rw [addOffset_status]
      have := resultPart_box rectangle rows columns size p r1 c1 r2 c2 h11 h12 h13
        (by omega) (hin1 p hpc) (by omega) (by omega)
      rcases this with h | ⟨h, _, _⟩ <;> rw [h]
    · intro p hp hst
      rw [addOffset_status] at hst
      rw [addOffset_rowEnd, addOffset_rowStart, hcst.2]
      obtain ⟨e1, e2⟩ := hlow p hp
      by_cases hint1 : p * blockHeight rows size ≤ r2 ∧
          r1 < p * blockHeight rows size + rowsPart rows size p
      · have := resultPart_box rectangle rows columns size p r1 c1 r2 c2 h11 h12 h13
          (by omega) (hin1 p hp) hint1.1 hint1.2
        have hc3 : ((c : Int) * (blockHeight rows size : Int)) =
            ((c * blockHeight rows size : Nat) : Int) := by push_cast; ring
        have hp3 : ((p : Int) * (blockHeight rows size : Int)) =
            ((p * blockHeight rows size : Nat) : Int) := by push_cast; ring
        rw [hc3, hp3]
        have hmin : min (r2 - p * blockHeight rows size) (rowsPart rows size p - 1) +
            p * blockHeight rows size ≤ r2 := by
          have := Nat.min_le_left (r2 - p * blockHeight rows size) (rowsPart rows size p - 1)
          omega
        have hq1 : p * blockHeight rows size < rows := by omega
        rcases this with h | ⟨h, _, _⟩
        · rw [h]
          exact gap_closed _ _ a3 _ r2 r3 rows hmin hsep (by omega) (by omega) hint
        · rw [h]
          exact gap_placeholder _ a3 _ rows hq1 (by omega) hint
      · have := resultPart_white rectangle rows columns size p r1 c1 r2 c2 (hin1 p hp)
          (by omega)
        rw [this] at hst
        cases hst

/-- The grid `gridTwoBoxes` has status 2 with 1, 2, 3 and 5 processes. -/
theorem two_boxes_many_witness :
    (1 ≤ 5 ∧ tilesExactly 5 1 ∧ tilesExactly 5 2 ∧ tilesExactly 5 3 ∧ tilesExactly 5 5 ∧
      ((5 : Nat) : Int) ≤ INT_MAX ∧ (0 ≤ 1 ∧ 0 ≤ 1 ∧ 1 < 5) ∧ 1 + 2 ≤ 3 ∧
      (3 ≤ 4 ∧ 4 < 5 ∧ 3 ≤ 4 ∧ 4 < 5) ∧
      (∀ i, i < 5 → ∀ j, j < 5 →
        (gridTwoBoxes (i * 5 + j) ≠ WHITE ↔
          ((0 ≤ i ∧ i ≤ 1 ∧ 0 ≤ j ∧ j ≤ 1) ∨ (3 ≤ i ∧ i ≤ 4 ∧ 3 ≤ j ∧ j ≤ 4))))) ∧
    (main gridTwoBoxes 5 5 1).status = 2 ∧ (main gridTwoBoxes 5 5 2).status = 2 ∧
    (main gridTwoBoxes 5 5 3).status = 2 ∧ (main gridTwoBoxes 5 5 5).status = 2 :=
  ⟨⟨by decide, by decide, by decide, by decide, by decide, by decide, by decide, by decide,
    by decide, by decide⟩,
   two_boxes_many gridTwoBoxes 5 5 1 0 0 1 1 3 3 4 4 (by decide) (by decide) (by decide)
     (by decide) (by decide) (by decide) (by decide) (by decide),
   two_boxes_many gridTwoBoxes 5 5 2 0 0 1 1 3 3 4 4 (by decide) (by decide) (by decide)
     (by decide) (by decide) (by decide) (by decide) (by decide),
   two_boxes_many gridTwoBoxes 5 5 3 0 0 1 1 3 3 4 4 (by decide) (by decide) (by decide)
     (by decide) (by decide) (by decide) (by decide) (by decide),
   two_boxes_many gridTwoBoxes 5 5 5 0 0 1 1 3 3 4 4 (by decide) (by decide) (by decide)
     (by decide) (by decide) (by decide) (by decide) (by decide)⟩

/-- Claim C6: whatever the gathered results are (any number `size` of them,
any boxes, any block height `rp`), if one of them has status 2 the merge loop of
`main` yields status 2. -/
theorem merge_many_dominates (rp : Int) (size : Nat) (results : Nat → Result)
    (h : ∃ i, i < size ∧ (results i).status = 2) :
    (merge rp size results).status = 2 := by
  obtain ⟨i, hi, hs⟩ := h
  unfold merge
  rcases mergeLoop_cases rp results size with ⟨e, he, hb⟩ | ⟨t, ht, hb, hall, _⟩
  · simp [he, hb]
  · exact absurd hs (hall i hi)

/-- The three results `resultsWithMany` merge to status 2. -/
theorem merge_many_dominates_witness :
    (∃ i, i < 3 ∧ (resultsWithMany i).status = 2) ∧
    (merge 2 3 resultsWithMany).status = 2 :=
  ⟨⟨1, by decide, by decide⟩,
   merge_many_dominates 2 3 resultsWithMany ⟨1, by decide, by decide⟩⟩

/-- Claim C7: for a grid with at least one row and one column and a number of
processes whose partitions tile the rows exactly, the merged status is 0
exactly when no field of the grid is marked; and `search` returns status 0 on
every partition without a marked field. -/
theorem main_none_iff_all_white (rectangle : Nat → Char) (rows columns size : Nat)
    (hr : 1 ≤ rows) (hc : 1 ≤ columns) (hs : 1 ≤ size) (ht : tilesExactly rows size) :
    ((main rectangle rows columns size).status = 0 ↔
      ∀ i, i < rows → ∀ j, j < columns → rectangle (i * columns + j) = WHITE) ∧
    (∀ (part : Nat → Char) (n m : Nat),
      (∀ i, i < n → ∀ j, j < m → part (i * m + j) = WHITE) →
        (search part n m).status = 0) := by
  have _ := hc
  constructor
  · rw [main_status_zero_iff rectangle hr hs ht]
    exact ⟨fun h i hi j hj => h i j hi hj, fun h i j hi hj => h i hi j hj⟩
  · intro part n m h
    exact (search_status_zero_iff part n m).2 (fun i j hi hj => h i hi j hj)

/-- The all-white 4 x 4 grid has status 0 with two processes. -/
theorem main_none_iff_all_white_witness :
    (1 ≤ 4 ∧ 1 ≤ 4 ∧ 1 ≤ 2 ∧ tilesExactly 4 2) ∧
    ((main gridWhite 4 4 2).status = 0 ↔
      ∀ i, i < 4 → ∀ j, j < 4 → gridWhite (i * 4 + j) = WHITE) :=
  ⟨by decide,
   (main_none_iff_all_white gridWhite 4 4 2 (by decide) (by decide) (by decide)
     (by decide)).1⟩

/-- Claim C8 fails on the code: for 5 rows and 4 processes the heights
computed by `main` are 2, 2, 2, 1; they sum to 7, not 5, and the block of
process 2 holds the row index 5, which is not a row of the grid.  For 9 rows
and 4 processes the heights are 3, 3, 3, 3 and the block of the last process
starts at the row index 9. -/
theorem partition_overrun :
    (1 ≤ 5 ∧ 1 ≤ 4 ∧
      (List.range 4).map (fun rank => rowsPart 5 4 rank) = [2, 2, 2, 1] ∧
      heightSum 5 4 = 7 ∧ ¬ tilesExactly 5 4 ∧
      (2 * blockHeight 5 4 ≤ 5 ∧ 5 < 2 * blockHeight 5 4 + rowsPart 5 4 2)) ∧
    (1 ≤ 9 ∧ 1 ≤ 4 ∧
      (List.range 4).map (fun rank => rowsPart 9 4 rank) = [3, 3, 3, 3] ∧
      heightSum 9 4 = 12 ∧ ¬ tilesExactly 9 4 ∧
      3 * blockHeight 9 4 = 9) := by
  decide

/-- When the blocks of the processes before the last one leave at least one
row, `(size - 1) * ((rows + size - 1) / size) < rows`, the heights computed by
`main` sum to `rows`, every row index below `rows` lies in the block of
exactly one process, and no block holds a row index from `rows` on. -/
theorem partition_tiles (rows size : Nat) (hr : 1 ≤ rows) (hs : 1 ≤ size)
    (hfit : (size - 1) * ((rows + size - 1) / size) < rows) :
    heightSum rows size = rows ∧
    (∀ i, i < rows →
      ∃ rank, (rank < size ∧ rank * blockHeight rows size ≤ i ∧
          i < rank * blockHeight rows size + rowsPart rows size rank) ∧
        ∀ other, (other < size ∧ other * blockHeight rows size ≤ i ∧
          i < other * blockHeight rows size + rowsPart rows size other) → other = rank) ∧
    (∀ rank, rank < size →
      rank * blockHeight rows size + rowsPart rows size rank ≤ rows) := by
  have ht : tilesExactly rows size := (tilesExactly_iff hr hs).2 hfit
  refine ⟨ht, ?_, ?_⟩
  · intro i hi
    obtain ⟨h1, h2, h3⟩ := tiles_row_mem hr hs ht hi
    refine ⟨i / blockHeight rows size, ⟨h1, by omega, by omega⟩, ?_⟩
    rintro other ⟨o1, o2, o3⟩
    have hle := rowsPart_le rows size other hr hs
    have hml := Nat.mod_lt i (show blockHeight rows size > 0 from blockHeight_pos hr hs)
    rcases Nat.lt_trichotomy other (i / blockHeight rows size) with hlt | heq | hgt
    · have := Nat.mul_le_mul_right (blockHeight rows size)
        (show other + 1 ≤ i / blockHeight rows size by omega)
      rw [Nat.succ_mul] at this
      omega
    · exact heq
    · have := Nat.mul_le_mul_right (blockHeight rows size)
        (show i / blockHeight rows size + 1 ≤ other by omega)
      rw [Nat.succ_mul] at this
      omega
  · intro rank hrank
    have hpos := rowsPart_pos rows size rank hr hs
    have := tiles_row_lt hr hs ht hrank
      (show rowsPart rows size rank - 1 < rowsPart rows size rank by omega)
    omega

/-- Five rows tile with 1, 2, 3 and 5 processes. -/
theorem partition_tiles_witness :
    (1 ≤ 5 ∧ 1 ≤ 3 ∧ (3 - 1) * ((5 + 3 - 1) / 3) < 5) ∧
    heightSum 5 3 = 5 ∧
    (∀ rank, rank < 3 → rank * blockHeight 5 3 + rowsPart 5 3 rank ≤ 5) :=
  ⟨by decide,
   (partition_tiles 5 3 (by decide) (by decide) (by decide)).1,
   (partition_tiles 5 3 (by decide) (by decide) (by decide)).2.2⟩

/-- Claim C9 fails on the code: on the 1 x 1 partition `gridUnpainted`
`search` returns status 1 with both end entries still holding the placeholder
`INT_MAX`, so the last row is not at most `rows - 1 = 0`. -/
theorem search_placeholder_remains :
    (search gridUnpainted 1 1).status = 1 ∧
    (search gridUnpainted 1 1).rowEnd = INT_MAX ∧
    (search gridUnpainted 1 1).colEnd = INT_MAX ∧
    ¬ ((search gridUnpainted 1 1).rowEnd ≤ ((1 : Nat) : Int) - 1) := by
  decide

/-- Claim C10: for the results of `size` blocks of height `h` (the last one of
height `hl`, at most `h`; the rows of the grid, `(size - 1) * h + hl`, fit an
`int`), none of status 2 and every box of status 1 inside its block, the merge
loop of `main` on the results with the offsets `i * h` added returns status 1
exactly when the results of status 1 form a run `a .. b` in the sense of
`OneRun`, and then the merged result is the box `runBox` of that run, that is
`(a * h + rowStart a, colStart, b * h + rowEnd b, colEnd)`; it returns status
0 exactly when no result has status 1, and status 2 exactly when some result
has status 1 but there is no run. -/
theorem merge_characterisation (h hl size : Nat) (v : Nat → Result)
    (hh : 1 ≤ h) (hhl : 1 ≤ hl ∧ hl ≤ h)
    (hstatus : ∀ i, i < size → (v i).status ≠ 2)
    (hint : (((size - 1) * h + hl : Nat) : Int) ≤ INT_MAX)
    (hbox : ∀ i, i < size → (v i).status = 1 →
      0 ≤ (v i).rowStart ∧ (v i).rowStart ≤ (v i).rowEnd ∧
        (v i).rowEnd ≤ (partHeight h hl size i : Int) - 1) :
    ((merge h size (addOffset h v)).status = 1 ↔ ∃ a b, OneRun h size v a b) ∧
    (∀ a b, OneRun h size v a b → merge h size (addOffset h v) = runBox h v a b) ∧
    ((merge h size (addOffset h v)).status = 0 ↔ ∀ i, i < size → (v i).status ≠ 1) ∧
    ((merge h size (addOffset h v)).status = 2 ↔
      ((∃ i, i < size ∧ (v i).status = 1) ∧ ¬ ∃ a b, OneRun h size v a b)) :=
  merge_run_cases h hl size v hh hhl hstatus hint hbox

/-- Scenario D: the results of three blocks of height 2 merge to status 1
with the box of the grid rows 2..5 and the columns 1..3. -/
theorem merge_characterisation_witness :
    (1 ≤ 2 ∧ (1 ≤ 2 ∧ 2 ≤ 2) ∧ (((3 - 1) * 2 + 2 : Nat) : Int) ≤ INT_MAX ∧
      (∀ i, i < 3 → (resultsThreeBlocks i).status ≠ 2) ∧
      (∀ i, i < 3 → (resultsThreeBlocks i).status = 1 →
        0 ≤ (resultsThreeBlocks i).rowStart ∧
        (resultsThreeBlocks i).rowStart ≤ (resultsThreeBlocks i).rowEnd ∧
        (resultsThreeBlocks i).rowEnd ≤ (partHeight 2 2 3 i : Int) - 1)) ∧
    OneRun ((2 : Nat) : Int) 3 resultsThreeBlocks 1 2 ∧
    merge ((2 : Nat) : Int) 3 (addOffset ((2 : Nat) : Int) resultsThreeBlocks) =
      { status := 1, rowStart := 2, colStart := 1, rowEnd := 5, colEnd := 3 } :=
  have hrun : OneRun ((2 : Nat) : Int) 3 resultsThreeBlocks 1 2 :=
    ⟨by decide, by decide, by decide,
     fun i h1 h2 => by
       have : i = 1 := by omega
       subst this; decide,
     fun i h1 h2 => by
       have : i = 2 := by omega
       subst this; decide,
     fun i h1 h2 => by
       have : i = 1 ∨ i = 2 := by omega
       rcases this with rfl | rfl <;> decide⟩
  ⟨⟨by decide, by decide, by decide, by decide, by decide⟩, hrun,
   ((merge_characterisation 2 2 3 resultsThreeBlocks (by decide) (by decide) (by decide)
      (by decide) (by decide)).2.1 1 2 hrun).trans (by decide)⟩

/-! ### The box returned by `search`: its fields and its start -/

/-- What a completed step of the scan keeps and what it fixes. -/
theorem searchCell_step_facts (rectangle : Nat → Char) (columns i j : Nat)
    (s u : SearchState) (hrc : s.foundRowEnd = true → s.foundColumnEnd = true)
    (hres : searchCell rectangle columns i j s = Except.ok u) :
    (s.foundStart = true →
      u.foundStart = true ∧ u.result.rowStart = s.result.rowStart ∧
      u.result.colStart = s.result.colStart) ∧
    (s.foundRowEnd = true → u.foundRowEnd = true ∧ u.result.rowEnd = s.result.rowEnd) ∧
    (s.foundColumnEnd = true →
      u.foundColumnEnd = true ∧ u.result.colEnd = s.result.colEnd) ∧
    (s.foundStart = false →
      (rectangle (i * columns + j) = WHITE ∧ u = s) ∨
      (rectangle (i * columns + j) ≠ WHITE ∧ u.foundStart = true ∧
        u.result.rowStart = i ∧ u.result.colStart = j ∧
        u.foundColumnEnd = s.foundColumnEnd ∧ u.foundRowEnd = s.foundRowEnd)) := by
  obtain ⟨⟨st, rs, cs, re, ce⟩, fS, fR, fC⟩ := s
  unfold searchCell at hres
  simp only at hres hrc
  split_ifs at hres <;> cases hres <;> simp only <;>
    refine ⟨?_, ?_, ?_, ?_⟩ <;> intro hf <;> simp_all

/-- A white field on which the scan goes on lies outside the box fixed so
far. -/
theorem searchCell_white_outside (rectangle : Nat → Char) (columns i j : Nat)
    (s u : SearchState) (hres : searchCell rectangle columns i j s = Except.ok u)
    (hs : s.foundStart = true) (hw : rectangle (i * columns + j) = WHITE)
    (hrs : s.result.rowStart ≤ i) (hre : u.foundRowEnd = true → (i : Int) ≤ u.result.rowEnd)
    (hcs : s.result.colStart ≤ j)
    (hce : u.foundColumnEnd = true → (j : Int) ≤ u.result.colEnd) : False := by
  obtain ⟨⟨st, rs, cs, re, ce⟩, fS, fR, fC⟩ := s
  unfold searchCell at hres
  simp only at hres hs hrs hcs
  split_ifs at hres <;> cases hres <;> simp_all

/-- How the column end is fixed, and that a field that is not white and on
which the scan goes on respects a column end fixed before. -/
theorem searchCell_cap_facts (rectangle : Nat → Char) (columns i j : Nat)
    (s u : SearchState) (hres : searchCell rectangle columns i j s = Except.ok u)
    (hs : s.foundStart = true) :
    (s.foundColumnEnd = true → rectangle (i * columns + j) ≠ WHITE →
      s.result.colStart ≤ j → (j : Int) ≤ s.result.colEnd) ∧
    (s.foundColumnEnd = false → u.foundColumnEnd = true →
      (rectangle (i * columns + j) = WHITE ∧ (i : Int) = s.result.rowStart ∧
        u.result.colEnd = (j : Int) - 1) ∨
      u.result.colEnd = (columns : Int) - 1) := by
  obtain ⟨⟨st, rs, cs, re, ce⟩, fS, fR, fC⟩ := s
  unfold searchCell at hres
  simp only at hres hs
  split_ifs at hres <;> cases hres <;> simp only <;>
    refine ⟨?_, ?_⟩ <;> intros <;> simp_all

theorem searchCell_firstMarked (rectangle : Nat → Char) (columns i j : Nat)
    (s u : SearchState) (hj : j < columns) (hb0 : ScanBounds columns i j s)
    (h : FirstMarked rectangle columns i j s)
    (hres : searchCell rectangle columns i j s = Except.ok u) :
    FirstMarked rectangle columns i (j + 1) u := by
  obtain ⟨fA, _, _, fE⟩ := searchCell_step_facts rectangle columns i j s u
    (fun hf => (hb0.2.2 hf).1) hres
  obtain ⟨h1, h2⟩ := h
  cases hs : s.foundStart with
  | false =>
    rcases fE hs with ⟨hw, rfl⟩ | ⟨hne, hu, e1, e2, _, _⟩
    · refine ⟨fun _ => ?_, fun hf => absurd (hs.symm.trans hf) (by decide)⟩
      intro a b hb hab
      by_cases hold : a < i ∨ (a = i ∧ b < j)
      · exact h1 hs a b hb hold
      · have ha : a = i := by omega
        have hbj : b = j := by omega
        subst ha; subst hbj
        exact hw
    · refine ⟨fun hf => absurd (hu.symm.trans hf) (by decide), fun _ => ?_⟩
      exact ⟨i, j, e1, e2, hj, Or.inr ⟨rfl, by omega⟩, hne, h1 hs⟩
  | true =>
    obtain ⟨hu, e1, e2⟩ := fA hs
    refine ⟨fun hf => absurd (hu.symm.trans hf) (by decide), fun _ => ?_⟩
    obtain ⟨r, c, g1, g2, g3, g4, g5, g6⟩ := h2 hs
    exact ⟨r, c, by rw [e1, g1], by rw [e2, g2], g3, by omega, g5, g6⟩

theorem searchCell_boxFilled (rectangle : Nat → Char) (columns i j : Nat)
    (s u : SearchState) (hb0 : ScanBounds columns i j s)
    (h : BoxFilled rectangle columns i j s)
    (hres : searchCell rectangle columns i j s = Except.ok u) :
    BoxFilled rectangle columns i (j + 1) u := by
  obtain ⟨fA, fB, fC, fE⟩ := searchCell_step_facts rectangle columns i j s u
    (fun hf => (hb0.2.2 hf).1) hres
  intro hfs a b hb hpos hrs hre hcs hce
  cases hs : s.foundStart with
  | false =>
    rcases fE hs with ⟨_, rfl⟩ | ⟨hne, _, e1, e2, _, _⟩
    · exact absurd (hs.symm.trans hfs) (by decide)
    · rw [e1] at hrs
      rw [e2] at hcs
      have ha : a = i := by omega
      have hbj : b = j := by omega
      subst ha; subst hbj
      exact hne
  | true =>
    obtain ⟨_, e1, e2⟩ := fA hs
    rw [e1] at hrs
    rw [e2] at hcs
    by_cases hold : a < i ∨ (a = i ∧ b < j)
    · refine h hs a b hb hold hrs (fun hf => ?_) hcs (fun hf => ?_)
      · obtain ⟨g1, g2⟩ := fB hf
        rw [← g2]; exact hre g1
      · obtain ⟨g1, g2⟩ := fC hf
        rw [← g2]; exact hce g1
    · have ha : a = i := by omega
      have hbj : b = j := by omega
      subst ha; subst hbj
      intro hw
      exact searchCell_white_outside rectangle columns a b s u hres hs hw hrs hre hcs hce

theorem searchCell_columnCap (rectangle : Nat → Char) (columns i j : Nat)
    (s u : SearchState) (hb0 : ScanBounds columns i j s)
    (h : ColumnCap rectangle columns i j s)
    (hres : searchCell rectangle columns i j s = Except.ok u) :
    ColumnCap rectangle columns i (j + 1) u := by
  obtain ⟨fA, fB, fC, fE⟩ := searchCell_step_facts rectangle columns i j s u
    (fun hf => (hb0.2.2 hf).1) hres
  intro hfc hfr a b hb hpos hrs hcs hne
  cases hsc : s.foundColumnEnd with
  | true =>
    have hs : s.foundStart = true := (hb0.2.1 hsc).1
    obtain ⟨_, e1, e2⟩ := fA hs
    obtain ⟨_, e3⟩ := fC hsc
    have hsr : s.foundRowEnd = false := by
      cases hx : s.foundRowEnd with
      | false => rfl
      | true => exact absurd ((fB hx).1.symm.trans hfr) (by decide)
    rw [e1] at hrs
    rw [e2] at hcs
    rw [e3]
    by_cases hold : a < i ∨ (a = i ∧ b < j)
    · exact h hsc hsr a b hb hold hrs hcs hne
    · have ha : a = i := by omega
      have hbj : b = j := by omega
      subst ha; subst hbj
      exact (searchCell_cap_facts rectangle columns a b s u hres hs).1 hsc hne hcs
  | false =>
    cases hs : s.foundStart with
    | false =>
      rcases fE hs with ⟨_, rfl⟩ | ⟨_, _, _, _, e5, _⟩
      · exact absurd (hsc.symm.trans hfc) (by decide)
      · rw [hsc] at e5
        exact absurd (e5.symm.trans hfc) (by decide)
    | true =>
      obtain ⟨_, e1, e2⟩ := fA hs
      rw [e1] at hrs
      rw [e2] at hcs
      rcases (searchCell_cap_facts rectangle columns i j s u hres hs).2 hsc hfc with
        ⟨hw, hi, hce⟩ | hce
      · rw [hce]
        have ha : a = i := by omega
        subst ha
        have hbj : b ≠ j := fun hbj => hne (by rw [hbj]; exact hw)
        omega
      · rw [hce]
        omega

/-- What the statements behind the loops of `search` do to a state in which
the start was found. -/
theorem searchFinish_facts (rectangle : Nat → Char) (rows columns : Nat) (t : SearchState)
    (hfs : t.foundStart = true) :
    (searchFinish rectangle rows columns t).status = t.result.status ∧
    (searchFinish rectangle rows columns t).rowStart = t.result.rowStart ∧
    (searchFinish rectangle rows columns t).colStart = t.result.colStart ∧
    (t.foundRowEnd = true →
      (searchFinish rectangle rows columns t).rowEnd = t.result.rowEnd ∧
      (searchFinish rectangle rows columns t).colEnd = t.result.colEnd) ∧
    (t.foundRowEnd = false → t.foundColumnEnd = true →
      (searchFinish rectangle rows columns t).colEnd = t.result.colEnd ∨
      (rectangle (rows * columns - 1) = BLACK ∧
        (searchFinish rectangle rows columns t).colEnd = (columns : Int) - 1)) := by
  obtain ⟨⟨st, rs, cs, re, ce⟩, fS, fR, fC⟩ := t
  unfold searchFinish
  simp only at hfs ⊢
  split_ifs <;> simp_all

/-- The four invariants of the scan hold at the end of a scan that was not
left early. -/
theorem searchLoop_marked (rectangle : Nat → Char) (rows columns : Nat) :
    (∃ t, searchLoop rectangle rows columns = Except.ok t ∧
      ScanBounds columns rows 0 t ∧ FirstMarked rectangle columns rows 0 t ∧
      BoxFilled rectangle columns rows 0 t ∧ ColumnCap rectangle columns rows 0 t) ∨
    (∃ e, searchLoop rectangle rows columns = Except.error e) := by
  rcases searchLoop_rule rectangle rows columns
      (fun i j s => ScanBounds columns i j s ∧ FirstMarked rectangle columns i j s ∧
        BoxFilled rectangle columns i j s ∧ ColumnCap rectangle columns i j s)
      (fun _ => True)
      ⟨⟨fun h => by simp [searchInit] at h, fun h => by simp [searchInit] at h,
        fun h => by simp [searchInit] at h⟩,
       ⟨fun _ a b _ hab => by omega, fun h => by simp [searchInit] at h⟩,
       fun h => by simp [searchInit] at h, fun h => by simp [searchInit] at h⟩
      (fun i j s _ hj hP => by
        cases hres : searchCell rectangle columns i j s with
        | error e => exact Or.inr ⟨e, rfl, trivial⟩
        | ok u =>
          exact Or.inl ⟨u, rfl, searchCell_scanBounds rectangle columns i j s u hj hP.1 hres,
            searchCell_firstMarked rectangle columns i j s u hj hP.1 hP.2.1 hres,
            searchCell_boxFilled rectangle columns i j s u hP.1 hP.2.2.1 hres,
            searchCell_columnCap rectangle columns i j s u hP.1 hP.2.2.2 hres⟩)
      (fun i s _ hP => by
        obtain ⟨⟨h1, h2, h3⟩, ⟨h4, h5⟩, h6, h7⟩ := hP
        refine ⟨⟨fun hf => ?_, h2, fun hf => ?_⟩, ⟨fun hf => ?_, fun hf => ?_⟩, ?_, ?_⟩
        · obtain ⟨a1, a2, a3, a4, a5⟩ := h1 hf
          exact ⟨a1, a2, a3, a4, by omega⟩
        · obtain ⟨a1, a2, a3⟩ := h3 hf
          exact ⟨a1, a2, by push_cast; omega⟩
        · intro a b hb hab
          exact h4 hf a b hb (by omega)
        · obtain ⟨r, c, g1, g2, g3, g4, g5, g6⟩ := h5 hf
          exact ⟨r, c, g1, g2, g3, by omega, g5, g6⟩
        · intro hfs a b hb hpos
          exact h6 hfs a b hb (by omega)
        · intro hfc hfr a b hb hpos
          exact h7 hfc hfr a b hb (by omega)) with ⟨t, ht, hP⟩ | ⟨e, he, _⟩
  · exact Or.inl ⟨t, ht, hP⟩
  · exact Or.inr ⟨e, he⟩

/-- The fields of the box returned with status 1 are not white, and its start
is the first field of the partition that is not white. -/
theorem search_box_fields (rectangle : Nat → Char) (rows columns : Nat)
    (hr : 1 ≤ rows) (hc : 1 ≤ columns)
    (hone : (search rectangle rows columns).status = 1) :
    (∀ i j : Nat, i < rows → j < columns →
      (search rectangle rows columns).rowStart ≤ i →
      (i : Int) ≤ (search rectangle rows columns).rowEnd →
      (search rectangle rows columns).colStart ≤ j →
      (j : Int) ≤ (search rectangle rows columns).colEnd →
      rectangle (i * columns + j) ≠ WHITE) ∧
    (∃ r c : Nat, r < rows ∧ c < columns ∧
      (search rectangle rows columns).rowStart = r ∧
      (search rectangle rows columns).colStart = c ∧
      rectangle (r * columns + c) ≠ WHITE ∧
      ∀ a b : Nat, a < rows → b < columns → (a < r ∨ (a = r ∧ b < c)) →
        rectangle (a * columns + b) = WHITE) := by
  rcases searchLoop_marked rectangle rows columns with ⟨t, ht, hB, hF, hfill, hcap⟩ | ⟨e, he⟩
  · unfold search at hone ⊢
    rw [ht] at hone ⊢
    simp only at hone ⊢
    have hfs : t.foundStart = true := by
      cases hx : t.foundStart with
      | true => rfl
      | false =>
        rw [searchFinish_status] at hone
        simp [hx] at hone
    obtain ⟨_, e1, e2, e3, e4⟩ := searchFinish_facts rectangle rows columns t hfs
    generalize searchFinish rectangle rows columns t = R at e1 e2 e3 e4 hone ⊢
    obtain ⟨_, b2, b3, b4, b5⟩ := hB.1 hfs
    constructor
    · intro i j hi hj hrs hre hcs hce
      rw [e1] at hrs
      rw [e2] at hcs
      refine hfill hfs i j hj (Or.inl hi) hrs (fun hf => ?_) hcs (fun hf => ?_)
      · rw [← (e3 hf).1]; exact hre
      · cases hx : t.foundRowEnd with
        | true => rw [← (e3 hx).2]; exact hce
        | false =>
          rcases e4 hx hf with h5 | ⟨hblack, _⟩
          · rw [← h5]; exact hce
          · have hlast : rectangle ((rows - 1) * columns + (columns - 1)) ≠ WHITE := by
              rw [← last_index rows columns hr hc, hblack]
              exact black_ne_white
            have := hcap hf hx (rows - 1) (columns - 1) (by omega) (by omega) (by omega)
              (by omega) hlast
            omega
    · obtain ⟨r, c, g1, g2, g3, g4, g5, g6⟩ := hF.2 hfs
      refine ⟨r, c, by omega, g3, by rw [e1, g1], by rw [e2, g2], g5, ?_⟩
      intro a b _ hb hab
      exact g6 a b hb hab
  · exfalso
    unfold search at hone
    rw [he] at hone
    simp at hone

/-- C11: when `search` returns status 1 on a partition of at least one row and
one column, every field of the partition inside the returned box
`(rowStart, colStart, rowEnd, colEnd)` is not white, and the start
`(rowStart, colStart)` is a field of the partition that is not white while
every field before it in row-major order is white. -/
theorem search_box_marked (rectangle : Nat → Char) (rows columns : Nat)
    (hr : 1 ≤ rows) (hc : 1 ≤ columns)
    (hone : (search rectangle rows columns).status = 1) :
    (∀ i j : Nat, i < rows → j < columns →
      (search rectangle rows columns).rowStart ≤ i →
      (i : Int) ≤ (search rectangle rows columns).rowEnd →
      (search rectangle rows columns).colStart ≤ j →
      (j : Int) ≤ (search rectangle rows columns).colEnd →
      rectangle (i * columns + j) ≠ WHITE) ∧
    (∃ r c : Nat, r < rows ∧ c < columns ∧
      (search rectangle rows columns).rowStart = r ∧
      (search rectangle rows columns).colStart = c ∧
      rectangle (r * columns + c) ≠ WHITE ∧
      ∀ a b : Nat, a < rows → b < columns → (a < r ∨ (a = r ∧ b < c)) →
        rectangle (a * columns + b) = WHITE) :=
  search_box_fields rectangle rows columns hr hc hone

/-- C11 at the 3 x 4 grid with the marked box rows 1..2 x columns 1..2. -/
theorem search_box_marked_witness :
    1 ≤ 3 ∧ 1 ≤ 4 ∧ (search gridSmallBox 3 4).status = 1 ∧
    (∀ i j : Nat, i < 3 → j < 4 →
      (search gridSmallBox 3 4).rowStart ≤ i → (i : Int) ≤ (search gridSmallBox 3 4).rowEnd →
      (search gridSmallBox 3 4).colStart ≤ j → (j : Int) ≤ (search gridSmallBox 3 4).colEnd →
      gridSmallBox (i * 4 + j) ≠ WHITE) ∧
    (∃ r c : Nat, r < 3 ∧ c < 4 ∧
      (search gridSmallBox 3 4).rowStart = r ∧ (search gridSmallBox 3 4).colStart = c ∧
      gridSmallBox (r * 4 + c) ≠ WHITE ∧
      ∀ a b : Nat, a < 3 → b < 4 → (a < r ∨ (a = r ∧ b < c)) →
        gridSmallBox (a * 4 + b) = WHITE) :=
  ⟨by decide, by decide, by decide,
    search_box_marked gridSmallBox 3 4 (by decide) (by decide) (by decide)⟩

/-! ### One row per process -/

theorem searchCell_startRowCap (rectangle : Nat → Char) (columns i j : Nat)
    (s u : SearchState) (hb0 : ScanBounds columns i j s)
    (h : StartRowCap rectangle columns i j s)
    (hres : searchCell rectangle columns i j s = Except.ok u) :
    StartRowCap rectangle columns i (j + 1) u := by
  obtain ⟨fA, _, fC, fE⟩ := searchCell_step_facts rectangle columns i j s u
    (fun hf => (hb0.2.2 hf).1) hres
  intro hfc a b hb hpos hrow hcs hne
  cases hsc : s.foundColumnEnd with
  | true =>
    have hs : s.foundStart = true := (hb0.2.1 hsc).1
    obtain ⟨_, e1, e2⟩ := fA hs
    obtain ⟨_, e3⟩ := fC hsc
    rw [e1] at hrow
    rw [e2] at hcs
    rw [e3]
    by_cases hold : a < i ∨ (a = i ∧ b < j)
    · exact h hsc a b hb hold hrow hcs hne
    · have ha : a = i := by omega
      have hbj : b = j := by omega
      subst ha; subst hbj
      exact (searchCell_cap_facts rectangle columns a b s u hres hs).1 hsc hne hcs
  | false =>
    cases hs : s.foundStart with
    | false =>
      rcases fE hs with ⟨_, rfl⟩ | ⟨_, _, _, _, e5, _⟩
      · exact absurd (hsc.symm.trans hfc) (by decide)
      · rw [hsc] at e5
        exact absurd (e5.symm.trans hfc) (by decide)
    | true =>
      obtain ⟨_, e1, e2⟩ := fA hs
      rw [e1] at hrow
      rw [e2] at hcs
      rcases (searchCell_cap_facts rectangle columns i j s u hres hs).2 hsc hfc with
        ⟨hw, hi, hce⟩ | hce
      · rw [hce]
        have ha : a = i := by omega
        subst ha
        have hbj : b ≠ j := fun hbj => hne (by rw [hbj]; exact hw)
        omega
      · rw [hce]
        omega

/-- The column end returned with a start: the last column, or the column end
fixed by the scan, or the placeholder when the scan fixed none and the last
field is not `BLACK`. -/
theorem searchFinish_colEnd (rectangle : Nat → Char) (rows columns : Nat) (t : SearchState)
    (hfs : t.foundStart = true) (hrc : t.foundRowEnd = true → t.foundColumnEnd = true) :
    (searchFinish rectangle rows columns t).colEnd = (columns : Int) - 1 ∨
    (t.foundColumnEnd = true ∧
      (searchFinish rectangle rows columns t).colEnd = t.result.colEnd) ∨
    (t.foundColumnEnd = false ∧ rectangle (rows * columns - 1) ≠ BLACK) := by
  obtain ⟨⟨st, rs, cs, re, ce⟩, fS, fR, fC⟩ := t
  unfold searchFinish
  simp only at hfs hrc ⊢
  split_ifs <;> simp_all

/-- On a partition whose last field is `WHITE` or `BLACK`, the fields of the
start row that are not white do not lie right of the returned column end. -/
theorem search_start_row_cap (rectangle : Nat → Char) (rows columns : Nat)
    (hr : 1 ≤ rows) (hc : 1 ≤ columns)
    (hlast : rectangle (rows * columns - 1) = WHITE ∨ rectangle (rows * columns - 1) = BLACK)
    (hone : (search rectangle rows columns).status = 1) :
    ∀ r j : Nat, j < columns → (r : Int) = (search rectangle rows columns).rowStart →
      (search rectangle rows columns).colStart ≤ j →
      rectangle (r * columns + j) ≠ WHITE → (j : Int) ≤ (search rectangle rows columns).colEnd := by
  rcases searchLoop_rule rectangle rows columns
      (fun i j s => ScanBounds columns i j s ∧ OpenRun rectangle columns i j s ∧
        StartRowCap rectangle columns i j s)
      (fun _ => True)
      ⟨⟨fun h => by simp [searchInit] at h, fun h => by simp [searchInit] at h,
        fun h => by simp [searchInit] at h⟩, fun h => by simp [searchInit] at h,
        fun h => by simp [searchInit] at h⟩
      (fun i j s _ hj hP => by
        cases hres : searchCell rectangle columns i j s with
        | error e => exact Or.inr ⟨e, rfl, trivial⟩
        | ok u =>
          exact Or.inl ⟨u, rfl, searchCell_scanBounds rectangle columns i j s u hj hP.1 hres,
            searchCell_openRun rectangle columns i j s u hP.2.1 hres,
            searchCell_startRowCap rectangle columns i j s u hP.1 hP.2.2 hres⟩)
      (fun i s _ hP => by
        obtain ⟨⟨h1, h2, h3⟩, h4, h5⟩ := hP
        refine ⟨⟨fun hf => ?_, h2, fun hf => ?_⟩, ?_, ?_⟩
        · obtain ⟨a1, a2, a3, a4, a5⟩ := h1 hf
          exact ⟨a1, a2, a3, a4, by omega⟩
        · obtain ⟨a1, a2, a3⟩ := h3 hf
          exact ⟨a1, a2, by push_cast; omega⟩
        · intro hfs hfc a b hb hpos hafter hcs
          exact h4 hfs hfc a b hb (by omega) hafter hcs
        · intro hfc a b hb hpos
          exact h5 hfc a b hb (by omega)) with ⟨t, ht, hB, hopen, hcap⟩ | ⟨e, he, _⟩
  · unfold search at hone ⊢
    rw [ht] at hone ⊢
    simp only at hone ⊢
    have hfs : t.foundStart = true := by
      cases hx : t.foundStart with
      | true => rfl
      | false =>
        rw [searchFinish_status] at hone
        simp [hx] at hone
    obtain ⟨_, e1, e2, _, _⟩ := searchFinish_facts rectangle rows columns t hfs
    have e5 := searchFinish_colEnd rectangle rows columns t hfs (fun hf => (hB.2.2 hf).1)
    generalize searchFinish rectangle rows columns t = R at e1 e2 e5 hone ⊢
    obtain ⟨_, b2, b3, b4, b5⟩ := hB.1 hfs
    intro r j hj hrow hcs hne
    rw [e1] at hrow
    rw [e2] at hcs
    rcases e5 with h5 | ⟨hfc, h5⟩ | ⟨hfc, hnb⟩
    · rw [h5]; omega
    · rw [h5]
      exact hcap hfc r j hj (by omega) hrow hcs hne
    · exfalso
      have hw : rectangle (rows * columns - 1) = WHITE := by
        rcases hlast with h | h
        · exact h
        · exact absurd h hnb
      rw [last_index rows columns hr hc] at hw
      exact hopen hfs hfc (rows - 1) (columns - 1) (by omega) (by omega) (by omega)
        (by omega) hw
  · exfalso
    unfold search at hone
    rw [he] at hone
    simp at hone

/-- A partition of one row whose last field is `WHITE` or `BLACK`: when
`search` returns status 1, the fields that are not white are exactly those of
the returned box, which lies in row 0. -/
theorem search_row_exact (g : Nat → Char) (columns : Nat) (hc : 1 ≤ columns)
    (hlast : g (columns - 1) = WHITE ∨ g (columns - 1) = BLACK)
    (hone : (search g 1 columns).status = 1) :
    ∃ c1 c2 : Nat, c1 ≤ c2 ∧ c2 < columns ∧
      search g 1 columns =
        { status := 1, rowStart := 0, colStart := c1, rowEnd := 0, colEnd := c2 } ∧
      ∀ j, j < columns → (g j ≠ WHITE ↔ (c1 ≤ j ∧ j ≤ c2)) := by
  have hl : g (1 * columns - 1) = WHITE ∨ g (1 * columns - 1) = BLACK := by
    rw [Nat.one_mul]; exact hlast
  obtain ⟨_, hwf⟩ := search_well_formed g 1 columns (Nat.le_refl 1) hc hl
  obtain ⟨w1, w2, w3, w4, w5, w6⟩ := hwf hone
  obtain ⟨hbox, r, c, hr1, hc1, e1, e2, hne, hbefore⟩ :=
    search_box_fields g 1 columns (Nat.le_refl 1) hc hone
  have hcap := search_start_row_cap g 1 columns (Nat.le_refl 1) hc hl hone
  generalize search g 1 columns = R at hone w1 w2 w3 w4 w5 w6 hbox e1 e2 hcap
  obtain ⟨st, rs, cs, re, ce⟩ := R
  simp only at hone w1 w2 w3 w4 w5 w6 hbox e1 e2 hcap
  have hr0 : r = 0 := by omega
  subst hr0
  obtain ⟨c2, hc2⟩ : ∃ c2 : Nat, ce = (c2 : Int) := ⟨ce.toNat, by omega⟩
  subst hc2
  subst e2
  have hrs : rs = 0 := by omega
  have hre : re = 0 := by omega
  subst hrs; subst hre
  refine ⟨c, c2, by omega, by omega, by rw [hone], ?_⟩
  intro j hj
  constructor
  · intro hnw
    have hcj : c ≤ j := by
      by_contra hlt
      have := hbefore 0 j (by omega) hj (Or.inr ⟨rfl, by omega⟩)
      rw [Nat.zero_mul, Nat.zero_add] at this
      exact hnw this
    have := hcap 0 j hj (by simp) (by omega) (by rw [Nat.zero_mul, Nat.zero_add]; exact hnw)
    omega
  · rintro ⟨h1, h2⟩
    have := hbox 0 j (by omega) hj (by simp) (by simp) (by omega) (by omega)
    rw [Nat.zero_mul, Nat.zero_add] at this
    exact this

/-- With as many processes as rows every process uses the height 1. -/
theorem rowsPart_rows {rows : Nat} (hr : 1 ≤ rows) (rank : Nat) :
    rowsPart rows rows rank = 1 := by
  have h1 : (rows + rows - 1) / rows = 1 :=
    Nat.div_eq_of_lt_le (by omega) (by omega)
  unfold rowsPart
  simp only [h1, Nat.mod_one, ne_eq, not_true_eq_false, and_false, if_false]

theorem tilesExactly_rows {rows : Nat} (hr : 1 ≤ rows) : tilesExactly rows rows := by
  rw [tilesExactly_iff hr hr]
  have h1 : blockHeight rows rows = 1 := by
    unfold blockHeight
    exact Nat.div_eq_of_lt_le (by omega) (by omega)
  rw [h1]
  omega

/-- With as many processes as rows the partition of process `p` is row `p`. -/
theorem resultPart_row (rectangle : Nat → Char) (rows columns p : Nat) (hr : 1 ≤ rows) :
    resultPart rectangle rows columns rows p =
      search (fun k => rectangle (p * columns + k)) 1 columns := by
  have h1 : (rows + rows - 1) / rows = 1 :=
    Nat.div_eq_of_lt_le (by omega) (by omega)
  unfold resultPart rectanglePart
  rw [rowsPart_rows hr, h1, Nat.one_mul]

/-- One row per process, every row ending in a field that is `WHITE` or
`BLACK`: the merged status is 1 exactly when the fields that are not white
are the fields of one box, the merged result is then that box, the status is
0 exactly when all fields are white, and it is 2 in every other case.  The
number of rows is an `int`. -/
theorem main_rows_exact (rectangle : Nat → Char) (rows columns : Nat)
    (hr : 1 ≤ rows) (hc : 1 ≤ columns) (hint : (rows : Int) ≤ INT_MAX)
    (hlast : ∀ i, i < rows →
      rectangle (i * columns + (columns - 1)) = WHITE ∨
      rectangle (i * columns + (columns - 1)) = BLACK) :
    ((main rectangle rows columns rows).status = 1 ↔
      ∃ r1 c1 r2 c2, r1 ≤ r2 ∧ r2 < rows ∧ c1 ≤ c2 ∧ c2 < columns ∧
        MarkedBox rectangle columns rows r1 c1 r2 c2) ∧
    (∀ r1 c1 r2 c2, r1 ≤ r2 ∧ r2 < rows ∧ c1 ≤ c2 ∧ c2 < columns →
      MarkedBox rectangle columns rows r1 c1 r2 c2 →
      main rectangle rows columns rows =
        { status := 1, rowStart := r1, colStart := c1, rowEnd := r2, colEnd := c2 }) ∧
    ((main rectangle rows columns rows).status = 0 ↔ AllWhite rectangle rows columns) ∧
    ((main rectangle rows columns rows).status = 0 ∨
      (main rectangle rows columns rows).status = 1 ∨
      (main rectangle rows columns rows).status = 2) := by
  have ht := tilesExactly_rows hr
  have hboxes : ∀ r1 c1 r2 c2, r1 ≤ r2 ∧ r2 < rows ∧ c1 ≤ c2 ∧ c2 < columns →
      MarkedBox rectangle columns rows r1 c1 r2 c2 →
      main rectangle rows columns rows =
        { status := 1, rowStart := r1, colStart := c1, rowEnd := r2, colEnd := c2 } :=
    fun r1 c1 r2 c2 hb hm =>
      main_box rectangle rows columns rows r1 c1 r2 c2 hr hr ht hint hb hm hlast
  -- the results of the rows
  have hrow : ∀ p, p < rows →
      (resultPart rectangle rows columns rows p).status = 1 →
      ∃ c1 c2 : Nat, c1 ≤ c2 ∧ c2 < columns ∧
        resultPart rectangle rows columns rows p =
          { status := 1, rowStart := 0, colStart := c1, rowEnd := 0, colEnd := c2 } ∧
        ∀ j, j < columns → (rectangle (p * columns + j) ≠ WHITE ↔ (c1 ≤ j ∧ j ≤ c2)) := by
    intro p hp h1
    rw [resultPart_row rectangle rows columns p hr] at h1 ⊢
    exact search_row_exact (fun k => rectangle (p * columns + k)) columns hc (hlast p hp) h1
  have hzero : ∀ p, p < rows →
      (resultPart rectangle rows columns rows p).status = 0 →
      ∀ j, j < columns → rectangle (p * columns + j) = WHITE := by
    intro p _ h0 j hj
    rw [resultPart_row rectangle rows columns p hr, search_status_zero_iff] at h0
    have := h0 0 j (by omega) hj
    rw [Nat.zero_mul, Nat.zero_add] at this
    exact this
  have hthree : ∀ p,
      (resultPart rectangle rows columns rows p).status = 0 ∨
      (resultPart rectangle rows columns rows p).status = 1 ∨
      (resultPart rectangle rows columns rows p).status = 2 := by
    intro p
    unfold resultPart
    rcases search_status (rectanglePart rectangle rows columns rows p)
      (rowsPart rows rows p) columns with ⟨h, _⟩ | ⟨h | h, _⟩
    · exact Or.inl h
    · exact Or.inr (Or.inl h)
    · exact Or.inr (Or.inr h)
  have hmain : main rectangle rows columns rows =
      merge ((1 : Nat) : Int) rows
        (addOffset ((1 : Nat) : Int) (fun i => resultPart rectangle rows columns rows i)) := by
    unfold main
    rw [rowsPart_rows hr]
  by_cases hmany : ∃ p, p < rows ∧ (resultPart rectangle rows columns rows p).status = 2
  · have h2 : (main rectangle rows columns rows).status = 2 := by
      rw [hmain]
      exact merge_many_of_exists _ rows _ hmany
    refine ⟨⟨fun h1 => ?_, fun ⟨r1, c1, r2, c2, g1, g2, g3, g4, hm⟩ => ?_⟩, hboxes,
      main_status_zero_iff rectangle hr hr ht, Or.inr (Or.inr h2)⟩
    · rw [h2] at h1
      exact absurd h1 (by decide)
    · rw [hboxes r1 c1 r2 c2 ⟨g1, g2, g3, g4⟩ hm]
  · have hstatus : ∀ i, i < rows → (resultPart rectangle rows columns rows i).status ≠ 2 :=
      fun i hi h => hmany ⟨i, hi, h⟩
    have hint2 : (((rows - 1) * 1 + 1 : Nat) : Int) ≤ INT_MAX := by
      have : (rows - 1) * 1 + 1 = rows := by omega
      rw [this]
      exact hint
    obtain ⟨m1, m2, m3, m4⟩ := merge_run_cases 1 1 rows
      (fun i => resultPart rectangle rows columns rows i) (Nat.le_refl 1)
      ⟨Nat.le_refl 1, Nat.le_refl 1⟩ hstatus hint2
      (fun i hi h1 => by
        obtain ⟨c1, c2, _, _, e, _⟩ := hrow i hi h1
        simp only at e ⊢
        rw [e]
        unfold partHeight
        split_ifs <;> simp)
    rw [← hmain] at m1 m2 m3 m4
    refine ⟨⟨fun h1 => ?_, fun ⟨r1, c1, r2, c2, g1, g2, g3, g4, hm⟩ => ?_⟩, hboxes,
      main_status_zero_iff rectangle hr hr ht, ?_⟩
    · obtain ⟨a, b, hab, hb, hst, _, _, hcols⟩ := m1.1 h1
      obtain ⟨c1, c2, k1, k2, ea, hma⟩ := hrow a (by omega) ((hst a (by omega)).2 ⟨by omega, hab⟩)
      refine ⟨a, c1, b, c2, hab, hb, k1, k2, ?_⟩
      intro i j hi hj
      by_cases hin : a ≤ i ∧ i ≤ b
      · obtain ⟨d1, d2, _, _, ei, hmi⟩ := hrow i hi ((hst i hi).2 hin)
        obtain ⟨q1, q2⟩ := hcols i hin.1 hin.2
        simp only at q1 q2
        rw [ei, ea] at q1 q2
        simp only at q1 q2
        have z1 : d1 = c1 := by exact_mod_cast q1
        have z2 : d2 = c2 := by exact_mod_cast q2
        subst z1; subst z2
        rw [hmi j hj]
        constructor
        · rintro ⟨y1, y2⟩; exact ⟨hin.1, hin.2, y1, y2⟩
        · rintro ⟨_, _, y1, y2⟩; exact ⟨y1, y2⟩
      · have hne1 : (resultPart rectangle rows columns rows i).status ≠ 1 :=
          fun h => hin ((hst i hi).1 h)
        have h0 : (resultPart rectangle rows columns rows i).status = 0 := by
          rcases hthree i with h | h | h
          · exact h
          · exact absurd h hne1
          · exact absurd h (hstatus i hi)
        constructor
        · intro hnw; exact absurd (hzero i hi h0 j hj) hnw
        · rintro ⟨y1, y2, _, _⟩; exact absurd ⟨y1, y2⟩ hin
    · rw [hboxes r1 c1 r2 c2 ⟨g1, g2, g3, g4⟩ hm]
    · by_cases hex : ∃ i, i < rows ∧ (resultPart rectangle rows columns rows i).status = 1
      · by_cases hrun : ∃ a b, OneRun ((1 : Nat) : Int) rows
            (fun i => resultPart rectangle rows columns rows i) a b
        · exact Or.inr (Or.inl (m1.2 hrun))
        · exact Or.inr (Or.inr (m4.2 ⟨hex, hrun⟩))
      · exact Or.inl (m3.2 (fun i hi h => hex ⟨i, hi, h⟩))

/-- The 3 x 4 grid with the marked box rows 1..2 x columns 1..2, one row per
process: status 1 with that box. -/
theorem main_rows_exact_witness :
    main gridSmallBox 3 4 3 =
      { status := 1, rowStart := 1, colStart := 1, rowEnd := 2, colEnd := 2 } ∧
    ((main gridSmallBox 3 4 3).status = 1 ↔
      ∃ r1 c1 r2 c2, r1 ≤ r2 ∧ r2 < 3 ∧ c1 ≤ c2 ∧ c2 < 4 ∧
        MarkedBox gridSmallBox 4 3 r1 c1 r2 c2) :=
  ⟨by decide,
    (main_rows_exact gridSmallBox 3 4 (by decide) (by decide) (by decide)
      (fun i hi => by
        have h : ∀ k, k < 3 →
            gridSmallBox (k * 4 + (4 - 1)) = WHITE ∨ gridSmallBox (k * 4 + (4 - 1)) = BLACK := by
          decide
        exact h i hi)).1⟩

/-- Claim C12 fails on the code: the 2 x 2 grid `gridLastUnpainted` has no
white field, so its marked fields are exactly the box (0, 0, 1, 1); with two
processes of one row each the merged status is 2, not 1 with that box. -/
theorem main_rows_unpainted_last_field :
    rowsPart 2 2 0 = 1 ∧ rowsPart 2 2 1 = 1 ∧
    (∀ i, i < 2 → ∀ j, j < 2 →
      (gridLastUnpainted (i * 2 + j) ≠ WHITE ↔ (0 ≤ i ∧ i ≤ 1 ∧ 0 ≤ j ∧ j ≤ 1))) ∧
    (resultPart gridLastUnpainted 2 2 2 0).toList = [1, 0, 0, 0, 1] ∧
    (resultPart gridLastUnpainted 2 2 2 1).toList = [1, 0, 0, INT_MAX, INT_MAX] ∧
    (main gridLastUnpainted 2 2 2).status = 2 ∧
    main gridLastUnpainted 2 2 2 ≠
      { status := 1, rowStart := 0, colStart := 0, rowEnd := 1, colEnd := 1 } := by
  decide

/-! ### Early exit of the scan -/

/-- A loop that was left early was left by the body of one iteration, after
the iterations before it had completed. -/
theorem forLoop_error_split {σ : Type} {body : Nat → σ → Except σ σ} {s e : σ} :
    ∀ n, forLoop n body s = Except.error e →
      ∃ k, k < n ∧ ∃ t, forLoop k body s = Except.ok t ∧ body k t = Except.error e := by
  intro n
  induction n with
  | zero => intro h; cases h
  | succ m ih =>
    intro h
    cases hm : forLoop m body s with
    | ok t =>
      rw [forLoop_succ_ok hm] at h
      exact ⟨m, by omega, t, hm, h⟩
    | error e2 =>
      rw [forLoop_succ_error hm] at h
      cases h
      obtain ⟨k, hk, t, h1, h2⟩ := ih hm
      exact ⟨k, by omega, t, h1, h2⟩

/-- The step for the field `(i, j)` reads the grid at `i * columns + j` only. -/
theorem searchCell_congr (rectangle rectangle2 : Nat → Char) (columns i j : Nat)
    (s : SearchState) (h : rectangle2 (i * columns + j) = rectangle (i * columns + j)) :
    searchCell rectangle2 columns i j s = searchCell rectangle columns i j s := by
  unfold searchCell
  rw [h]

/-- The status 2 is returned by `goto moreThenOne` only. -/
theorem search_many_exit (rectangle : Nat → Char) (rows columns : Nat)
    (h : (search rectangle rows columns).status = 2) :
    ∃ e, searchLoop rectangle rows columns = Except.error e := by
  rcases searchLoop_rule rectangle rows columns (StartInv rectangle rows columns)
      (fun _ => True)
      ⟨fun _ => ⟨rfl, fun a b _ hab => by omega⟩, fun h => by simp [searchInit] at h⟩
      (fun i j s hi hj hP => by
        rcases searchCell_startInv rectangle rows columns i j s hi hj hP with h1 | ⟨e, he, _⟩
        · exact Or.inl h1
        · exact Or.inr ⟨e, he, trivial⟩)
      (fun i s _ hP => by
        unfold StartInv at hP ⊢
        refine ⟨fun hf => ⟨(hP.1 hf).1, ?_⟩, hP.2⟩
        intro a b hb hab
        refine (hP.1 hf).2 a b hb ?_
        omega) with ⟨t, ht, hP⟩ | ⟨e, he, _⟩
  · exfalso
    unfold search at h
    rw [ht] at h
    simp only [searchFinish_status] at h
    cases hfs : t.foundStart with
    | false => simp [hfs] at h
    | true =>
      have := (hP.2 hfs).1
      simp [hfs, this] at h
  · exact ⟨e, he⟩

/-- The scan that is left at the field `(i0, j0)` is left there, in the same
state, on every grid with the same fields up to `(i0, j0)`. -/
theorem searchLoop_exit_stable (rectangle rectangle2 : Nat → Char) (rows columns i0 j0 : Nat)
    (t u e : SearchState) (hi : i0 < rows) (hj : j0 < columns)
    (hrows : forLoop i0 (fun i s => searchRow rectangle columns i s) searchInit = Except.ok t)
    (hcells : forLoop j0 (fun j s => searchCell rectangle columns i0 j s) t = Except.ok u)
    (hexit : searchCell rectangle columns i0 j0 u = Except.error e)
    (hsame : ∀ m, m ≤ i0 * columns + j0 → rectangle2 m = rectangle m) :
    searchLoop rectangle2 rows columns = Except.error e := by
  have hrows2 : forLoop i0 (fun i s => searchRow rectangle2 columns i s) searchInit =
      Except.ok t := by
    rw [← hrows]
    apply forLoop_congr
    intro i hlt s
    unfold searchRow
    apply forLoop_congr
    intro j hjc s2
    apply searchCell_congr
    apply hsame
    have : (i + 1) * columns ≤ i0 * columns := Nat.mul_le_mul_right columns (by omega)
    rw [Nat.succ_mul] at this
    omega
  have hcells2 : forLoop j0 (fun j s => searchCell rectangle2 columns i0 j s) t =
      Except.ok u := by
    rw [← hcells]
    apply forLoop_congr
    intro j hjc s2
    apply searchCell_congr
    apply hsame
    omega
  have hexit2 : searchCell rectangle2 columns i0 j0 u = Except.error e := by
    rw [← hexit]
    exact searchCell_congr rectangle rectangle2 columns i0 j0 u (hsame _ (Nat.le_refl _))
  have hrow : searchRow rectangle2 columns i0 t = Except.error e := by
    unfold searchRow
    refine forLoop_error_mono ?_ columns (by omega : j0 + 1 ≤ columns)
    rw [forLoop_succ_ok hcells2]
    exact hexit2
  unfold searchLoop
  refine forLoop_error_mono ?_ rows (by omega : i0 + 1 ≤ rows)
  rw [forLoop_succ_ok hrows2]
  exact hrow

/-- A loop that completed its first `n + 1` iterations completed the first
`n` and then the body of iteration `n`. -/
theorem forLoop_ok_split {σ : Type} {body : Nat → σ → Except σ σ} {s t : σ} {n : Nat}
    (h : forLoop (n + 1) body s = Except.ok t) :
    ∃ t2, forLoop n body s = Except.ok t2 ∧ body n t2 = Except.ok t := by
  rw [forLoop_succ] at h
  cases hm : forLoop n body s with
  | ok t2 =>
    rw [hm] at h
    exact ⟨t2, rfl, h⟩
  | error e =>
    rw [hm] at h
    cases h

/-- Invariant rule for the iterations of a loop that were completed. -/
theorem forLoop_ok_invariant {σ : Type} (P : Nat → σ → Prop) (body : Nat → σ → Except σ σ)
    (s : σ) (h0 : P 0 s) :
    ∀ n, (∀ k, k < n → ∀ a b, P k a → body k a = Except.ok b → P (k + 1) b) →
      ∀ t, forLoop n body s = Except.ok t → P n t := by
  intro n
  induction n with
  | zero =>
    intro _ t h
    cases h
    exact h0
  | succ m ih =>
    intro hstep t h
    obtain ⟨t2, h1, h2⟩ := forLoop_ok_split h
    exact hstep m (by omega) t2 t (ih (fun k hk => hstep k (by omega)) t2 h1) h2

theorem scanBounds_next_row {columns i : Nat} {s : SearchState}
    (h : ScanBounds columns i columns s) : ScanBounds columns (i + 1) 0 s := by
  obtain ⟨h1, h2, h3⟩ := h
  refine ⟨fun hf => ?_, h2, fun hf => ?_⟩
  · obtain ⟨a1, a2, a3, a4, a5⟩ := h1 hf
    exact ⟨a1, a2, a3, a4, by omega⟩
  · obtain ⟨a1, a2, a3⟩ := h3 hf
    exact ⟨a1, a2, by push_cast; omega⟩

/-- The bounds of the scan hold after the fields of a row that were read
without a jump. -/
theorem searchCells_scanBounds (rectangle : Nat → Char) (columns i : Nat) (s : SearchState)
    (h0 : ScanBounds columns i 0 s) :
    ∀ j, j ≤ columns → ∀ u,
      forLoop j (fun j2 t => searchCell rectangle columns i j2 t) s = Except.ok u →
      ScanBounds columns i j u := by
  intro j hj u hu
  exact forLoop_ok_invariant (fun j2 t => ScanBounds columns i j2 t) _ s h0 j
    (fun k hk a b hP hres =>
      searchCell_scanBounds rectangle columns i k a b (by omega) hP hres) u hu

/-- The bounds of the scan hold after the rows that were read without a
jump. -/
theorem searchRows_scanBounds (rectangle : Nat → Char) (columns : Nat) :
    ∀ i t, forLoop i (fun i2 s => searchRow rectangle columns i2 s) searchInit = Except.ok t →
      ScanBounds columns i 0 t := by
  intro i t ht
  refine forLoop_ok_invariant (fun i2 s => ScanBounds columns i2 0 s) _ searchInit
    ⟨fun h => by simp [searchInit] at h, fun h => by simp [searchInit] at h,
      fun h => by simp [searchInit] at h⟩ i (fun k _ a b hP hres => ?_) t ht
  unfold searchRow at hres
  exact scanBounds_next_row
    (searchCells_scanBounds rectangle columns k a hP columns (Nat.le_refl _) b hres)

/-- The fields of row `i` before column `j` are read alike on grids that agree
before the index `i * columns + j`. -/
theorem searchCells_congr (rectangle rectangle2 : Nat → Char) (columns i j : Nat)
    (s : SearchState) (hsame : ∀ m, m < i * columns + j → rectangle2 m = rectangle m) :
    forLoop j (fun j2 t => searchCell rectangle2 columns i j2 t) s =
      forLoop j (fun j2 t => searchCell rectangle columns i j2 t) s := by
  apply forLoop_congr
  intro j2 hj2 t
  apply searchCell_congr
  apply hsame
  omega

/-- The rows before row `i` are read alike on grids that agree before the
index `i * columns`. -/
theorem searchRows_congr (rectangle rectangle2 : Nat → Char) (columns i : Nat)
    (s : SearchState) (hsame : ∀ m, m < i * columns → rectangle2 m = rectangle m) :
    forLoop i (fun i2 t => searchRow rectangle2 columns i2 t) s =
      forLoop i (fun i2 t => searchRow rectangle columns i2 t) s := by
  apply forLoop_congr
  intro i2 hi2 t
  unfold searchRow
  apply searchCells_congr
  intro m hm
  apply hsame
  have : (i2 + 1) * columns ≤ i * columns := Nat.mul_le_mul_right columns (by omega)
  rw [Nat.succ_mul] at this
  omega

/-- In every state within the bounds of the scan there is a colour on which
the step for the next field does not jump: `BLACK` inside an open box right
of its first column, `WHITE` otherwise. -/
theorem searchCell_can_continue (columns i j : Nat) (s : SearchState)
    (hb : ScanBounds columns i j s) :
    ∃ c : Char, ∀ rectangle : Nat → Char, rectangle (i * columns + j) = c →
      ∃ u, searchCell rectangle columns i j s = Except.ok u := by
  obtain ⟨⟨st, rs, cs, re, ce⟩, fS, fR, fC⟩ := s
  unfold ScanBounds at hb
  simp only at hb
  obtain ⟨h1, h2, h3⟩ := hb
  by_cases hin : fS = true ∧ fC = true ∧ fR = false ∧ cs < (j : Int) ∧ (j : Int) ≤ ce
  · obtain ⟨g1, g2, g3, g4, g5⟩ := hin
    refine ⟨BLACK, fun rectangle hcell => ?_⟩
    have hne : ¬ rectangle (i * columns + j) = WHITE := by
      rw [hcell]; exact black_ne_white
    have hge : (j : Int) ≥ cs := by omega
    subst g1; subst g2; subst g3
    refine ⟨⟨⟨st, rs, cs, re, ce⟩, true, false, true⟩, ?_⟩
    simp [searchCell, hne, hge, g5]
  · refine ⟨WHITE, fun rectangle hcell => ?_⟩
    unfold searchCell
    simp only [hcell, if_true]
    split_ifs with a1 a2 a3 a4 a5 a6 a7
    · exfalso
      obtain ⟨_, _, b3⟩ := h3 a4
      omega
    · exact ⟨_, rfl⟩
    · exact ⟨_, rfl⟩
    · exfalso
      apply hin
      refine ⟨a1.1, a2, by simpa using a4, ?_, a3⟩
      have := a1.2
      omega
    · exact ⟨_, rfl⟩
    · exact ⟨_, rfl⟩
    · exact ⟨_, rfl⟩
    · exact ⟨_, rfl⟩

/-- A row read without a jump up to column `j` can be finished without a jump
by choosing the fields from column `j` on. -/
theorem searchRow_completion (columns i : Nat) (s0 : SearchState) :
    ∀ d j (rectangle : Nat → Char) (u : SearchState), j + d = columns →
      forLoop j (fun j2 s => searchCell rectangle columns i j2 s) s0 = Except.ok u →
      ScanBounds columns i j u →
      ∃ rectangle2 : Nat → Char,
        (∀ m, m < i * columns + j → rectangle2 m = rectangle m) ∧
        ∃ t, searchRow rectangle2 columns i s0 = Except.ok t ∧
          ScanBounds columns i columns t := by
  intro d
  induction d with
  | zero =>
    intro j rectangle u hj hu hb
    have : j = columns := by omega
    subst this
    exact ⟨rectangle, fun _ _ => rfl, u, hu, hb⟩
  | succ d ih =>
    intro j rectangle u hj hu hb
    obtain ⟨c, hc⟩ := searchCell_can_continue columns i j u hb
    have hsame : ∀ m, m < i * columns + j →
        (fun m2 => if m2 = i * columns + j then c else rectangle m2) m = rectangle m := by
      intro m hm
      simp only
      rw [if_neg (by omega)]
    obtain ⟨u2, hu2⟩ := hc (fun m2 => if m2 = i * columns + j then c else rectangle m2)
      (by simp)
    have hpre := searchCells_congr rectangle _ columns i j s0 hsame
    rw [hu] at hpre
    have hnext := forLoop_succ_ok hpre
    rw [hu2] at hnext
    obtain ⟨rectangle2, hagree, t, ht, hbt⟩ := ih (j + 1) _ u2 (by omega) hnext
      (searchCell_scanBounds _ columns i j u u2 (by omega) hb hu2)
    refine ⟨rectangle2, fun m hm => ?_, t, ht, hbt⟩
    rw [hagree m (by omega)]
    exact hsame m hm

/-- A scan that read the rows before row `i` without a jump can be finished
without a jump by choosing the fields from row `i` on. -/
theorem searchLoop_completion (rows columns : Nat) :
    ∀ d i (rectangle : Nat → Char) (t : SearchState), i + d = rows →
      forLoop i (fun i2 s => searchRow rectangle columns i2 s) searchInit = Except.ok t →
      ScanBounds columns i 0 t →
      ∃ rectangle2 : Nat → Char,
        (∀ m, m < i * columns → rectangle2 m = rectangle m) ∧
        ∃ t2, searchLoop rectangle2 rows columns = Except.ok t2 ∧
          ScanBounds columns rows 0 t2 := by
  intro d
  induction d with
  | zero =>
    intro i rectangle t hi ht hb
    have : i = rows := by omega
    subst this
    exact ⟨rectangle, fun _ _ => rfl, t, ht, hb⟩
  | succ d ih =>
    intro i rectangle t hi ht hb
    obtain ⟨rectangle1, hagree1, t1, ht1, hb1⟩ :=
      searchRow_completion columns i t columns 0 rectangle t (by omega) rfl hb
    have hpre := searchRows_congr rectangle rectangle1 columns i searchInit
      (fun m hm => hagree1 m (by omega))
    rw [ht] at hpre
    have hnext := forLoop_succ_ok hpre
    simp only at hnext
    rw [ht1] at hnext
    obtain ⟨rectangle2, hagree2, t2, ht2, hb2⟩ := ih (i + 1) rectangle1 t1 (by omega) hnext
      (scanBounds_next_row hb1)
    refine ⟨rectangle2, fun m hm => ?_, t2, ht2, hb2⟩
    rw [hagree2 m (by rw [Nat.succ_mul]; omega)]
    exact hagree1 m (by omega)

/-- A scan that was not left by `goto` does not return status 2. -/
theorem search_ok_status (rectangle : Nat → Char) (rows columns : Nat) (t : SearchState)
    (ht : searchLoop rectangle rows columns = Except.ok t)
    (hb : ScanBounds columns rows 0 t) : (search rectangle rows columns).status ≠ 2 := by
  unfold search
  rw [ht]
  simp only [searchFinish_status]
  cases hfs : t.foundStart with
  | false => simp
  | true =>
    have := (hb.1 hfs).1
    simp [this]

/-- No jump is forced before the field at which the scan is left: the fields
from that one on can be chosen so that `search` does not return status 2. -/
theorem search_exit_first (rectangle : Nat → Char) (rows columns i0 j0 : Nat)
    (e : SearchState) (hexit : ExitsAt rectangle rows columns i0 j0 e) :
    ∃ rectangle2 : Nat → Char,
      (∀ m, m < i0 * columns + j0 → rectangle2 m = rectangle m) ∧
      (search rectangle2 rows columns).status ≠ 2 := by
  obtain ⟨hi0, hj0, t, u, hrows, hcells, _⟩ := hexit
  have hbt := searchRows_scanBounds rectangle columns i0 t hrows
  have hbu := searchCells_scanBounds rectangle columns i0 t hbt j0 (by omega) u hcells
  obtain ⟨rectangle1, hagree1, t1, ht1, hb1⟩ :=
    searchRow_completion columns i0 t (columns - j0) j0 rectangle u (by omega) hcells hbu
  have hpre := searchRows_congr rectangle rectangle1 columns i0 searchInit
    (fun m hm => hagree1 m (by omega))
  rw [hrows] at hpre
  have hnext := forLoop_succ_ok hpre
  simp only at hnext
  rw [ht1] at hnext
  obtain ⟨rectangle2, hagree2, t2, ht2, hb2⟩ :=
    searchLoop_completion rows columns (rows - (i0 + 1)) (i0 + 1) rectangle1 t1 (by omega)
      hnext (scanBounds_next_row hb1)
  refine ⟨rectangle2, fun m hm => ?_, search_ok_status rectangle2 rows columns t2 ht2 hb2⟩
  rw [hagree2 m (by rw [Nat.succ_mul]; omega)]
  exact hagree1 m hm

/-- C14: when `search` returns status 2, the scan was left by
`goto moreThenOne` at one field `(i0, j0)`, the position
`k = i0 * columns + j0` in row-major order, with the returned values those of
the state at the jump.  On every partition of the same `rows` and `columns`
with the same fields at the positions `0 .. k`, `search` returns the same five
values, so the fields behind `k`, the last field read after the loops among
them, have no influence.  The field `k` is the one that proves the
inconsistency: some partition with the same fields at the positions before
`k` does not get status 2. -/
theorem search_many_early_exit (rectangle : Nat → Char) (rows columns : Nat)
    (h : (search rectangle rows columns).status = 2) :
    ∃ i0 j0 e, ExitsAt rectangle rows columns i0 j0 e ∧
      i0 * columns + j0 < rows * columns ∧
      search rectangle rows columns = { e.result with status := 2 } ∧
      (∀ rectangle2 : Nat → Char,
        (∀ m, m ≤ i0 * columns + j0 → rectangle2 m = rectangle m) →
        search rectangle2 rows columns = search rectangle rows columns ∧
        (search rectangle2 rows columns).status = 2) ∧
      (∃ rectangle2 : Nat → Char,
        (∀ m, m < i0 * columns + j0 → rectangle2 m = rectangle m) ∧
        (search rectangle2 rows columns).status ≠ 2) := by
  obtain ⟨e, he⟩ := search_many_exit rectangle rows columns h
  have he2 := he
  unfold searchLoop at he2
  obtain ⟨i0, hi0, t, hrows, hrow⟩ := forLoop_error_split rows he2
  unfold searchRow at hrow
  obtain ⟨j0, hj0, u, hcells, hexit⟩ := forLoop_error_split columns hrow
  have hex : ExitsAt rectangle rows columns i0 j0 e := ⟨hi0, hj0, t, u, hrows, hcells, hexit⟩
  refine ⟨i0, j0, e, hex, ?_, ?_, ?_, search_exit_first rectangle rows columns i0 j0 e hex⟩
  · have : (i0 + 1) * columns ≤ rows * columns := Nat.mul_le_mul_right columns (by omega)
    rw [Nat.succ_mul] at this
    omega
  · unfold search
    rw [he]
  · intro rectangle2 hsame
    have h2 := searchLoop_exit_stable rectangle rectangle2 rows columns i0 j0 t u e hi0 hj0
      hrows hcells hexit hsame
    have heq : search rectangle2 rows columns = search rectangle rows columns := by
      unfold search
      rw [h2, he]
    exact ⟨heq, by rw [heq]; exact h⟩

/-- C14 at the 2 x 3 grid `gridGap`: the scan is left at the third of six
fields, in the state with start (0,0) and column end 0; the grid
`gridGapTail`, which differs behind that field and in the last field, gets
the same result, and the grid `gridGapClosed`, which differs at that field,
gets status 1. -/
theorem search_many_early_exit_witness :
    (search gridGap 2 3).status = 2 ∧
    (∃ i0 j0 e, ExitsAt gridGap 2 3 i0 j0 e ∧
      i0 * 3 + j0 < 2 * 3 ∧
      search gridGap 2 3 = { e.result with status := 2 } ∧
      (∀ rectangle2 : Nat → Char,
        (∀ m, m ≤ i0 * 3 + j0 → rectangle2 m = gridGap m) →
        search rectangle2 2 3 = search gridGap 2 3 ∧ (search rectangle2 2 3).status = 2) ∧
      (∃ rectangle2 : Nat → Char,
        (∀ m, m < i0 * 3 + j0 → rectangle2 m = gridGap m) ∧
        (search rectangle2 2 3).status ≠ 2)) ∧
    ExitsAt gridGap 2 3 0 2 (colState 0 0 0) ∧
    (∀ m, m ≤ 0 * 3 + 2 → gridGapTail m = gridGap m) ∧
    search gridGapTail 2 3 = search gridGap 2 3 ∧
    (∀ m, m < 0 * 3 + 2 → gridGapClosed m = gridGap m) ∧
    (search gridGapClosed 2 3).status = 1 :=
  ⟨by decide, search_many_early_exit gridGap 2 3 (by decide),
    ⟨by decide, by decide, searchInit, colState 0 0 0, rfl, rfl, rfl⟩,
    by decide, by decide, by decide, by decide⟩

/-! ### A white field below the start while the column end is open -/

/-- C15 (counterexample): on the 2 x 2 grid with the only marked field (0,1)
the scan of row 0 ends in the state with start (0,1) and no end fixed; the
white field (1,1) below the start is then read on the row after the start
row with `foundColumnEnd` false, and the step sets `colEnd` to
`columns - 1 = 1`, not to `j - 1 = 0`, and fixes the row end as well. -/
theorem search_white_below_start_column_end :
    searchRow gridCorner 2 0 searchInit = Except.ok (openState 0 1) ∧
    searchCell gridCorner 2 1 0 (openState 0 1) = Except.ok (openState 0 1) ∧
    gridCorner (1 * 2 + 1) = WHITE ∧
    (openState 0 1).foundColumnEnd = false ∧
    ((1 : Nat) : Int) = (openState 0 1).result.colStart ∧
    ((1 : Nat) : Int) = (openState 0 1).result.rowStart + 1 ∧
    searchCell gridCorner 2 1 1 (openState 0 1) = Except.ok (doneState 0 1 0 1) ∧
    (doneState 0 1 0 1).result.colEnd ≠ ((1 : Nat) : Int) - 1 :=
  ⟨rfl, rfl, by decide, by decide, by decide, by decide, rfl, by decide⟩

/-- C15 (amended): a white field read at column `j = colStart` on the row
after the start row while `foundColumnEnd` is false fixes both ends: `rowEnd`
becomes `i - 1`, `colEnd` becomes `columns - 1`, and both the column-end and
the row-end flag are set. -/
theorem searchCell_white_below_start (rectangle : Nat → Char) (columns i j : Nat)
    (s : SearchState) (hw : rectangle (i * columns + j) = WHITE)
    (hs : s.foundStart = true) (hc : s.foundColumnEnd = false)
    (hj : (j : Int) = s.result.colStart) (hi : (i : Int) = s.result.rowStart + 1) :
    searchCell rectangle columns i j s =
      Except.ok { s with result := { s.result with rowEnd := (i : Int) - 1,
                                                    colEnd := (columns : Int) - 1 },
                         foundColumnEnd := true, foundRowEnd := true } := by
  have h1 : (j : Int) ≥ s.result.colStart := by omega
  have h2 : ¬ ((i : Int) = s.result.rowStart) := by omega
  simp [searchCell, hw, hs, hc, h1, h2]

/-- C15 (amended) at the field (1,1) of the 2 x 2 grid with the only marked
field (0,1). -/
theorem searchCell_white_below_start_witness :
    gridCorner (1 * 2 + 1) = WHITE ∧ (openState 0 1).foundStart = true ∧
    (openState 0 1).foundColumnEnd = false ∧
    ((1 : Nat) : Int) = (openState 0 1).result.colStart ∧
    ((1 : Nat) : Int) = (openState 0 1).result.rowStart + 1 ∧
    searchCell gridCorner 2 1 1 (openState 0 1) =
      Except.ok { openState 0 1 with
        result := { (openState 0 1).result with rowEnd := ((1 : Nat) : Int) - 1,
                                                 colEnd := ((2 : Nat) : Int) - 1 },
        foundColumnEnd := true, foundRowEnd := true } :=
  ⟨by decide, by decide, by decide, by decide, by decide,
    searchCell_white_below_start gridCorner 2 1 1 (openState 0 1) (by decide) (by decide)
      (by decide) (by decide) (by decide)⟩

/-! ### `createRectangle` against the fold of the rules -/

theorem forCount_succ {σ : Type} (n : Nat) (body : Nat → σ → σ) (s : σ) :
    forCount (n + 1) body s = body n (forCount n body s) := rfl

/-- Two fields of the grid with the same index are the same field. -/
theorem index_unique (columns : Nat) (i j : Nat) (i2 j2 : Int) (hj : j < columns)
    (h0 : 0 ≤ j2) (h1 : j2 < (columns : Int))
    (h : ((i * columns + j : Nat) : Int) = i2 * (columns : Int) + j2) :
    (i : Int) = i2 ∧ (j : Int) = j2 := by
  push_cast at h
  have hd : ((i : Int) - i2) * (columns : Int) = j2 - (j : Int) := by
    rw [sub_mul]; omega
  have hi : (i : Int) - i2 = 0 := by
    rcases lt_trichotomy ((i : Int) - i2) 0 with hneg | hz | hpos
    · exfalso
      have : ((i : Int) - i2) * (columns : Int) ≤ (-1) * (columns : Int) :=
        Int.mul_le_mul_of_nonneg_right (by omega) (by omega)
      omega
    · exact hz
    · exfalso
      have : 1 * (columns : Int) ≤ ((i : Int) - i2) * (columns : Int) :=
        Int.mul_le_mul_of_nonneg_right (by omega) (by omega)
      omega
  rw [hi] at hd
  omega

/-- The inner loop of one `case`, run for the `n` columns from `c1` on in the
row `i2`, applies `f` to the fields of these columns in that row and leaves
every other field of the grid as it was. -/
theorem paintRow_cell (columns : Nat) (f : Char → Char)
    (cell : Int → (Nat → Char) → (Nat → Char))
    (hcell : ∀ idx rect, cell idx rect = store rect idx (f (load rect idx)))
    (i2 c1 : Int) (hc1 : 0 ≤ c1) (rect : Nat → Char) (i j : Nat) (hj : j < columns) :
    ∀ n : Nat, (∀ k : Nat, k < n → c1 + (k : Int) < (columns : Int)) →
      forCount n (fun k t => cell (i2 * (columns : Int) + (c1 + (k : Int))) t) rect
          (i * columns + j) =
        if (i : Int) = i2 ∧ c1 ≤ (j : Int) ∧ (j : Int) < c1 + (n : Int) then
          f (rect (i * columns + j))
        else rect (i * columns + j) := by
  intro n
  induction n with
  | zero =>
    intro _
    rw [if_neg (by omega)]
    rfl
  | succ m ih =>
    intro hn
    have ihm := ih (fun k hk => hn k (by omega))
    have hm := hn m (by omega)
    rw [forCount_succ, hcell]
    unfold store
    by_cases hidx : ((i * columns + j : Nat) : Int) = i2 * (columns : Int) + (c1 + (m : Int))
    · obtain ⟨e1, e2⟩ := index_unique columns i j i2 (c1 + (m : Int)) hj (by omega) hm hidx
      rw [if_pos hidx, if_pos ⟨e1, by omega, by push_cast; omega⟩]
      unfold load
      rw [← hidx, Int.toNat_natCast, ihm, if_neg (by omega)]
    · rw [if_neg hidx, ihm]
      have hne : ¬ ((i : Int) = i2 ∧ (j : Int) = c1 + (m : Int)) := by
        rintro ⟨e1, e2⟩
        apply hidx
        push_cast
        rw [e1, e2]
      by_cases hcond : (i : Int) = i2 ∧ c1 ≤ (j : Int) ∧ (j : Int) < c1 + (m : Int)
      · rw [if_pos hcond, if_pos ⟨hcond.1, hcond.2.1, by push_cast; omega⟩]
      · rw [if_neg hcond, if_neg]
        rintro ⟨e1, e2, e3⟩
        push_cast at e3
        by_cases hjm : (j : Int) = c1 + (m : Int)
        · exact hne ⟨e1, hjm⟩
        · exact hcond ⟨e1, e2, by omega⟩

/-- The inner loop `for (j = c1; j <= c2; j++)` in the row `i2`. -/
theorem paintRange_cell (columns : Nat) (f : Char → Char)
    (cell : Int → (Nat → Char) → (Nat → Char))
    (hcell : ∀ idx rect, cell idx rect = store rect idx (f (load rect idx)))
    (i2 c1 c2 : Int) (hc1 : 0 ≤ c1) (hc2 : c2 < (columns : Int)) (rect : Nat → Char)
    (i j : Nat) (hj : j < columns) :
    forRange c1 c2 (fun j2 t => cell (i2 * (columns : Int) + j2) t) rect (i * columns + j) =
      if (i : Int) = i2 ∧ c1 ≤ (j : Int) ∧ (j : Int) ≤ c2 then f (rect (i * columns + j))
      else rect (i * columns + j) := by
  unfold forRange
  rw [paintRow_cell columns f cell hcell i2 c1 hc1 rect i j hj (c2 + 1 - c1).toNat
    (fun k hk => by omega)]
  by_cases hcond : (i : Int) = i2 ∧ c1 ≤ (j : Int) ∧ (j : Int) ≤ c2
  · rw [if_pos hcond, if_pos ⟨hcond.1, hcond.2.1, by omega⟩]
  · rw [if_neg hcond, if_neg]
    rintro ⟨e1, e2, e3⟩
    exact hcond ⟨e1, e2, by omega⟩

/-- The outer loop of one `case`, run for the `m` rows from `r1` on. -/
theorem paintRows_cell (columns : Nat) (f : Char → Char)
    (cell : Int → (Nat → Char) → (Nat → Char))
    (hcell : ∀ idx rect, cell idx rect = store rect idx (f (load rect idx)))
    (r1 c1 c2 : Int) (hc1 : 0 ≤ c1) (hc2 : c2 < (columns : Int)) (rect : Nat → Char)
    (i j : Nat) (hj : j < columns) :
    ∀ m : Nat,
      forCount m (fun k t =>
          forRange c1 c2 (fun j2 t2 => cell ((r1 + (k : Int)) * (columns : Int) + j2) t2) t)
          rect (i * columns + j) =
        if r1 ≤ (i : Int) ∧ (i : Int) < r1 + (m : Int) ∧ c1 ≤ (j : Int) ∧ (j : Int) ≤ c2 then
          f (rect (i * columns + j))
        else rect (i * columns + j) := by
  intro m
  induction m with
  | zero =>
    rw [if_neg (by omega)]
    rfl
  | succ m ih =>
    rw [forCount_succ,
      paintRange_cell columns f cell hcell (r1 + (m : Int)) c1 c2 hc1 hc2 _ i j hj, ih]
    by_cases hrow : (i : Int) = r1 + (m : Int)
    · by_cases hcol : c1 ≤ (j : Int) ∧ (j : Int) ≤ c2
      · rw [if_pos ⟨hrow, hcol⟩, if_neg (by omega),
          if_pos ⟨by omega, by push_cast; omega, hcol⟩]
      · rw [if_neg (fun h => hcol h.2), if_neg (by omega), if_neg (fun h => hcol h.2.2)]
    · rw [if_neg (fun h => hrow h.1)]
      by_cases hcond : r1 ≤ (i : Int) ∧ (i : Int) < r1 + (m : Int) ∧ c1 ≤ (j : Int) ∧
          (j : Int) ≤ c2
      · rw [if_pos hcond, if_pos ⟨hcond.1, by push_cast; omega, hcond.2.2⟩]
      · rw [if_neg hcond, if_neg]
        rintro ⟨e1, e2, e3⟩
        push_cast at e2
        exact hcond ⟨e1, by omega, e3⟩

/-- The two nested loops of one `case` apply `f` once to every field of the
box and leave the fields outside it as they were. -/
theorem paintLoops_cell (columns : Nat) (f : Char → Char)
    (cell : Int → (Nat → Char) → (Nat → Char))
    (hcell : ∀ idx rect, cell idx rect = store rect idx (f (load rect idx)))
    (r1 c1 r2 c2 : Int) (hc1 : 0 ≤ c1) (hc2 : c2 < (columns : Int)) (rect : Nat → Char)
    (i j : Nat) (hj : j < columns) :
    paintLoops columns r1 c1 r2 c2 cell rect (i * columns + j) =
      if r1 ≤ (i : Int) ∧ (i : Int) ≤ r2 ∧ c1 ≤ (j : Int) ∧ (j : Int) ≤ c2 then
        f (rect (i * columns + j))
      else rect (i * columns + j) := by
  unfold paintLoops forRange
  have h := paintRows_cell columns f cell hcell r1 c1 c2 hc1 hc2 rect i j hj
    (r2 + 1 - r1).toNat
  unfold forRange at h
  rw [h]
  by_cases hcond : r1 ≤ (i : Int) ∧ (i : Int) ≤ r2 ∧ c1 ≤ (j : Int) ∧ (j : Int) ≤ c2
  · rw [if_pos hcond, if_pos ⟨hcond.1, by omega, hcond.2.2⟩]
  · rw [if_neg hcond, if_neg]
    rintro ⟨e1, e2, e3⟩
    exact hcond ⟨e1, by omega, e3⟩

/-- One rule applies its mode once to every field of its box and leaves the
other fields of the grid as they were. -/
theorem applyRule_cell (config : Config) (n : Nat) (rect : Nat → Char) (i j : Nat)
    (hc1 : 0 ≤ config.rules (n * RULE_MEMBERS + 2))
    (hc2 : config.rules (n * RULE_MEMBERS + 4) < (config.columns : Int))
    (hj : j < config.columns) :
    applyRule config n rect (i * config.columns + j) =
      if ruleCovers config n i j then
        paintMode (config.rules (n * RULE_MEMBERS)) (rect (i * config.columns + j))
      else rect (i * config.columns + j) := by
  unfold applyRule ruleCovers
  by_cases h0 : config.rules (n * RULE_MEMBERS) = 0
  · rw [if_pos h0,
      paintLoops_cell config.columns (fun _ => WHITE) _ (fun _ _ => rfl) _ _ _ _ hc1 hc2 rect
        i j hj]
    simp [paintMode, h0]
  · rw [if_neg h0]
    by_cases h1 : config.rules (n * RULE_MEMBERS) = 1
    · rw [if_pos h1,
        paintLoops_cell config.columns (fun _ => BLACK) _ (fun _ _ => rfl) _ _ _ _ hc1 hc2 rect
          i j hj]
      simp [paintMode, h1]
    · rw [if_neg h1]
      by_cases h2 : config.rules (n * RULE_MEMBERS) = 2
      · rw [if_pos h2,
          paintLoops_cell config.columns (fun c => if c = WHITE then BLACK else WHITE) _
            (fun idx r => by by_cases hw : load r idx = WHITE <;> simp [hw])
            _ _ _ _ hc1 hc2 rect i j hj]
        simp [paintMode, h2]
      · rw [if_neg h2]
        simp [paintMode, h0, h1, h2]

/-- The grid after the first `m` rules, field by field. -/
theorem createRectangle_upto (config : Config) (fresh : Nat → Char) (i j : Nat)
    (hj : j < config.columns) :
    ∀ m : Nat, m ≤ config.rulesCount →
      (∀ n, n < m → 0 ≤ config.rules (n * RULE_MEMBERS + 2) ∧
        config.rules (n * RULE_MEMBERS + 4) < (config.columns : Int)) →
      forCount m (fun n rect => applyRule config n rect) fresh (i * config.columns + j) =
        ((List.range m).filter (fun n => decide (ruleCovers config n i j))).foldl
          (fun x n => paintMode (config.rules (n * RULE_MEMBERS)) x)
          (fresh (i * config.columns + j)) := by
  intro m
  induction m with
  | zero => intro _ _; rfl
  | succ m ih =>
    intro hm hin
    have ihm := ih (by omega) (fun n hn => hin n (by omega))
    obtain ⟨hc1, hc2⟩ := hin m (by omega)
    rw [forCount_succ, applyRule_cell config m _ i j hc1 hc2 hj, ihm, List.range_succ,
      List.filter_append, List.foldl_append]
    by_cases hcov : ruleCovers config m i j
    · rw [if_pos hcov]
      simp [hcov]
    · rw [if_neg hcov]
      simp [hcov]

/-- C13: for a configuration whose rule boxes lie inside the grid, every field
`(i, j)` with `j < columns` of the grid built by `createRectangle` holds the
fold, in list order from the content the field had in the fresh buffer, of
the modes of exactly the rules whose inclusive box contains `(i, j)`: kind 1
gives `BLACK`, kind 0 gives `WHITE`, kind 2 turns `WHITE` into `BLACK` and
anything else into `WHITE`, any other kind changes nothing; a field in no box
keeps its content. -/
theorem createRectangle_refines_fold (config : Config) (fresh : Nat → Char)
    (hin : RulesInside config) (i j : Nat) (hj : j < config.columns) :
    createRectangle config fresh (i * config.columns + j) =
      paintedField config i j (fresh (i * config.columns + j)) ∧
    ((∀ n, n < config.rulesCount → ¬ ruleCovers config n i j) →
      createRectangle config fresh (i * config.columns + j) =
        fresh (i * config.columns + j)) := by
  have hmain : createRectangle config fresh (i * config.columns + j) =
      paintedField config i j (fresh (i * config.columns + j)) := by
    unfold createRectangle paintedField
    exact createRectangle_upto config fresh i j hj config.rulesCount (Nat.le_refl _)
      (fun n hn => ⟨(hin n hn).2.2.1, (hin n hn).2.2.2⟩)
  refine ⟨hmain, fun hnone => ?_⟩
  rw [hmain]
  unfold paintedField
  have hnil : (List.range config.rulesCount).filter
      (fun n => decide (ruleCovers config n i j)) = [] := by
    rw [List.filter_eq_nil_iff]
    intro n hn
    have := hnone n (List.mem_range.mp hn)
    simpa using this
  rw [hnil]
  rfl

/-- C13 at the field (1,1) of the 2 x 3 sample configuration, which is set by
the first rule, toggled by the second and cleared by the fourth. -/
theorem createRectangle_refines_fold_witness :
    RulesInside configSample ∧ 1 < configSample.columns ∧
    ∀ fresh : Nat → Char,
      createRectangle configSample fresh (1 * configSample.columns + 1) =
        paintedField configSample 1 1 (fresh (1 * configSample.columns + 1)) ∧
      ((∀ n, n < configSample.rulesCount → ¬ ruleCovers configSample n 1 1) →
        createRectangle configSample fresh (1 * configSample.columns + 1) =
          fresh (1 * configSample.columns + 1)) :=
  ⟨by decide, by decide,
    fun fresh => createRectangle_refines_fold configSample fresh (by decide) 1 1 (by decide)⟩

end PatternMatching
